import Mathlib

/-
Verification of the server core in src/core/surface/server.c.

The development shallowly embeds the server surface:
* the per-call state machine (call_state, call_data),
* request matchers (pending-call FIFO + lock-free index stack, modelled as lists),
* the requested_call backing array, freelist and ticket completions,
* dispatch (server_on_recv / start_new_rpc / finish_start_new_rpc),
* ticket submission and the pairing drain (queue_call_request),
* shutdown orchestration (kill_pending_work_locked, maybe_finish_shutdown,
  grpc_server_shutdown_and_notify),
* the per-channel registered-method probe table (grpc_server_setup_transport
  build + start_new_rpc lookup),
* grpc_server_register_method.

Concurrency is modelled by interleaving whole critical sections as atomic
steps of an inductive step relation `Step`; the mutation of every field
inside a step follows the C control flow.  The lock-free stacks are
linearizable, so their push/pop are list operations; acquire/release atomics
on shutdown_flag become plain reads/writes of a Bool field.
-/

set_option maxHeartbeats 1000000

namespace GrpcServer

/-- Occurrence count of an element in a list (used for FIFO membership
multiplicities and completion counting). -/
def cnt {α : Type} [DecidableEq α] (a : α) : List α → Nat
  | [] => 0
  | x :: xs => (if x = a then 1 else 0) + cnt a xs

theorem cnt_nil {α : Type} [DecidableEq α] (a : α) : cnt a ([] : List α) = 0 := rfl

theorem cnt_cons {α : Type} [DecidableEq α] (a x : α) (l : List α) :
    cnt a (x :: l) = (if x = a then 1 else 0) + cnt a l := rfl

theorem cnt_append {α : Type} [DecidableEq α] (a : α) (l₁ l₂ : List α) :
    cnt a (l₁ ++ l₂) = cnt a l₁ + cnt a l₂ := by
  induction l₁ with
  | nil => simp [cnt]
  | cons x xs ih => simp [cnt, ih]; omega

theorem cnt_eq_zero_of_not_mem {α : Type} [DecidableEq α] {a : α} {l : List α}
    (h : a ∉ l) : cnt a l = 0 := by
  induction l with
  | nil => rfl
  | cons x xs ih =>
    simp only [List.mem_cons, not_or] at h
    have hxa : ¬ x = a := fun hx => h.1 hx.symm
    simp [cnt, ih h.2, hxa]

theorem mem_of_cnt_pos {α : Type} [DecidableEq α] {a : α} {l : List α}
    (h : 0 < cnt a l) : a ∈ l := by
  by_contra hm
  rw [cnt_eq_zero_of_not_mem hm] at h
  omega

theorem cnt_pos_of_mem {α : Type} [DecidableEq α] {a : α} {l : List α}
    (h : a ∈ l) : 0 < cnt a l := by
  induction l with
  | nil => cases h
  | cons x xs ih =>
    rcases List.mem_cons.mp h with h1 | h2
    · simp [cnt, h1]
    · have := ih h2
      simp [cnt]
      omega

/-- Pointwise function update (models a store through a pointer / array slot). -/
def upd {α : Type} (f : Nat → α) (i : Nat) (v : α) : Nat → α :=
  fun j => if j = i then v else f j

theorem upd_self {α : Type} (f : Nat → α) (i : Nat) (v : α) : upd f i v i = v := by
  simp [upd]

theorem upd_ne {α : Type} (f : Nat → α) (i : Nat) (v : α) {j : Nat} (h : j ≠ i) :
    upd f i v j = f j := by
  simp [upd, h]

theorem foldl_preserve {σ α : Type} (P : σ → Prop) (f : σ → α → σ)
    (hf : ∀ s a, P s → P (f s a)) :
    ∀ (l : List α) (s : σ), P s → P (l.foldl f s) := by
  intro l
  induction l with
  | nil => intro s hs; exact hs
  | cons x xs ih => intro s hs; exact ih (f s x) (hf s x hs)

/-! ## Data model (structs of server.c) -/

/-- call_state enum of server.c. -/
inductive call_state where
  | NOT_STARTED
  | PENDING
  | ACTIVATED
  | ZOMBIED
deriving DecidableEq, Repr

/-- Per-call data (struct call_data), restricted to the fields the claims
are about.  `matcher` records which request matcher the call was routed to
(the pointer argument of finish_start_new_rpc); `killScheduled` counts how
many times kill_zombie_closure was added to a closure list; `awaiting` holds,
for an ACTIVATED call, the requested_calls index whose completion
publish_registered_or_batch will post; `destroyed` records that
destroy_call_elem ran. -/
structure call_data where
  state : call_state
  matcher : Nat
  killScheduled : Nat
  awaiting : Option Nat
  gotInitialMetadata : Bool
  destroyed : Bool
deriving DecidableEq, Repr

/-- struct request_matcher: pending-call FIFO (head first) plus the lock-free
stack of outstanding requested_call indices (head = top of stack). -/
structure request_matcher where
  pending : List Nat
  requests : List Nat
deriving DecidableEq, Repr

/-- One grpc_cq_end_op event on a ticket's notification completion queue.
`callCleared`/`metadataZeroed` record the `*rc->call = NULL` and
`initial_metadata->count = 0` stores that fail_call performs. -/
structure ticket_completion where
  tid : Nat
  success : Bool
  callCleared : Bool
  metadataZeroed : Bool
deriving DecidableEq, Repr

/-- The grpc_server state visible to the claims.  Matcher 0 is the
unregistered_request_matcher; matchers 1..numMatchers-1 belong to registered
methods.  `requested_calls idx` holds the identity (a fresh serial number
assigned at submission) of the ticket currently stored in backing slot
`idx`.  `submitted` records every ticket that entered queue_call_request.
`assertionFailed` is set when a GPR_ASSERT of the modelled code would
abort. -/
structure ServerState where
  shutdown_flag : Bool
  shutdown_published : Bool
  request_freelist : List Nat
  requested_calls : Nat → Nat
  matchers : Nat → request_matcher
  numMatchers : Nat
  calls : Nat → Option call_data
  numCalls : Nat
  nextTid : Nat
  submitted : List Nat
  ticketCompletions : List ticket_completion
  shutdown_tags : List Nat
  shutdownCompletions : List (Nat × Bool)
  nextShutdownTag : Nat
  numChannels : Nat
  numListeners : Nat
  listenersDestroyed : Nat
  assertionFailed : Bool

/-- grpc_call_error values reachable from the request-call paths. -/
inductive grpc_call_error where
  | GRPC_CALL_OK
  | GRPC_CALL_ERROR_NOT_SERVER_COMPLETION_QUEUE
deriving DecidableEq, Repr

/-- The completion fail_call posts (server.c:1427-1442): `*rc->call = NULL`,
metadata count zeroed, success = 0. -/
def fail_call_completion (tid : Nat) : ticket_completion :=
  ⟨tid, false, true, true⟩

/-- The completion publish_registered_or_batch posts (server.c:1444-1454):
success as observed from the ioreq, call pointer and metadata filled by
begin_call / the ioreq rather than cleared. -/
def publish_completion (tid : Nat) (success : Bool) : ticket_completion :=
  ⟨tid, success, false, false⟩

/-! ## Call creation and dispatch -/

/-- init_call_elem (server.c:766-782): a fresh NOT_STARTED call record. -/
def init_call_elem_step (s : ServerState) : ServerState :=
  { s with
    calls := upd s.calls s.numCalls (some ⟨call_state.NOT_STARTED, 0, 0, none, false, false⟩),
    numCalls := s.numCalls + 1 }

/-- The metadata path of server_on_recv (server.c:643-666) followed by
start_new_rpc / finish_start_new_rpc (server.c:457-499) for the matcher `m`
the lookup selected (routing itself is modelled separately, see
start_new_rpc_route):
* shutdown flagged: state := ZOMBIED, schedule kill_zombie;
* ticket stack empty (gpr_stack_lockfree_pop = -1): state := PENDING and
  append to the matcher's pending FIFO tail;
* otherwise: state := ACTIVATED and begin_call with the popped index. -/
def dispatch_rpc (s : ServerState) (c m : Nat) : ServerState :=
  match s.calls c with
  | none => s
  | some cd0 =>
    let cd := { cd0 with gotInitialMetadata := true, matcher := m }
    if s.shutdown_flag then
      { s with calls := upd s.calls c (some { cd with
          state := call_state.ZOMBIED, killScheduled := cd.killScheduled + 1 }) }
    else
      let rm := s.matchers m
      match rm.requests with
      | [] =>
        { s with
          calls := upd s.calls c (some { cd with state := call_state.PENDING }),
          matchers := upd s.matchers m ⟨rm.pending ++ [c], []⟩ }
      | idx :: rest =>
        { s with
          calls := upd s.calls c (some { cd with
            state := call_state.ACTIVATED, awaiting := some idx }),
          matchers := upd s.matchers m ⟨rm.pending, rest⟩ }

/-- GRPC_STREAM_RECV_CLOSED arm of server_on_recv (server.c:674-687):
NOT_STARTED becomes ZOMBIED with a kill scheduled; otherwise nothing. -/
def stream_recv_closed (s : ServerState) (c : Nat) : ServerState :=
  match s.calls c with
  | none => s
  | some cd =>
    if cd.state = call_state.NOT_STARTED then
      { s with calls := upd s.calls c (some { cd with
          state := call_state.ZOMBIED, killScheduled := cd.killScheduled + 1 }) }
    else s

/-- GRPC_STREAM_CLOSED arm of server_on_recv (server.c:688-708):
NOT_STARTED becomes ZOMBIED with a kill scheduled; PENDING becomes ZOMBIED
with NO kill scheduled — the call stays in the pending FIFO ("zombied call
will be destroyed when it's removed from the pending queue... later"). -/
def stream_closed (s : ServerState) (c : Nat) : ServerState :=
  match s.calls c with
  | none => s
  | some cd =>
    if cd.state = call_state.NOT_STARTED then
      { s with calls := upd s.calls c (some { cd with
          state := call_state.ZOMBIED, killScheduled := cd.killScheduled + 1 }) }
    else if cd.state = call_state.PENDING then
      { s with calls := upd s.calls c (some { cd with state := call_state.ZOMBIED }) }
    else s

/-- publish_registered_or_batch (server.c:1444-1454) together with
done_request_event (server.c:1408-1425): post the completion for the ticket
begin_call latched as `awaiting`, then return the backing-array index to the
freelist. -/
def publish_rpc (s : ServerState) (c : Nat) (success : Bool) : ServerState :=
  match s.calls c with
  | none => s
  | some cd =>
    match cd.awaiting with
    | none => s
    | some idx =>
      { s with
        calls := upd s.calls c (some { cd with awaiting := none }),
        ticketCompletions :=
          publish_completion (s.requested_calls idx) success :: s.ticketCompletions,
        request_freelist := idx :: s.request_freelist }

/-- destroy_call_elem (server.c:784-804).  A server call's storage is
released either by the kill_zombie closure (the only grpc_call_destroy
caller for never-activated calls; requires a scheduled kill) or by the
application destroying an ACTIVATED call after its publish completed.
GPR_ASSERT (calld->state != PENDING) is modelled by assertionFailed. -/
def destroy_call_elem_step (s : ServerState) (c : Nat) : ServerState :=
  match s.calls c with
  | none => s
  | some cd =>
    { s with
      calls := upd s.calls c (some { cd with destroyed := true }),
      assertionFailed := s.assertionFailed || decide (cd.state = call_state.PENDING) }

/-! ## Ticket submission and the pairing drain -/

/-- The pairing loop of queue_call_request (server.c:1248-1272), fuelled by
the pending-FIFO length (each iteration removes the FIFO head or stops).
Per iteration: pop a ticket index (break on -1, leaving the FIFO head in
place), detach the FIFO head, then under the call's mu_state either
schedule a kill for a ZOMBIED call — dropping the popped index — or
GPR_ASSERT(PENDING), set ACTIVATED, and begin_call with the popped index. -/
def drainLoop : Nat → ServerState → Nat → ServerState
  | 0, s, _ => s
  | fuel + 1, s, m =>
    let rm := s.matchers m
    match rm.pending with
    | [] => s
    | c :: ps =>
      match rm.requests with
      | [] => s
      | idx :: rest =>
        match s.calls c with
        | none => { s with assertionFailed := true }
        | some cd =>
          if cd.state = call_state.ZOMBIED then
            drainLoop fuel
              { s with
                calls := upd s.calls c (some { cd with killScheduled := cd.killScheduled + 1 }),
                matchers := upd s.matchers m ⟨ps, rest⟩ } m
          else if cd.state = call_state.PENDING then
            drainLoop fuel
              { s with
                calls := upd s.calls c (some { cd with
                  state := call_state.ACTIVATED, awaiting := some idx }),
                matchers := upd s.matchers m ⟨ps, rest⟩ } m
          else { s with assertionFailed := true }

/-- The drain entered when gpr_stack_lockfree_push reported the
empty→non-empty transition. -/
def drain (s : ServerState) (m : Nat) : ServerState :=
  drainLoop (s.matchers m).pending.length s m

/-- queue_call_request (server.c:1215-1275) for a ticket destined to matcher
`m` (matcher 0 for BATCH_CALL, the registered method's matcher for
REGISTERED_CALL).  Every entering ticket gets the fresh serial `s.nextTid`
and is recorded in `submitted`.
1. shutdown flagged: fail_call, return GRPC_CALL_OK;
2. freelist pop = -1: fail_call, return GRPC_CALL_OK;
3. copy the ticket into requested_calls[idx], push idx on the matcher's
   stack; if and only if the stack was empty, run the pairing drain. -/
def queue_call_request (s : ServerState) (m : Nat) : ServerState × grpc_call_error :=
  let tid := s.nextTid
  let s0 := { s with nextTid := tid + 1, submitted := tid :: s.submitted }
  if s0.shutdown_flag then
    ({ s0 with ticketCompletions := fail_call_completion tid :: s0.ticketCompletions },
     grpc_call_error.GRPC_CALL_OK)
  else
    match s0.request_freelist with
    | [] =>
      ({ s0 with ticketCompletions := fail_call_completion tid :: s0.ticketCompletions },
       grpc_call_error.GRPC_CALL_OK)
    | idx :: rest =>
      let s1 := { s0 with
        request_freelist := rest,
        requested_calls := upd s0.requested_calls idx tid }
      let rm := s1.matchers m
      let s2 := { s1 with matchers := upd s1.matchers m ⟨rm.pending, idx :: rm.requests⟩ }
      if rm.requests.isEmpty then (drain s2 m, grpc_call_error.GRPC_CALL_OK)
      else (s2, grpc_call_error.GRPC_CALL_OK)

/-! ## Shutdown orchestration -/

/-- fail_call on the ticket stored at backing index `idx`, plus
done_request_event returning the index to the freelist. -/
def fail_ticket_at (s : ServerState) (idx : Nat) : ServerState :=
  { s with
    ticketCompletions := fail_call_completion (s.requested_calls idx) :: s.ticketCompletions,
    request_freelist := idx :: s.request_freelist }

/-- request_matcher_kill_requests (server.c:360-368): pop every outstanding
ticket index and fail it. -/
def request_matcher_kill_requests (s : ServerState) (m : Nat) : ServerState :=
  let s' := (s.matchers m).requests.foldl fail_ticket_at s
  { s' with matchers := upd s'.matchers m ⟨(s'.matchers m).pending, []⟩ }

/-- One iteration of request_matcher_zombify_all_pending_calls: zombify the
call and schedule its kill closure. -/
def zombify_call (s : ServerState) (c : Nat) : ServerState :=
  match s.calls c with
  | none => s
  | some cd =>
    { s with calls := upd s.calls c (some { cd with
        state := call_state.ZOMBIED, killScheduled := cd.killScheduled + 1 }) }

/-- request_matcher_zombify_all_pending_calls (server.c:345-358): walk the
pending FIFO, zombify every call and schedule its kill. -/
def request_matcher_zombify_all_pending_calls (s : ServerState) (m : Nat) : ServerState :=
  let s' := (s.matchers m).pending.foldl zombify_call s
  { s' with matchers := upd s'.matchers m ⟨[], (s'.matchers m).requests⟩ }

/-- kill requests then zombify pending for one matcher (the per-matcher body
of kill_pending_work_locked, server.c:576-587). -/
def kill_matcher (s : ServerState) (m : Nat) : ServerState :=
  request_matcher_zombify_all_pending_calls (request_matcher_kill_requests s m) m

/-- kill_pending_work_locked: unregistered matcher (0) then every registered
matcher. -/
def kill_pending_work_locked (s : ServerState) : ServerState :=
  (List.range s.numMatchers).foldl kill_matcher s

/-- maybe_finish_shutdown (server.c:589-615): bail unless the shutdown flag
is set and not yet published; redo the kill-pending pass; publish and post a
success completion to every registered shutdown tag only once no channel
remains in the ring and every listener acknowledged destruction. -/
def maybe_finish_shutdown (s : ServerState) : ServerState :=
  if !s.shutdown_flag || s.shutdown_published then s
  else
    let s' := kill_pending_work_locked s
    if s'.numChannels ≠ 0 ∨ s'.listenersDestroyed < s'.numListeners then s'
    else
      { s' with
        shutdown_published := true,
        shutdownCompletions :=
          s'.shutdown_tags.map (fun t => (t, true)) ++ s'.shutdownCompletions }

/-- grpc_server_shutdown_and_notify (server.c:1112-1165); each invocation
registers a fresh tag id.  If already published, post an immediate success
for the new tag without registering it; otherwise register the tag; if the
flag was already set, return; otherwise kill pending work, release-store the
flag and run maybe_finish_shutdown.  (Listener destruction and the goaway
broadcast touch no modelled state; the acknowledgments are the
listener_destroy_done steps.) -/
def grpc_server_shutdown_and_notify (s : ServerState) : ServerState :=
  let tag := s.nextShutdownTag
  let s0 := { s with nextShutdownTag := tag + 1 }
  if s0.shutdown_published then
    { s0 with shutdownCompletions := (tag, true) :: s0.shutdownCompletions }
  else
    let s1 := { s0 with shutdown_tags := s0.shutdown_tags ++ [tag] }
    if s1.shutdown_flag then s1
    else
      let s2 := kill_pending_work_locked s1
      maybe_finish_shutdown { s2 with shutdown_flag := true }

/-- listener_destroy_done (server.c:1102-1110). -/
def listener_destroy_done (s : ServerState) : ServerState :=
  maybe_finish_shutdown { s with listenersDestroyed := s.listenersDestroyed + 1 }

/-- destroy_channel (server.c:443-455): orphan the channel from the ring,
then maybe_finish_shutdown. -/
def destroy_channel_step (s : ServerState) : ServerState :=
  maybe_finish_shutdown { s with numChannels := s.numChannels - 1 }

/-! ## The step relation -/

/-- One atomic critical section of the server.  Guards record the conditions
under which the corresponding code runs: server_on_recv callbacks never fire
for a destroyed call; metadata arrives at most once and only while the
stream is open (state NOT_STARTED); destroy_call_elem runs when the call's
last reference drops, i.e. after a kill_zombie was scheduled or after an
ACTIVATED call's publish completed and the application released it. -/
inductive Step : ServerState → ServerState → Prop where
  | new_call {s : ServerState} :
      Step s (init_call_elem_step s)
  | recv_initial_metadata {s : ServerState} (c m : Nat) (cd : call_data)
      (hm : m < s.numMatchers) (hc : s.calls c = some cd)
      (hs : cd.state = call_state.NOT_STARTED)
      (hg : cd.gotInitialMetadata = false) (hd : cd.destroyed = false) :
      Step s (dispatch_rpc s c m)
  | recv_closed {s : ServerState} (c : Nat) (cd : call_data)
      (hc : s.calls c = some cd) (hd : cd.destroyed = false) :
      Step s (stream_recv_closed s c)
  | closed {s : ServerState} (c : Nat) (cd : call_data)
      (hc : s.calls c = some cd) (hd : cd.destroyed = false) :
      Step s (stream_closed s c)
  | publish {s : ServerState} (c : Nat) (success : Bool) (cd : call_data)
      (hc : s.calls c = some cd) (hd : cd.destroyed = false) :
      Step s (publish_rpc s c success)
  | request {s : ServerState} (m : Nat) (hm : m < s.numMatchers) :
      Step s (queue_call_request s m).1
  | shutdown_and_notify {s : ServerState} :
      Step s (grpc_server_shutdown_and_notify s)
  | listener_done {s : ServerState}
      (hl : s.listenersDestroyed < s.numListeners) (hf : s.shutdown_flag = true) :
      Step s (listener_destroy_done s)
  | channel_destroy {s : ServerState} (hc : 0 < s.numChannels) :
      Step s (destroy_channel_step s)
  | channel_add {s : ServerState} :
      Step s { s with numChannels := s.numChannels + 1 }
  | listener_add {s : ServerState} :
      Step s { s with numListeners := s.numListeners + 1 }
  | destroy_call {s : ServerState} (c : Nat) (cd : call_data)
      (hc : s.calls c = some cd) (hd : cd.destroyed = false)
      (hen : 1 ≤ cd.killScheduled ∨
             (cd.state = call_state.ACTIVATED ∧ cd.awaiting = none)) :
      Step s (destroy_call_elem_step s c)

/-- grpc_server_create_from_filters (server.c:886-938) followed by
registering M-1 methods: matcher 0 is the unregistered matcher, the freelist
holds the indices 0..N-1 (N = max_requested_calls, pushed in order so the
top of the stack is N-1). -/
def initState (M N : Nat) : ServerState :=
  { shutdown_flag := false
    shutdown_published := false
    request_freelist := (List.range N).reverse
    requested_calls := fun _ => 0
    matchers := fun _ => ⟨[], []⟩
    numMatchers := M
    calls := fun _ => none
    numCalls := 0
    nextTid := 0
    submitted := []
    ticketCompletions := []
    shutdown_tags := []
    shutdownCompletions := []
    nextShutdownTag := 0
    numChannels := 0
    numListeners := 0
    listenersDestroyed := 0
    assertionFailed := false }

/-- States reachable from some initial server. -/
def Reachable (s : ServerState) : Prop :=
  ∃ M N : Nat, Relation.ReflTransGen Step (initState M N) s

/-! ## The server invariant -/

/-- Multiplicity of call `c` in matcher `m`'s pending FIFO. -/
def pendingCnt (s : ServerState) (c m : Nat) : Nat :=
  cnt c (s.matchers m).pending

/-- Call `c` is linked in no pending FIFO. -/
def offAllFifos (s : ServerState) (c : Nat) : Prop :=
  ∀ m, pendingCnt s c m = 0

/-- Call `c` is linked exactly once, in matcher `m`'s pending FIFO. -/
def onFifoOnce (s : ServerState) (c m : Nat) : Prop :=
  pendingCnt s c m = 1 ∧ ∀ m', m' ≠ m → pendingCnt s c m' = 0

/-- Consistency of one call record with the matcher FIFOs:
* NOT_STARTED: not yet routed — in no FIFO, no kill scheduled, no pending publish;
* PENDING: linked exactly once in its matcher's FIFO, no kill scheduled;
* ACTIVATED: in no FIFO, no kill scheduled;
* ZOMBIED: either one kill closure was scheduled and the call is in no FIFO,
  or it was zombied while PENDING (stream_closed) and still sits in its
  FIFO with no kill scheduled yet. -/
def callOK (s : ServerState) (c : Nat) : Prop :=
  (s.calls c = none → offAllFifos s c) ∧
  ∀ cd, s.calls c = some cd →
    (cd.state = call_state.NOT_STARTED →
       offAllFifos s c ∧ cd.killScheduled = 0 ∧ cd.awaiting = none ∧ cd.destroyed = false) ∧
    (cd.state = call_state.PENDING →
       onFifoOnce s c cd.matcher ∧ cd.killScheduled = 0 ∧ cd.awaiting = none ∧
       cd.destroyed = false) ∧
    (cd.state = call_state.ACTIVATED → offAllFifos s c ∧ cd.killScheduled = 0) ∧
    (cd.state = call_state.ZOMBIED → cd.awaiting = none ∧
       ((cd.killScheduled = 1 ∧ offAllFifos s c) ∨
        (cd.killScheduled = 0 ∧ onFifoOnce s c cd.matcher ∧ cd.destroyed = false)))

/-- Eager pairing: a matcher never has both a pending call and an
outstanding ticket. -/
def matcherOK (s : ServerState) (m : Nat) : Prop :=
  (s.matchers m).pending = [] ∨ (s.matchers m).requests = []

/-- Shutdown bookkeeping: published implies flagged; registered tags are
distinct, fresh, and each has exactly one (successful) completion iff
published. -/
def shutdownOK (s : ServerState) : Prop :=
  (s.shutdown_published = true → s.shutdown_flag = true) ∧
  (∀ t ∈ s.shutdown_tags, cnt t s.shutdown_tags = 1) ∧
  (∀ t ∈ s.shutdown_tags, t < s.nextShutdownTag) ∧
  (∀ t ∈ s.shutdown_tags,
     cnt (t, true) s.shutdownCompletions = if s.shutdown_published then 1 else 0) ∧
  (∀ p ∈ s.shutdownCompletions, p.2 = true ∧ p.1 < s.nextShutdownTag)

/-- All invariant conjuncts except eager pairing (which is transiently
broken inside the pairing drain). -/
def InvCore (s : ServerState) : Prop :=
  (∀ c, s.numCalls ≤ c → s.calls c = none) ∧
  (∀ c, callOK s c) ∧
  (∀ m, s.numMatchers ≤ m → s.matchers m = ⟨[], []⟩) ∧
  s.assertionFailed = false ∧
  shutdownOK s

/-- The server invariant. -/
def Inv (s : ServerState) : Prop :=
  InvCore s ∧ ∀ m, matcherOK s m

/-! ## Transfer lemmas -/

theorem cnt_upd_matchers (f : Nat → request_matcher) (m : Nat) (v : request_matcher)
    (c m' : Nat) :
    cnt c ((upd f m v) m').pending =
      if m' = m then cnt c v.pending else cnt c (f m').pending := by
  by_cases h : m' = m
  · rw [h, upd_self, if_pos rfl]
  · rw [upd_ne _ _ _ h, if_neg h]

theorem cnt_snoc_ne {c x : Nat} (l : List Nat) (h : x ≠ c) :
    cnt c (l ++ [x]) = cnt c l := by
  rw [cnt_append]
  simp [cnt, h]

theorem cnt_snoc_self (c : Nat) (l : List Nat) :
    cnt c (l ++ [c]) = cnt c l + 1 := by
  rw [cnt_append]
  simp [cnt]

theorem offAllFifos_transfer {s s' : ServerState} {c : Nat}
    (hpend : ∀ m, cnt c (s'.matchers m).pending = cnt c (s.matchers m).pending)
    (h : offAllFifos s c) : offAllFifos s' c := by
  intro m
  unfold pendingCnt
  rw [hpend m]
  exact h m

theorem onFifoOnce_transfer {s s' : ServerState} {c m : Nat}
    (hpend : ∀ m', cnt c (s'.matchers m').pending = cnt c (s.matchers m').pending)
    (h : onFifoOnce s c m) : onFifoOnce s' c m := by
  refine ⟨?_, ?_⟩
  · unfold pendingCnt; rw [hpend m]; exact h.1
  · intro m' hm'
    unfold pendingCnt
    rw [hpend m']
    exact h.2 m' hm'

theorem callOK_transfer {s s' : ServerState} {c : Nat}
    (hcalls : s'.calls c = s.calls c)
    (hpend : ∀ m, cnt c (s'.matchers m).pending = cnt c (s.matchers m).pending)
    (h : callOK s c) : callOK s' c := by
  obtain ⟨hnone, hsome⟩ := h
  constructor
  · intro hn
    exact offAllFifos_transfer hpend (hnone (by rw [← hcalls]; exact hn))
  · intro cd hcd
    rw [hcalls] at hcd
    obtain ⟨h1, h2, h3, h4⟩ := hsome cd hcd
    refine ⟨?_, ?_, ?_, ?_⟩
    · intro hs
      obtain ⟨ha, hb, hc2, hd⟩ := h1 hs
      exact ⟨offAllFifos_transfer hpend ha, hb, hc2, hd⟩
    · intro hs
      obtain ⟨ha, hb, hc2, hd⟩ := h2 hs
      exact ⟨onFifoOnce_transfer hpend ha, hb, hc2, hd⟩
    · intro hs
      obtain ⟨ha, hb⟩ := h3 hs
      exact ⟨offAllFifos_transfer hpend ha, hb⟩
    · intro hs
      obtain ⟨ha, hb⟩ := h4 hs
      refine ⟨ha, ?_⟩
      rcases hb with ⟨hk, ho⟩ | ⟨hk, ho, hd⟩
      · exact Or.inl ⟨hk, offAllFifos_transfer hpend ho⟩
      · exact Or.inr ⟨hk, onFifoOnce_transfer hpend ho, hd⟩

theorem shutdownOK_transfer {s s' : ServerState}
    (h1 : s'.shutdown_flag = s.shutdown_flag)
    (h2 : s'.shutdown_published = s.shutdown_published)
    (h3 : s'.shutdown_tags = s.shutdown_tags)
    (h4 : s'.shutdownCompletions = s.shutdownCompletions)
    (h5 : s'.nextShutdownTag = s.nextShutdownTag)
    (h : shutdownOK s) : shutdownOK s' := by
  unfold shutdownOK at h ⊢
  rw [h1, h2, h3, h4, h5]
  exact h

/-! ## Equation lemmas for the step functions -/

theorem dispatch_rpc_none {s : ServerState} {c m : Nat} (h : s.calls c = none) :
    dispatch_rpc s c m = s := by
  simp [dispatch_rpc, h]

theorem dispatch_rpc_shutdown {s : ServerState} {c m : Nat} {cd : call_data}
    (h : s.calls c = some cd) (hf : s.shutdown_flag = true) :
    dispatch_rpc s c m = { s with
      calls := upd s.calls c (some { cd with
        gotInitialMetadata := true
        matcher := m
        state := call_state.ZOMBIED
        killScheduled := cd.killScheduled + 1 }) } := by
  simp [dispatch_rpc, h, hf]

theorem dispatch_rpc_to_pending {s : ServerState} {c m : Nat} {cd : call_data}
    (h : s.calls c = some cd) (hf : s.shutdown_flag = false)
    (hr : (s.matchers m).requests = []) :
    dispatch_rpc s c m = { s with
      calls := upd s.calls c (some { cd with
        gotInitialMetadata := true
        matcher := m
        state := call_state.PENDING })
      matchers := upd s.matchers m ⟨(s.matchers m).pending ++ [c], []⟩ } := by
  simp [dispatch_rpc, h, hf, hr]

theorem dispatch_rpc_to_activated {s : ServerState} {c m idx : Nat} {rest : List Nat}
    {cd : call_data}
    (h : s.calls c = some cd) (hf : s.shutdown_flag = false)
    (hr : (s.matchers m).requests = idx :: rest) :
    dispatch_rpc s c m = { s with
      calls := upd s.calls c (some { cd with
        gotInitialMetadata := true
        matcher := m
        state := call_state.ACTIVATED
        awaiting := some idx })
      matchers := upd s.matchers m ⟨(s.matchers m).pending, rest⟩ } := by
  simp [dispatch_rpc, h, hf, hr]

theorem stream_recv_closed_none {s : ServerState} {c : Nat} (h : s.calls c = none) :
    stream_recv_closed s c = s := by
  simp [stream_recv_closed, h]

theorem stream_recv_closed_ns {s : ServerState} {c : Nat} {cd : call_data}
    (h : s.calls c = some cd) (hs : cd.state = call_state.NOT_STARTED) :
    stream_recv_closed s c = { s with
      calls := upd s.calls c (some { cd with
        state := call_state.ZOMBIED
        killScheduled := cd.killScheduled + 1 }) } := by
  simp [stream_recv_closed, h, hs]

theorem stream_recv_closed_other {s : ServerState} {c : Nat} {cd : call_data}
    (h : s.calls c = some cd) (hs : ¬ cd.state = call_state.NOT_STARTED) :
    stream_recv_closed s c = s := by
  simp [stream_recv_closed, h, hs]

theorem stream_closed_none {s : ServerState} {c : Nat} (h : s.calls c = none) :
    stream_closed s c = s := by
  simp [stream_closed, h]

theorem stream_closed_ns {s : ServerState} {c : Nat} {cd : call_data}
    (h : s.calls c = some cd) (hs : cd.state = call_state.NOT_STARTED) :
    stream_closed s c = { s with
      calls := upd s.calls c (some { cd with
        state := call_state.ZOMBIED
        killScheduled := cd.killScheduled + 1 }) } := by
  simp [stream_closed, h, hs]

theorem stream_closed_pending {s : ServerState} {c : Nat} {cd : call_data}
    (h : s.calls c = some cd) (hs : cd.state = call_state.PENDING) :
    stream_closed s c = { s with
      calls := upd s.calls c (some { cd with state := call_state.ZOMBIED }) } := by
  have hns : ¬ cd.state = call_state.NOT_STARTED := by rw [hs]; intro hq; cases hq
  simp [stream_closed, h, hs, hns]

theorem stream_closed_other {s : ServerState} {c : Nat} {cd : call_data}
    (h : s.calls c = some cd) (hs1 : ¬ cd.state = call_state.NOT_STARTED)
    (hs2 : ¬ cd.state = call_state.PENDING) :
    stream_closed s c = s := by
  simp [stream_closed, h, hs1, hs2]

theorem publish_rpc_none {s : ServerState} {c : Nat} {success : Bool}
    (h : s.calls c = none) : publish_rpc s c success = s := by
  simp [publish_rpc, h]

theorem publish_rpc_no_await {s : ServerState} {c : Nat} {success : Bool}
    {cd : call_data} (h : s.calls c = some cd) (ha : cd.awaiting = none) :
    publish_rpc s c success = s := by
  simp [publish_rpc, h, ha]

theorem publish_rpc_some {s : ServerState} {c idx : Nat} {success : Bool}
    {cd : call_data} (h : s.calls c = some cd) (ha : cd.awaiting = some idx) :
    publish_rpc s c success = { s with
      calls := upd s.calls c (some { cd with awaiting := none })
      ticketCompletions :=
        publish_completion (s.requested_calls idx) success :: s.ticketCompletions
      request_freelist := idx :: s.request_freelist } := by
  simp [publish_rpc, h, ha]

theorem destroy_call_elem_some {s : ServerState} {c : Nat} {cd : call_data}
    (h : s.calls c = some cd) :
    destroy_call_elem_step s c = { s with
      calls := upd s.calls c (some { cd with destroyed := true })
      assertionFailed := s.assertionFailed || decide (cd.state = call_state.PENDING) } := by
  simp [destroy_call_elem_step, h]

theorem zombify_call_none {s : ServerState} {c : Nat} (h : s.calls c = none) :
    zombify_call s c = s := by
  simp [zombify_call, h]

theorem zombify_call_some {s : ServerState} {c : Nat} {cd : call_data}
    (h : s.calls c = some cd) :
    zombify_call s c = { s with
      calls := upd s.calls c (some { cd with
        state := call_state.ZOMBIED
        killScheduled := cd.killScheduled + 1 }) } := by
  simp [zombify_call, h]

/-! ## Invariant preservation: simple steps -/

/-- The per-state clauses of callOK for a prospective new call record,
relative to the (unchanged) FIFOs of `s`. -/
def callClausesOK (s : ServerState) (c : Nat) (cd : call_data) : Prop :=
  (cd.state = call_state.NOT_STARTED →
     offAllFifos s c ∧ cd.killScheduled = 0 ∧ cd.awaiting = none ∧ cd.destroyed = false) ∧
  (cd.state = call_state.PENDING →
     onFifoOnce s c cd.matcher ∧ cd.killScheduled = 0 ∧ cd.awaiting = none ∧
     cd.destroyed = false) ∧
  (cd.state = call_state.ACTIVATED → offAllFifos s c ∧ cd.killScheduled = 0) ∧
  (cd.state = call_state.ZOMBIED → cd.awaiting = none ∧
     ((cd.killScheduled = 1 ∧ offAllFifos s c) ∨
      (cd.killScheduled = 0 ∧ onFifoOnce s c cd.matcher ∧ cd.destroyed = false)))

/-- Updating one existing call in place (FIFOs untouched) preserves the
core invariant provided the new record satisfies its clauses. -/
theorem invcore_upd_call {s : ServerState} {c : Nat} {cd newcd : call_data}
    (hc : s.calls c = some cd)
    (hok : callClausesOK s c newcd)
    (h1 : ∀ c', s.numCalls ≤ c' → s.calls c' = none)
    (h2 : ∀ c', callOK s c') :
    (∀ c', s.numCalls ≤ c' → upd s.calls c (some newcd) c' = none) ∧
    (∀ c', callOK { s with calls := upd s.calls c (some newcd) } c') := by
  constructor
  · intro c' hc'
    by_cases hcc : c' = c
    · subst hcc; rw [h1 c' hc'] at hc; cases hc
    · rw [upd_ne _ _ _ hcc]; exact h1 c' hc'
  · intro c'
    by_cases hcc : c' = c
    · subst hcc
      obtain ⟨k1, k2, k3, k4⟩ := hok
      constructor
      · intro hn
        have hn' : upd s.calls c' (some newcd) c' = none := hn
        rw [upd_self] at hn'
        cases hn'
      · intro cd' hcd'
        have hcd'' : upd s.calls c' (some newcd) c' = some cd' := hcd'
        rw [upd_self] at hcd''
        cases hcd''
        refine ⟨?_, ?_, ?_, ?_⟩
        · intro hz
          obtain ⟨a, b, d, e⟩ := k1 hz
          exact ⟨offAllFifos_transfer (fun m => rfl) a, b, d, e⟩
        · intro hz
          obtain ⟨a, b, d, e⟩ := k2 hz
          exact ⟨onFifoOnce_transfer (fun m => rfl) a, b, d, e⟩
        · intro hz
          obtain ⟨a, b⟩ := k3 hz
          exact ⟨offAllFifos_transfer (fun m => rfl) a, b⟩
        · intro hz
          obtain ⟨a, b⟩ := k4 hz
          refine ⟨a, ?_⟩
          rcases b with ⟨bk, bo⟩ | ⟨bk, bo, bd⟩
          · exact Or.inl ⟨bk, offAllFifos_transfer (fun m => rfl) bo⟩
          · exact Or.inr ⟨bk, onFifoOnce_transfer (fun m => rfl) bo, bd⟩
    · exact callOK_transfer (upd_ne _ _ _ hcc) (fun m => rfl) (h2 c')

theorem inv_init_call_elem {s : ServerState} (h : Inv s) : Inv (init_call_elem_step s) := by
  obtain ⟨⟨h1, h2, h3, h4, h5⟩, h6⟩ := h
  refine ⟨⟨?_, ?_, h3, h4, h5⟩, h6⟩
  · intro c hc
    have hc' : s.numCalls + 1 ≤ c := hc
    show upd s.calls s.numCalls _ c = none
    rw [upd_ne _ _ _ (by omega : c ≠ s.numCalls)]
    exact h1 c (by omega)
  · intro c
    by_cases hc : c = s.numCalls
    · subst hc
      have heq : (init_call_elem_step s).calls s.numCalls =
          some ⟨call_state.NOT_STARTED, 0, 0, none, false, false⟩ := upd_self _ _ _
      constructor
      · intro hn
        rw [heq] at hn
        cases hn
      · intro cd hcd
        rw [heq] at hcd
        cases hcd
        have hold : s.calls s.numCalls = none := h1 s.numCalls (Nat.le_refl _)
        have hoff : offAllFifos s s.numCalls := (h2 s.numCalls).1 hold
        refine ⟨?_, ?_, ?_, ?_⟩
        · intro _
          exact ⟨offAllFifos_transfer (fun m => rfl) hoff, rfl, rfl, rfl⟩
        · intro hs; cases hs
        · intro hs; cases hs
        · intro hs; cases hs
    · exact callOK_transfer (upd_ne _ _ _ hc) (fun m => rfl) (h2 c)

theorem inv_stream_recv_closed {s : ServerState} (c : Nat) (h : Inv s) :
    Inv (stream_recv_closed s c) := by
  obtain ⟨⟨h1, h2, h3, h4, h5⟩, h6⟩ := h
  cases hc : s.calls c with
  | none => rw [stream_recv_closed_none hc]; exact ⟨⟨h1, h2, h3, h4, h5⟩, h6⟩
  | some cd =>
    by_cases hs : cd.state = call_state.NOT_STARTED
    · rw [stream_recv_closed_ns hc hs]
      obtain ⟨hoff, hk, ha, hd⟩ := ((h2 c).2 cd hc).1 hs
      have hok : callClausesOK s c { cd with
          state := call_state.ZOMBIED, killScheduled := cd.killScheduled + 1 } := by
        refine ⟨?_, ?_, ?_, ?_⟩
        · intro hz; cases hz
        · intro hz; cases hz
        · intro hz; cases hz
        · intro _
          exact ⟨ha, Or.inl ⟨by show cd.killScheduled + 1 = 1; omega, hoff⟩⟩
      obtain ⟨g1, g2⟩ := invcore_upd_call hc hok h1 h2
      exact ⟨⟨g1, g2, h3, h4, h5⟩, h6⟩
    · rw [stream_recv_closed_other hc hs]
      exact ⟨⟨h1, h2, h3, h4, h5⟩, h6⟩

theorem inv_stream_closed {s : ServerState} (c : Nat) (h : Inv s) :
    Inv (stream_closed s c) := by
  obtain ⟨⟨h1, h2, h3, h4, h5⟩, h6⟩ := h
  cases hc : s.calls c with
  | none => rw [stream_closed_none hc]; exact ⟨⟨h1, h2, h3, h4, h5⟩, h6⟩
  | some cd =>
    by_cases hs : cd.state = call_state.NOT_STARTED
    · rw [stream_closed_ns hc hs]
      obtain ⟨hoff, hk, ha, hd⟩ := ((h2 c).2 cd hc).1 hs
      have hok : callClausesOK s c { cd with
          state := call_state.ZOMBIED, killScheduled := cd.killScheduled + 1 } := by
        refine ⟨?_, ?_, ?_, ?_⟩
        · intro hz; cases hz
        · intro hz; cases hz
        · intro hz; cases hz
        · intro _
          exact ⟨ha, Or.inl ⟨by show cd.killScheduled + 1 = 1; omega, hoff⟩⟩
      obtain ⟨g1, g2⟩ := invcore_upd_call hc hok h1 h2
      exact ⟨⟨g1, g2, h3, h4, h5⟩, h6⟩
    · by_cases hp : cd.state = call_state.PENDING
      · rw [stream_closed_pending hc hp]
        obtain ⟨hon, hk, ha, hd⟩ := ((h2 c).2 cd hc).2.1 hp
        have hok : callClausesOK s c { cd with state := call_state.ZOMBIED } := by
          refine ⟨?_, ?_, ?_, ?_⟩
          · intro hz; cases hz
          · intro hz; cases hz
          · intro hz; cases hz
          · intro _
            exact ⟨ha, Or.inr ⟨hk, hon, hd⟩⟩
        obtain ⟨g1, g2⟩ := invcore_upd_call hc hok h1 h2
        exact ⟨⟨g1, g2, h3, h4, h5⟩, h6⟩
      · rw [stream_closed_other hc hs hp]
        exact ⟨⟨h1, h2, h3, h4, h5⟩, h6⟩

theorem inv_publish_rpc {s : ServerState} (c : Nat) (success : Bool) (h : Inv s) :
    Inv (publish_rpc s c success) := by
  obtain ⟨⟨h1, h2, h3, h4, h5⟩, h6⟩ := h
  cases hc : s.calls c with
  | none => rw [publish_rpc_none hc]; exact ⟨⟨h1, h2, h3, h4, h5⟩, h6⟩
  | some cd =>
    cases haw : cd.awaiting with
    | none => rw [publish_rpc_no_await hc haw]; exact ⟨⟨h1, h2, h3, h4, h5⟩, h6⟩
    | some idx =>
      rw [publish_rpc_some hc haw]
      obtain ⟨k1, k2, k3, k4⟩ := (h2 c).2 cd hc
      have hok : callClausesOK s c { cd with awaiting := none } := by
        refine ⟨?_, ?_, ?_, ?_⟩
        · intro hz
          obtain ⟨a, b, _, e⟩ := k1 hz
          exact ⟨a, b, rfl, e⟩
        · intro hz
          obtain ⟨a, b, _, e⟩ := k2 hz
          exact ⟨a, b, rfl, e⟩
        · intro hz
          exact k3 hz
        · intro hz
          obtain ⟨_, b⟩ := k4 hz
          exact ⟨rfl, b⟩
      obtain ⟨g1, g2⟩ := invcore_upd_call hc hok h1 h2
      exact ⟨⟨g1, g2, h3, h4, h5⟩, h6⟩

theorem inv_destroy_call_elem {s : ServerState} (c : Nat) (cd : call_data)
    (hc : s.calls c = some cd)
    (hen : 1 ≤ cd.killScheduled ∨
           (cd.state = call_state.ACTIVATED ∧ cd.awaiting = none))
    (h : Inv s) : Inv (destroy_call_elem_step s c) := by
  obtain ⟨⟨h1, h2, h3, h4, h5⟩, h6⟩ := h
  obtain ⟨k1, k2, k3, k4⟩ := (h2 c).2 cd hc
  have hstate : cd.state = call_state.ZOMBIED ∨ cd.state = call_state.ACTIVATED := by
    rcases hen with hk | ⟨ha, _⟩
    · cases hst : cd.state
      · obtain ⟨_, hz, _, _⟩ := k1 hst; omega
      · obtain ⟨_, hz, _, _⟩ := k2 hst; omega
      · exact Or.inr rfl
      · exact Or.inl rfl
    · exact Or.inr ha
  have hnp : ¬ cd.state = call_state.PENDING := by
    rcases hstate with hz | hz <;> rw [hz] <;> intro hq <;> cases hq
  rw [destroy_call_elem_some hc]
  have hok : callClausesOK s c { cd with destroyed := true } := by
    refine ⟨?_, ?_, ?_, ?_⟩
    · intro hz
      rcases hstate with hw | hw <;> rw [hw] at hz <;> cases hz
    · intro hz
      rcases hstate with hw | hw <;> rw [hw] at hz <;> cases hz
    · intro hz
      exact k3 hz
    · intro hz
      obtain ⟨a, b⟩ := k4 hz
      refine ⟨a, ?_⟩
      rcases b with ⟨bk, bo⟩ | ⟨bk, bo, bd⟩
      · exact Or.inl ⟨bk, bo⟩
      · rcases hen with hk | ⟨hw, _⟩
        · omega
        · rw [hw] at hz; cases hz
  obtain ⟨g1, g2⟩ := invcore_upd_call hc hok h1 h2
  refine ⟨⟨g1, g2, h3, ?_, h5⟩, h6⟩
  show (s.assertionFailed || decide (cd.state = call_state.PENDING)) = false
  rw [h4, decide_eq_false hnp]
  rfl

theorem inv_dispatch_rpc {s : ServerState} (c m : Nat) (cd : call_data)
    (hm : m < s.numMatchers) (hc : s.calls c = some cd)
    (hs : cd.state = call_state.NOT_STARTED) (h : Inv s) :
    Inv (dispatch_rpc s c m) := by
  obtain ⟨⟨h1, h2, h3, h4, h5⟩, h6⟩ := h
  obtain ⟨hoff, hk, ha, hd⟩ := ((h2 c).2 cd hc).1 hs
  cases hf : s.shutdown_flag with
  | true =>
    rw [dispatch_rpc_shutdown hc hf]
    have hok : callClausesOK s c { cd with
        gotInitialMetadata := true
        matcher := m
        state := call_state.ZOMBIED
        killScheduled := cd.killScheduled + 1 } := by
      refine ⟨?_, ?_, ?_, ?_⟩
      · intro hz; cases hz
      · intro hz; cases hz
      · intro hz; cases hz
      · intro _
        exact ⟨ha, Or.inl ⟨by show cd.killScheduled + 1 = 1; omega, hoff⟩⟩
    obtain ⟨g1, g2⟩ := invcore_upd_call hc hok h1 h2
    exact ⟨⟨g1, g2, h3, h4, h5⟩, h6⟩
  | false =>
    cases hr : (s.matchers m).requests with
    | nil =>
      rw [dispatch_rpc_to_pending hc hf hr]
      refine ⟨⟨?_, ?_, ?_, h4, h5⟩, ?_⟩
      · intro c' hc'
        have hc'' : s.numCalls ≤ c' := hc'
        show upd s.calls c _ c' = none
        by_cases hcc : c' = c
        · subst hcc; rw [h1 c' hc''] at hc; cases hc
        · rw [upd_ne _ _ _ hcc]; exact h1 c' hc''
      · intro c'
        by_cases hcc : c' = c
        · subst hcc
          constructor
          · intro hn
            have hn' : upd s.calls c' _ c' = none := hn
            rw [upd_self] at hn'
            cases hn'
          · intro cd' hcd'
            have hcd'' : upd s.calls c' (some { cd with
                gotInitialMetadata := true
                matcher := m
                state := call_state.PENDING }) c' = some cd' := hcd'
            rw [upd_self] at hcd''
            cases hcd''
            refine ⟨?_, ?_, ?_, ?_⟩
            · intro hz; cases hz
            · intro _
              refine ⟨⟨?_, ?_⟩, hk, ha, hd⟩
              · show cnt c' ((upd s.matchers m
                  ⟨(s.matchers m).pending ++ [c'], []⟩ m).pending) = 1
                rw [upd_self]
                show cnt c' ((s.matchers m).pending ++ [c']) = 1
                rw [cnt_snoc_self]
                have := hoff m
                unfold pendingCnt at this
                omega
              · intro m' hm'
                show cnt c' ((upd s.matchers m
                    ⟨(s.matchers m).pending ++ [c'], []⟩ m').pending) = 0
                rw [upd_ne _ _ _ hm']
                exact hoff m'
            · intro hz; cases hz
            · intro hz; cases hz
        · refine callOK_transfer (upd_ne _ _ _ hcc) ?_ (h2 c')
          intro m'
          show cnt c' ((upd s.matchers m ⟨(s.matchers m).pending ++ [c], []⟩ m').pending)
              = cnt c' ((s.matchers m').pending)
          by_cases hm' : m' = m
          · subst hm'
            rw [upd_self]
            show cnt c' ((s.matchers m').pending ++ [c]) = cnt c' (s.matchers m').pending
            exact cnt_snoc_ne _ (fun hq => hcc hq.symm)
          · rw [upd_ne _ _ _ hm']
      · intro m' hm'
        have hm'' : s.numMatchers ≤ m' := hm'
        show upd s.matchers m ⟨(s.matchers m).pending ++ [c], []⟩ m' = ⟨[], []⟩
        rw [upd_ne _ _ _ (by omega : m' ≠ m)]
        exact h3 m' hm''
      · intro m'
        by_cases hm' : m' = m
        · subst hm'
          right
          show (upd s.matchers m' ⟨(s.matchers m').pending ++ [c], []⟩ m').requests = []
          rw [upd_self]
        · rcases h6 m' with hp | hq
          · left
            show (upd s.matchers m ⟨(s.matchers m).pending ++ [c], []⟩ m').pending = []
            rw [upd_ne _ _ _ hm']
            exact hp
          · right
            show (upd s.matchers m ⟨(s.matchers m).pending ++ [c], []⟩ m').requests = []
            rw [upd_ne _ _ _ hm']
            exact hq
    | cons idx rest =>
      rw [dispatch_rpc_to_activated hc hf hr]
      have hpendeq : ∀ m', cnt c ((upd s.matchers m
          ⟨(s.matchers m).pending, rest⟩ m').pending) = cnt c ((s.matchers m').pending) := by
        intro m'
        by_cases hm' : m' = m
        · subst hm'
          rw [upd_self]
        · rw [upd_ne _ _ _ hm']
      refine ⟨⟨?_, ?_, ?_, h4, h5⟩, ?_⟩
      · intro c' hc'
        have hc'' : s.numCalls ≤ c' := hc'
        show upd s.calls c _ c' = none
        by_cases hcc : c' = c
        · subst hcc; rw [h1 c' hc''] at hc; cases hc
        · rw [upd_ne _ _ _ hcc]; exact h1 c' hc''
      · intro c'
        by_cases hcc : c' = c
        · subst hcc
          constructor
          · intro hn
            have hn' : upd s.calls c' _ c' = none := hn
            rw [upd_self] at hn'
            cases hn'
          · intro cd' hcd'
            have hcd'' : upd s.calls c' (some { cd with
                gotInitialMetadata := true
                matcher := m
                state := call_state.ACTIVATED
                awaiting := some idx }) c' = some cd' := hcd'
            rw [upd_self] at hcd''
            cases hcd''
            refine ⟨?_, ?_, ?_, ?_⟩
            · intro hz; cases hz
            · intro hz; cases hz
            · intro _
              refine ⟨?_, hk⟩
              intro m'
              unfold pendingCnt
              show cnt c' ((upd s.matchers m
                  ⟨(s.matchers m).pending, rest⟩ m').pending) = 0
              rw [hpendeq m']
              exact hoff m'
            · intro hz; cases hz
        · refine callOK_transfer (upd_ne _ _ _ hcc) ?_ (h2 c')
          intro m'
          show cnt c' ((upd s.matchers m ⟨(s.matchers m).pending, rest⟩ m').pending)
              = cnt c' ((s.matchers m').pending)
          by_cases hm' : m' = m
          · subst hm'
            rw [upd_self]
          · rw [upd_ne _ _ _ hm']
      · intro m' hm'
        have hm'' : s.numMatchers ≤ m' := hm'
        show upd s.matchers m ⟨(s.matchers m).pending, rest⟩ m' = ⟨[], []⟩
        rw [upd_ne _ _ _ (by omega : m' ≠ m)]
        exact h3 m' hm''
      · intro m'
        by_cases hm' : m' = m
        · subst hm'
          left
          show (upd s.matchers m' ⟨(s.matchers m').pending, rest⟩ m').pending = []
          rw [upd_self]
          rcases h6 m' with hp | hq
          · exact hp
          · rw [hr] at hq; cases hq
        · rcases h6 m' with hp | hq
          · left
            show (upd s.matchers m ⟨(s.matchers m).pending, rest⟩ m').pending = []
            rw [upd_ne _ _ _ hm']
            exact hp
          · right
            show (upd s.matchers m ⟨(s.matchers m).pending, rest⟩ m').requests = []
            rw [upd_ne _ _ _ hm']
            exact hq

/-! ## Invariant preservation: the pairing drain -/

theorem drainLoop_zero (s : ServerState) (m : Nat) : drainLoop 0 s m = s := rfl

theorem drainLoop_pending_nil {s : ServerState} {m : Nat} (fuel : Nat)
    (h : (s.matchers m).pending = []) : drainLoop (fuel + 1) s m = s := by
  simp [drainLoop, h]

theorem drainLoop_requests_nil {s : ServerState} {m c : Nat} {ps : List Nat} (fuel : Nat)
    (hp : (s.matchers m).pending = c :: ps) (hr : (s.matchers m).requests = []) :
    drainLoop (fuel + 1) s m = s := by
  simp [drainLoop, hp, hr]

theorem drainLoop_call_none {s : ServerState} {m c idx : Nat} {ps rest : List Nat}
    (fuel : Nat)
    (hp : (s.matchers m).pending = c :: ps) (hr : (s.matchers m).requests = idx :: rest)
    (hc : s.calls c = none) :
    drainLoop (fuel + 1) s m = { s with assertionFailed := true } := by
  simp [drainLoop, hp, hr, hc]

theorem drainLoop_zombie {s : ServerState} {m c idx : Nat} {ps rest : List Nat}
    {cd : call_data} (fuel : Nat)
    (hp : (s.matchers m).pending = c :: ps) (hr : (s.matchers m).requests = idx :: rest)
    (hc : s.calls c = some cd) (hz : cd.state = call_state.ZOMBIED) :
    drainLoop (fuel + 1) s m = drainLoop fuel
      { s with
        calls := upd s.calls c (some { cd with killScheduled := cd.killScheduled + 1 })
        matchers := upd s.matchers m ⟨ps, rest⟩ } m := by
  simp [drainLoop, hp, hr, hc, hz]

theorem drainLoop_activate {s : ServerState} {m c idx : Nat} {ps rest : List Nat}
    {cd : call_data} (fuel : Nat)
    (hp : (s.matchers m).pending = c :: ps) (hr : (s.matchers m).requests = idx :: rest)
    (hc : s.calls c = some cd) (hz : cd.state = call_state.PENDING) :
    drainLoop (fuel + 1) s m = drainLoop fuel
      { s with
        calls := upd s.calls c (some { cd with
          state := call_state.ACTIVATED
          awaiting := some idx })
        matchers := upd s.matchers m ⟨ps, rest⟩ } m := by
  have hnz : ¬ cd.state = call_state.ZOMBIED := by rw [hz]; intro hq; cases hq
  simp [drainLoop, hp, hr, hc, hz, hnz]

theorem drainLoop_bad_state {s : ServerState} {m c idx : Nat} {ps rest : List Nat}
    {cd : call_data} (fuel : Nat)
    (hp : (s.matchers m).pending = c :: ps) (hr : (s.matchers m).requests = idx :: rest)
    (hc : s.calls c = some cd) (hz1 : ¬ cd.state = call_state.ZOMBIED)
    (hz2 : ¬ cd.state = call_state.PENDING) :
    drainLoop (fuel + 1) s m = { s with assertionFailed := true } := by
  simp [drainLoop, hp, hr, hc, hz1, hz2]

theorem onFifoOnce_matcher_eq {s : ServerState} {c mm m : Nat}
    (h : onFifoOnce s c mm) (hp : 0 < pendingCnt s c m) : mm = m := by
  by_contra hne
  have hz := h.2 m (fun hq => hne hq.symm)
  omega

/-- The state after the drain detaches FIFO head `c` of matcher `m`, pops
ticket `idx`, and rewrites the call record. -/
abbrev detachState (s : ServerState) (m c : Nat) (ps rest : List Nat)
    (newcd : call_data) : ServerState :=
  { s with
    calls := upd s.calls c (some newcd)
    matchers := upd s.matchers m ⟨ps, rest⟩ }

theorem offAllFifos_detach {s : ServerState} {m c : Nat} {ps rest : List Nat}
    {newcd : call_data}
    (h0 : cnt c ps = 0) (hothers : ∀ m', m' ≠ m → pendingCnt s c m' = 0) :
    offAllFifos (detachState s m c ps rest newcd) c := by
  intro m''
  unfold pendingCnt
  show cnt c ((upd s.matchers m ⟨ps, rest⟩ m'').pending) = 0
  by_cases hm'' : m'' = m
  · subst hm''
    rw [upd_self]
    exact h0
  · rw [upd_ne _ _ _ hm'']
    exact hothers m'' hm''

theorem invcore_detach {s : ServerState} {m c : Nat} {ps rest : List Nat}
    {cd newcd : call_data}
    (hm : m < s.numMatchers)
    (hpend : (s.matchers m).pending = c :: ps)
    (hc : s.calls c = some cd)
    (hok : callClausesOK (detachState s m c ps rest newcd) c newcd)
    (hcore : InvCore s) (h6 : ∀ m', m' ≠ m → matcherOK s m') :
    InvCore (detachState s m c ps rest newcd) ∧
    (∀ m', m' ≠ m → matcherOK (detachState s m c ps rest newcd) m') ∧
    ((detachState s m c ps rest newcd).matchers m).pending = ps := by
  obtain ⟨h1, h2, h3, h4, h5⟩ := hcore
  refine ⟨⟨?_, ?_, ?_, h4, h5⟩, ?_, ?_⟩
  · intro c' hc'
    have hc'' : s.numCalls ≤ c' := hc'
    show upd s.calls c _ c' = none
    by_cases hcc : c' = c
    · subst hcc; rw [h1 c' hc''] at hc; cases hc
    · rw [upd_ne _ _ _ hcc]; exact h1 c' hc''
  · intro c'
    by_cases hcc : c' = c
    · subst hcc
      obtain ⟨k1, k2, k3, k4⟩ := hok
      constructor
      · intro hn
        have hn' : upd s.calls c' (some newcd) c' = none := hn
        rw [upd_self] at hn'
        cases hn'
      · intro cd' hcd'
        have hcd'' : upd s.calls c' (some newcd) c' = some cd' := hcd'
        rw [upd_self] at hcd''
        cases hcd''
        exact ⟨k1, k2, k3, k4⟩
    · refine callOK_transfer (upd_ne _ _ _ hcc) ?_ (h2 c')
      intro m'
      show cnt c' ((upd s.matchers m ⟨ps, rest⟩ m').pending) = cnt c' ((s.matchers m').pending)
      by_cases hm' : m' = m
      · subst hm'
        rw [upd_self, hpend]
        show cnt c' ps = cnt c' (c :: ps)
        rw [cnt_cons, if_neg (fun hq => hcc hq.symm)]
        omega
      · rw [upd_ne _ _ _ hm']
  · intro m' hm'
    have hm'' : s.numMatchers ≤ m' := hm'
    show upd s.matchers m ⟨ps, rest⟩ m' = ⟨[], []⟩
    rw [upd_ne _ _ _ (by omega : m' ≠ m)]
    exact h3 m' hm''
  · intro m' hm'
    rcases h6 m' hm' with hp | hq
    · left
      show (upd s.matchers m ⟨ps, rest⟩ m').pending = []
      rw [upd_ne _ _ _ hm']
      exact hp
    · right
      show (upd s.matchers m ⟨ps, rest⟩ m').requests = []
      rw [upd_ne _ _ _ hm']
      exact hq
  · show (upd s.matchers m ⟨ps, rest⟩ m).pending = ps
    rw [upd_self]

theorem drainLoop_inv : ∀ (fuel : Nat) (s : ServerState) (m : Nat),
    (s.matchers m).pending.length ≤ fuel → m < s.numMatchers →
    InvCore s → (∀ m', m' ≠ m → matcherOK s m') →
    Inv (drainLoop fuel s m) := by
  intro fuel
  induction fuel with
  | zero =>
    intro s m hlen hm hcore h6
    rw [drainLoop_zero]
    refine ⟨hcore, ?_⟩
    intro m'
    by_cases hm' : m' = m
    · subst hm'
      left
      have : (s.matchers m').pending = [] := List.length_eq_zero.mp (by omega)
      exact this
    · exact h6 m' hm'
  | succ fuel ih =>
    intro s m hlen hm hcore h6
    cases hpend : (s.matchers m).pending with
    | nil =>
      rw [drainLoop_pending_nil fuel hpend]
      refine ⟨hcore, ?_⟩
      intro m'
      by_cases hm' : m' = m
      · subst hm'; left; exact hpend
      · exact h6 m' hm'
    | cons c ps =>
      cases hreq : (s.matchers m).requests with
      | nil =>
        rw [drainLoop_requests_nil fuel hpend hreq]
        refine ⟨hcore, ?_⟩
        intro m'
        by_cases hm' : m' = m
        · subst hm'; right; exact hreq
        · exact h6 m' hm'
      | cons idx rest =>
        obtain ⟨h1, h2, h3, h4, h5⟩ := hcore
        have hcntpos : 0 < pendingCnt s c m := by
          unfold pendingCnt
          rw [hpend, cnt_cons, if_pos rfl]
          omega
        cases hcall : s.calls c with
        | none =>
          exfalso
          have hoff := (h2 c).1 hcall
          have := hoff m
          omega
        | some cd =>
          have hlen' : ps.length ≤ fuel := by
            have : (c :: ps).length ≤ fuel + 1 := by rw [← hpend]; exact hlen
            simp at this
            omega
          cases hstate : cd.state with
          | NOT_STARTED =>
            exfalso
            obtain ⟨hoff, _, _, _⟩ := ((h2 c).2 cd hcall).1 hstate
            have := hoff m
            omega
          | ACTIVATED =>
            exfalso
            obtain ⟨hoff, _⟩ := ((h2 c).2 cd hcall).2.2.1 hstate
            have := hoff m
            omega
          | ZOMBIED =>
            obtain ⟨ha, hdisj⟩ := ((h2 c).2 cd hcall).2.2.2 hstate
            rcases hdisj with ⟨hk, hoff⟩ | ⟨hk, hon, hd⟩
            · exfalso
              have := hoff m
              omega
            · have hmm : cd.matcher = m := onFifoOnce_matcher_eq hon hcntpos
              have hcnt0 : cnt c ps = 0 := by
                have := hon.1
                rw [hmm] at this
                unfold pendingCnt at this
                rw [hpend, cnt_cons, if_pos rfl] at this
                omega
              have hothers : ∀ m', m' ≠ m → pendingCnt s c m' = 0 := by
                intro m' hm'
                exact hon.2 m' (by rw [hmm]; exact hm')
              rw [drainLoop_zombie fuel hpend hreq hcall hstate]
              have hok : callClausesOK
                  (detachState s m c ps rest { cd with killScheduled := cd.killScheduled + 1 })
                  c { cd with killScheduled := cd.killScheduled + 1 } := by
                refine ⟨?_, ?_, ?_, ?_⟩
                · intro hz; rw [show ({ cd with killScheduled := cd.killScheduled + 1 } :
                    call_data).state = cd.state from rfl, hstate] at hz; cases hz
                · intro hz; rw [show ({ cd with killScheduled := cd.killScheduled + 1 } :
                    call_data).state = cd.state from rfl, hstate] at hz; cases hz
                · intro hz; rw [show ({ cd with killScheduled := cd.killScheduled + 1 } :
                    call_data).state = cd.state from rfl, hstate] at hz; cases hz
                · intro _
                  refine ⟨ha, Or.inl ⟨by show cd.killScheduled + 1 = 1; omega,
                    offAllFifos_detach hcnt0 hothers⟩⟩
              obtain ⟨g1, g2, g3⟩ := invcore_detach hm hpend hcall hok ⟨h1, h2, h3, h4, h5⟩ h6
              exact ih _ m (by rw [g3]; exact hlen') hm g1 g2
          | PENDING =>
            obtain ⟨hon, hk, ha, hd⟩ := ((h2 c).2 cd hcall).2.1 hstate
            have hmm : cd.matcher = m := onFifoOnce_matcher_eq hon hcntpos
            have hcnt0 : cnt c ps = 0 := by
              have := hon.1
              rw [hmm] at this
              unfold pendingCnt at this
              rw [hpend, cnt_cons, if_pos rfl] at this
              omega
            have hothers : ∀ m', m' ≠ m → pendingCnt s c m' = 0 := by
              intro m' hm'
              exact hon.2 m' (by rw [hmm]; exact hm')
            rw [drainLoop_activate fuel hpend hreq hcall hstate]
            have hok : callClausesOK
                (detachState s m c ps rest { cd with
                  state := call_state.ACTIVATED, awaiting := some idx })
                c { cd with state := call_state.ACTIVATED, awaiting := some idx } := by
              refine ⟨?_, ?_, ?_, ?_⟩
              · intro hz; cases hz
              · intro hz; cases hz
              · intro _
                exact ⟨offAllFifos_detach hcnt0 hothers, hk⟩
              · intro hz; cases hz
            obtain ⟨g1, g2, g3⟩ := invcore_detach hm hpend hcall hok ⟨h1, h2, h3, h4, h5⟩ h6
            exact ih _ m (by rw [g3]; exact hlen') hm g1 g2

/-! ## Invariant preservation: ticket submission -/

theorem queue_call_request_shutdown {s : ServerState} {m : Nat}
    (hf : s.shutdown_flag = true) :
    queue_call_request s m = ({ s with
      nextTid := s.nextTid + 1
      submitted := s.nextTid :: s.submitted
      ticketCompletions := fail_call_completion s.nextTid :: s.ticketCompletions },
      grpc_call_error.GRPC_CALL_OK) := by
  simp [queue_call_request, hf]

theorem queue_call_request_exhausted {s : ServerState} {m : Nat}
    (hf : s.shutdown_flag = false) (hfl : s.request_freelist = []) :
    queue_call_request s m = ({ s with
      nextTid := s.nextTid + 1
      submitted := s.nextTid :: s.submitted
      ticketCompletions := fail_call_completion s.nextTid :: s.ticketCompletions },
      grpc_call_error.GRPC_CALL_OK) := by
  simp [queue_call_request, hf, hfl]

/-- The state after queue_call_request stored the ticket in slot `idx` and
pushed `idx` onto matcher `m`'s stack (before any drain). -/
abbrev pushState (s : ServerState) (m idx : Nat) (rest : List Nat) : ServerState :=
  { s with
    nextTid := s.nextTid + 1
    submitted := s.nextTid :: s.submitted
    request_freelist := rest
    requested_calls := upd s.requested_calls idx s.nextTid
    matchers := upd s.matchers m ⟨(s.matchers m).pending, idx :: (s.matchers m).requests⟩ }

theorem queue_call_request_edge {s : ServerState} {m idx : Nat} {rest : List Nat}
    (hf : s.shutdown_flag = false) (hfl : s.request_freelist = idx :: rest)
    (hr : (s.matchers m).requests = []) :
    queue_call_request s m = (drain (pushState s m idx rest) m,
      grpc_call_error.GRPC_CALL_OK) := by
  simp [queue_call_request, hf, hfl, hr, pushState, drain]

theorem queue_call_request_no_edge {s : ServerState} {m idx : Nat} {rest : List Nat}
    {x : Nat} {xs : List Nat}
    (hf : s.shutdown_flag = false) (hfl : s.request_freelist = idx :: rest)
    (hr : (s.matchers m).requests = x :: xs) :
    queue_call_request s m = (pushState s m idx rest,
      grpc_call_error.GRPC_CALL_OK) := by
  simp [queue_call_request, hf, hfl, hr, pushState]

theorem invcore_push {s : ServerState} (m idx : Nat) (rest : List Nat)
    (hm : m < s.numMatchers) (h : Inv s) :
    InvCore (pushState s m idx rest) ∧
    (∀ m', m' ≠ m → matcherOK (pushState s m idx rest) m') := by
  obtain ⟨⟨h1, h2, h3, h4, h5⟩, h6⟩ := h
  have hpendeq : ∀ c' m', cnt c' (((pushState s m idx rest).matchers m').pending)
      = cnt c' ((s.matchers m').pending) := by
    intro c' m'
    show cnt c' ((upd s.matchers m
      ⟨(s.matchers m).pending, idx :: (s.matchers m).requests⟩ m').pending)
      = cnt c' ((s.matchers m').pending)
    by_cases hm' : m' = m
    · subst hm'
      rw [upd_self]
    · rw [upd_ne _ _ _ hm']
  refine ⟨⟨h1, ?_, ?_, h4, h5⟩, ?_⟩
  · intro c'
    exact callOK_transfer
      (show (pushState s m idx rest).calls c' = s.calls c' from rfl)
      (hpendeq c') (h2 c')
  · intro m' hm'
    have hm'' : s.numMatchers ≤ m' := hm'
    show upd s.matchers m ⟨(s.matchers m).pending, idx :: (s.matchers m).requests⟩ m'
      = ⟨[], []⟩
    rw [upd_ne _ _ _ (by omega : m' ≠ m)]
    exact h3 m' hm''
  · intro m' hm'
    rcases h6 m' with hp | hq
    · left
      show (upd s.matchers m
        ⟨(s.matchers m).pending, idx :: (s.matchers m).requests⟩ m').pending = []
      rw [upd_ne _ _ _ hm']
      exact hp
    · right
      show (upd s.matchers m
        ⟨(s.matchers m).pending, idx :: (s.matchers m).requests⟩ m').requests = []
      rw [upd_ne _ _ _ hm']
      exact hq

theorem inv_queue_call_request {s : ServerState} (m : Nat)
    (hm : m < s.numMatchers) (h : Inv s) : Inv (queue_call_request s m).1 := by
  cases hf : s.shutdown_flag with
  | true =>
    rw [queue_call_request_shutdown hf]
    obtain ⟨⟨h1, h2, h3, h4, h5⟩, h6⟩ := h
    refine ⟨⟨h1, ?_, h3, h4, h5⟩, h6⟩
    intro c'
    exact callOK_transfer rfl (fun m' => rfl) (h2 c')
  | false =>
    cases hfl : s.request_freelist with
    | nil =>
      rw [queue_call_request_exhausted hf hfl]
      obtain ⟨⟨h1, h2, h3, h4, h5⟩, h6⟩ := h
      refine ⟨⟨h1, ?_, h3, h4, h5⟩, h6⟩
      intro c'
      exact callOK_transfer rfl (fun m' => rfl) (h2 c')
    | cons idx rest =>
      obtain ⟨hcore, hrest⟩ := invcore_push m idx rest hm h
      cases hr : (s.matchers m).requests with
      | nil =>
        rw [queue_call_request_edge hf hfl hr]
        exact drainLoop_inv _ _ m (Nat.le_refl _) hm hcore hrest
      | cons x xs =>
        rw [queue_call_request_no_edge hf hfl hr]
        refine ⟨hcore, ?_⟩
        intro m'
        by_cases hm' : m' = m
        · subst hm'
          left
          show (upd s.matchers m'
            ⟨(s.matchers m').pending, idx :: (s.matchers m').requests⟩ m').pending = []
          rw [upd_self]
          rcases h.2 m' with hp | hq
          · exact hp
          · rw [hr] at hq; cases hq
        · exact hrest m' hm'

/-! ## Invariant preservation: shutdown -/

theorem fail_ticket_at_frame (s : ServerState) (idx : Nat) :
    (fail_ticket_at s idx).calls = s.calls ∧
    (fail_ticket_at s idx).matchers = s.matchers ∧
    (fail_ticket_at s idx).numCalls = s.numCalls ∧
    (fail_ticket_at s idx).numMatchers = s.numMatchers ∧
    (fail_ticket_at s idx).assertionFailed = s.assertionFailed ∧
    (fail_ticket_at s idx).shutdown_flag = s.shutdown_flag ∧
    (fail_ticket_at s idx).shutdown_published = s.shutdown_published ∧
    (fail_ticket_at s idx).shutdown_tags = s.shutdown_tags ∧
    (fail_ticket_at s idx).shutdownCompletions = s.shutdownCompletions ∧
    (fail_ticket_at s idx).nextShutdownTag = s.nextShutdownTag ∧
    (fail_ticket_at s idx).numChannels = s.numChannels ∧
    (fail_ticket_at s idx).numListeners = s.numListeners ∧
    (fail_ticket_at s idx).listenersDestroyed = s.listenersDestroyed :=
  ⟨rfl, rfl, rfl, rfl, rfl, rfl, rfl, rfl, rfl, rfl, rfl, rfl, rfl⟩

theorem fail_fold_frame : ∀ (l : List Nat) (s : ServerState),
    (l.foldl fail_ticket_at s).calls = s.calls ∧
    (l.foldl fail_ticket_at s).matchers = s.matchers ∧
    (l.foldl fail_ticket_at s).numCalls = s.numCalls ∧
    (l.foldl fail_ticket_at s).numMatchers = s.numMatchers ∧
    (l.foldl fail_ticket_at s).assertionFailed = s.assertionFailed ∧
    (l.foldl fail_ticket_at s).shutdown_flag = s.shutdown_flag ∧
    (l.foldl fail_ticket_at s).shutdown_published = s.shutdown_published ∧
    (l.foldl fail_ticket_at s).shutdown_tags = s.shutdown_tags ∧
    (l.foldl fail_ticket_at s).shutdownCompletions = s.shutdownCompletions ∧
    (l.foldl fail_ticket_at s).nextShutdownTag = s.nextShutdownTag ∧
    (l.foldl fail_ticket_at s).numChannels = s.numChannels ∧
    (l.foldl fail_ticket_at s).numListeners = s.numListeners ∧
    (l.foldl fail_ticket_at s).listenersDestroyed = s.listenersDestroyed := by
  intro l
  induction l with
  | nil => intro s; exact ⟨rfl, rfl, rfl, rfl, rfl, rfl, rfl, rfl, rfl, rfl, rfl, rfl, rfl⟩
  | cons x xs ih => intro s; exact ih (fail_ticket_at s x)

theorem zombify_call_frame (s : ServerState) (c : Nat) :
    (zombify_call s c).matchers = s.matchers ∧
    (zombify_call s c).numCalls = s.numCalls ∧
    (zombify_call s c).numMatchers = s.numMatchers ∧
    (zombify_call s c).assertionFailed = s.assertionFailed ∧
    (zombify_call s c).shutdown_flag = s.shutdown_flag ∧
    (zombify_call s c).shutdown_published = s.shutdown_published ∧
    (zombify_call s c).shutdown_tags = s.shutdown_tags ∧
    (zombify_call s c).shutdownCompletions = s.shutdownCompletions ∧
    (zombify_call s c).nextShutdownTag = s.nextShutdownTag ∧
    (zombify_call s c).numChannels = s.numChannels ∧
    (zombify_call s c).numListeners = s.numListeners ∧
    (zombify_call s c).listenersDestroyed = s.listenersDestroyed := by
  cases hc : s.calls c with
  | none =>
    rw [zombify_call_none hc]
    exact ⟨rfl, rfl, rfl, rfl, rfl, rfl, rfl, rfl, rfl, rfl, rfl, rfl⟩
  | some cd =>
    rw [zombify_call_some hc]
    exact ⟨rfl, rfl, rfl, rfl, rfl, rfl, rfl, rfl, rfl, rfl, rfl, rfl⟩

theorem zombify_fold_frame : ∀ (l : List Nat) (s : ServerState),
    (l.foldl zombify_call s).matchers = s.matchers ∧
    (l.foldl zombify_call s).numCalls = s.numCalls ∧
    (l.foldl zombify_call s).numMatchers = s.numMatchers ∧
    (l.foldl zombify_call s).assertionFailed = s.assertionFailed ∧
    (l.foldl zombify_call s).shutdown_flag = s.shutdown_flag ∧
    (l.foldl zombify_call s).shutdown_published = s.shutdown_published ∧
    (l.foldl zombify_call s).shutdown_tags = s.shutdown_tags ∧
    (l.foldl zombify_call s).shutdownCompletions = s.shutdownCompletions ∧
    (l.foldl zombify_call s).nextShutdownTag = s.nextShutdownTag ∧
    (l.foldl zombify_call s).numChannels = s.numChannels ∧
    (l.foldl zombify_call s).numListeners = s.numListeners ∧
    (l.foldl zombify_call s).listenersDestroyed = s.listenersDestroyed := by
  intro l
  induction l with
  | nil => intro s; exact ⟨rfl, rfl, rfl, rfl, rfl, rfl, rfl, rfl, rfl, rfl, rfl, rfl⟩
  | cons x xs ih =>
    intro s
    obtain ⟨a1, a2, a3, a4, a5, a6, a7, a8, a9, a10, a11, a12⟩ := zombify_call_frame s x
    obtain ⟨b1, b2, b3, b4, b5, b6, b7, b8, b9, b10, b11, b12⟩ := ih (zombify_call s x)
    exact ⟨b1.trans a1, b2.trans a2, b3.trans a3, b4.trans a4, b5.trans a5, b6.trans a6,
      b7.trans a7, b8.trans a8, b9.trans a9, b10.trans a10, b11.trans a11, b12.trans a12⟩

theorem zombify_call_calls_ne {s : ServerState} {c x : Nat} (h : c ≠ x) :
    (zombify_call s x).calls c = s.calls c := by
  cases hc : s.calls x with
  | none => rw [zombify_call_none hc]
  | some cd =>
    rw [zombify_call_some hc]
    exact upd_ne _ _ _ h

theorem zombify_fold_calls : ∀ (l : List Nat) (s : ServerState),
    (∀ c ∈ l, cnt c l = 1) →
    (∀ c, c ∉ l → (l.foldl zombify_call s).calls c = s.calls c) ∧
    (∀ c cd, c ∈ l → s.calls c = some cd →
       (l.foldl zombify_call s).calls c = some { cd with
         state := call_state.ZOMBIED, killScheduled := cd.killScheduled + 1 }) := by
  intro l
  induction l with
  | nil =>
    intro s _
    exact ⟨fun c _ => rfl, fun c cd hmem _ => absurd hmem (List.not_mem_nil c)⟩
  | cons x xs ih =>
    intro s hcnt
    have hxxs : x ∉ xs := by
      have h1 := hcnt x (List.mem_cons_self x xs)
      rw [cnt_cons, if_pos rfl] at h1
      intro hmem
      have := cnt_pos_of_mem (a := x) (l := xs) hmem
      omega
    have hxs : ∀ c ∈ xs, cnt c xs = 1 := by
      intro c hmem
      have h1 := hcnt c (List.mem_cons_of_mem x hmem)
      rw [cnt_cons] at h1
      have := cnt_pos_of_mem (a := c) (l := xs) hmem
      omega
    obtain ⟨ih1, ih2⟩ := ih (zombify_call s x) hxs
    constructor
    · intro c hmem
      have hcx : c ≠ x := fun hq => hmem (hq ▸ List.mem_cons_self x xs)
      have hcxs : c ∉ xs := fun hq => hmem (List.mem_cons_of_mem x hq)
      rw [List.foldl_cons, ih1 c hcxs, zombify_call_calls_ne hcx]
    · intro c cd hmem hcd
      rcases List.mem_cons.mp hmem with hcx | hcxs
      · subst hcx
        rw [List.foldl_cons, ih1 c hxxs, zombify_call_some hcd]
        exact upd_self _ _ _
      · have hcx : c ≠ x := fun hq => hxxs (hq ▸ hcxs)
        rw [List.foldl_cons]
        refine ih2 c cd hcxs ?_
        rw [zombify_call_calls_ne hcx]
        exact hcd

theorem inv_kill_requests {s : ServerState} (m : Nat) (h : Inv s) :
    Inv (request_matcher_kill_requests s m) := by
  obtain ⟨⟨h1, h2, h3, h4, h5⟩, h6⟩ := h
  obtain ⟨f1, f2, f3, f4, f5, f6, f7, f8, f9, f10, f11, f12, f13⟩ :=
    fail_fold_frame (s.matchers m).requests s
  unfold request_matcher_kill_requests
  refine ⟨⟨?_, ?_, ?_, ?_, ?_⟩, ?_⟩
  · intro c hc
    have hc' : ((s.matchers m).requests.foldl fail_ticket_at s).numCalls ≤ c := hc
    rw [f3] at hc'
    show ((s.matchers m).requests.foldl fail_ticket_at s).calls c = none
    rw [f1]
    exact h1 c hc'
  · intro c
    refine callOK_transfer (s := s) ?_ ?_ (h2 c)
    · show ((s.matchers m).requests.foldl fail_ticket_at s).calls c = s.calls c
      rw [f1]
    · intro m'
      show cnt c ((upd ((s.matchers m).requests.foldl fail_ticket_at s).matchers m
        ⟨(((s.matchers m).requests.foldl fail_ticket_at s).matchers m).pending, []⟩ m').pending)
        = cnt c ((s.matchers m').pending)
      rw [f2]
      by_cases hm' : m' = m
      · subst hm'
        rw [upd_self]
      · rw [upd_ne _ _ _ hm']
  · intro m' hm'
    have hm'' : s.numMatchers ≤ m' := by
      have : ((s.matchers m).requests.foldl fail_ticket_at s).numMatchers ≤ m' := hm'
      rw [f4] at this
      exact this
    show upd ((s.matchers m).requests.foldl fail_ticket_at s).matchers m
      ⟨(((s.matchers m).requests.foldl fail_ticket_at s).matchers m).pending, []⟩ m' = ⟨[], []⟩
    rw [f2]
    by_cases hmm : m' = m
    · subst hmm
      rw [upd_self, h3 m' hm'']
    · rw [upd_ne _ _ _ hmm]
      exact h3 m' hm''
  · show ((s.matchers m).requests.foldl fail_ticket_at s).assertionFailed = false
    rw [f5]
    exact h4
  · exact shutdownOK_transfer f6 f7 f8 f9 f10 h5
  · intro m'
    by_cases hm' : m' = m
    · subst hm'
      right
      show (upd ((s.matchers m').requests.foldl fail_ticket_at s).matchers m'
        ⟨(((s.matchers m').requests.foldl fail_ticket_at s).matchers m').pending, []⟩
        m').requests = []
      rw [upd_self]
    · rcases h6 m' with hp | hq
      · left
        show (upd ((s.matchers m).requests.foldl fail_ticket_at s).matchers m
          ⟨(((s.matchers m).requests.foldl fail_ticket_at s).matchers m).pending, []⟩
          m').pending = []
        rw [upd_ne _ _ _ hm', f2]
        exact hp
      · right
        show (upd ((s.matchers m).requests.foldl fail_ticket_at s).matchers m
          ⟨(((s.matchers m).requests.foldl fail_ticket_at s).matchers m).pending, []⟩
          m').requests = []
        rw [upd_ne _ _ _ hm', f2]
        exact hq

theorem inv_zombify {s : ServerState} (m : Nat) (h : Inv s) :
    Inv (request_matcher_zombify_all_pending_calls s m) := by
  obtain ⟨⟨h1, h2, h3, h4, h5⟩, h6⟩ := h
  obtain ⟨f1, f2, f3, f4, f5, f6, f7, f8, f9, f10, f11, f12⟩ :=
    zombify_fold_frame (s.matchers m).pending s
  have hmem_state : ∀ c ∈ (s.matchers m).pending, ∃ cd, s.calls c = some cd ∧
      cd.matcher = m ∧ cd.killScheduled = 0 ∧ cd.awaiting = none ∧
      onFifoOnce s c m := by
    intro c hmem
    have hpos : 0 < pendingCnt s c m := by
      unfold pendingCnt
      exact cnt_pos_of_mem hmem
    cases hc : s.calls c with
    | none =>
      exfalso
      have := (h2 c).1 hc m
      omega
    | some cd =>
      obtain ⟨k1, k2, k3, k4⟩ := (h2 c).2 cd hc
      cases hstate : cd.state with
      | NOT_STARTED =>
        exfalso
        have := (k1 hstate).1 m
        omega
      | ACTIVATED =>
        exfalso
        have := (k3 hstate).1 m
        omega
      | PENDING =>
        obtain ⟨hon, hk, ha, hd⟩ := k2 hstate
        have hmm : cd.matcher = m := onFifoOnce_matcher_eq hon hpos
        exact ⟨cd, rfl, hmm, hk, ha, hmm ▸ hon⟩
      | ZOMBIED =>
        obtain ⟨ha, hdisj⟩ := k4 hstate
        rcases hdisj with ⟨hk, hoff⟩ | ⟨hk, hon, hd⟩
        · exfalso
          have := hoff m
          omega
        · have hmm : cd.matcher = m := onFifoOnce_matcher_eq hon hpos
          exact ⟨cd, rfl, hmm, hk, ha, hmm ▸ hon⟩
  have hcnt1 : ∀ c ∈ (s.matchers m).pending, cnt c (s.matchers m).pending = 1 := by
    intro c hmem
    obtain ⟨cd, _, _, _, _, hon⟩ := hmem_state c hmem
    exact hon.1
  obtain ⟨z1, z2⟩ := zombify_fold_calls (s.matchers m).pending s hcnt1
  unfold request_matcher_zombify_all_pending_calls
  refine ⟨⟨?_, ?_, ?_, ?_, ?_⟩, ?_⟩
  · intro c hc
    have hc' : s.numCalls ≤ c := by
      have : ((s.matchers m).pending.foldl zombify_call s).numCalls ≤ c := hc
      rw [f2] at this
      exact this
    have hnone := h1 c hc'
    have hnm : c ∉ (s.matchers m).pending := by
      intro hmem
      obtain ⟨cd, hcd, _⟩ := hmem_state c hmem
      rw [hnone] at hcd
      cases hcd
    show ((s.matchers m).pending.foldl zombify_call s).calls c = none
    rw [z1 c hnm]
    exact hnone
  · intro c
    by_cases hmem : c ∈ (s.matchers m).pending
    · obtain ⟨cd, hcd, hmm, hk, ha, hon⟩ := hmem_state c hmem
      constructor
      · intro hn
        have hn' : ((s.matchers m).pending.foldl zombify_call s).calls c = none := hn
        rw [z2 c cd hmem hcd] at hn'
        cases hn'
      · intro cd' hcd'
        have hcd'' : ((s.matchers m).pending.foldl zombify_call s).calls c = some cd' := hcd'
        rw [z2 c cd hmem hcd] at hcd''
        cases hcd''
        refine ⟨?_, ?_, ?_, ?_⟩
        · intro hz; cases hz
        · intro hz; cases hz
        · intro hz; cases hz
        · intro _
          refine ⟨ha, Or.inl ⟨by show cd.killScheduled + 1 = 1; omega, ?_⟩⟩
          intro m''
          unfold pendingCnt
          show cnt c ((upd ((s.matchers m).pending.foldl zombify_call s).matchers m
            ⟨[], (((s.matchers m).pending.foldl zombify_call s).matchers m).requests⟩
            m'').pending) = 0
          rw [f1]
          by_cases hm'' : m'' = m
          · subst hm''
            rw [upd_self]
            rfl
          · rw [upd_ne _ _ _ hm'']
            exact hon.2 m'' hm''
    · refine callOK_transfer (s := s) ?_ ?_ (h2 c)
      · show ((s.matchers m).pending.foldl zombify_call s).calls c = s.calls c
        exact z1 c hmem
      · intro m'
        show cnt c ((upd ((s.matchers m).pending.foldl zombify_call s).matchers m
          ⟨[], (((s.matchers m).pending.foldl zombify_call s).matchers m).requests⟩
          m').pending) = cnt c ((s.matchers m').pending)
        rw [f1]
        by_cases hm' : m' = m
        · subst hm'
          rw [upd_self]
          show (0 : Nat) = cnt c (s.matchers m').pending
          rw [cnt_eq_zero_of_not_mem hmem]
        · rw [upd_ne _ _ _ hm']
  · intro m' hm'
    have hm'' : s.numMatchers ≤ m' := by
      have : ((s.matchers m).pending.foldl zombify_call s).numMatchers ≤ m' := hm'
      rw [f3] at this
      exact this
    show upd ((s.matchers m).pending.foldl zombify_call s).matchers m
      ⟨[], (((s.matchers m).pending.foldl zombify_call s).matchers m).requests⟩ m'
      = ⟨[], []⟩
    rw [f1]
    by_cases hmm : m' = m
    · subst hmm
      rw [upd_self, h3 m' hm'']
    · rw [upd_ne _ _ _ hmm]
      exact h3 m' hm''
  · show ((s.matchers m).pending.foldl zombify_call s).assertionFailed = false
    rw [f4]
    exact h4
  · exact shutdownOK_transfer f5 f6 f7 f8 f9 h5
  · intro m'
    by_cases hm' : m' = m
    · subst hm'
      left
      show (upd ((s.matchers m').pending.foldl zombify_call s).matchers m'
        ⟨[], (((s.matchers m').pending.foldl zombify_call s).matchers m').requests⟩
        m').pending = []
      rw [upd_self]
    · rcases h6 m' with hp | hq
      · left
        show (upd ((s.matchers m).pending.foldl zombify_call s).matchers m
          ⟨[], (((s.matchers m).pending.foldl zombify_call s).matchers m).requests⟩
          m').pending = []
        rw [upd_ne _ _ _ hm', f1]
        exact hp
      · right
        show (upd ((s.matchers m).pending.foldl zombify_call s).matchers m
          ⟨[], (((s.matchers m).pending.foldl zombify_call s).matchers m).requests⟩
          m').requests = []
        rw [upd_ne _ _ _ hm', f1]
        exact hq

theorem inv_kill_matcher {s : ServerState} (m : Nat) (h : Inv s) :
    Inv (kill_matcher s m) :=
  inv_zombify m (inv_kill_requests m h)

theorem inv_kill_pending_work {s : ServerState} (h : Inv s) :
    Inv (kill_pending_work_locked s) :=
  foldl_preserve Inv kill_matcher (fun _ m h' => inv_kill_matcher m h') _ s h

theorem kill_matcher_shutdown_frame (s : ServerState) (m : Nat) :
    (kill_matcher s m).shutdown_flag = s.shutdown_flag ∧
    (kill_matcher s m).shutdown_published = s.shutdown_published ∧
    (kill_matcher s m).shutdown_tags = s.shutdown_tags ∧
    (kill_matcher s m).shutdownCompletions = s.shutdownCompletions ∧
    (kill_matcher s m).nextShutdownTag = s.nextShutdownTag ∧
    (kill_matcher s m).numChannels = s.numChannels ∧
    (kill_matcher s m).numListeners = s.numListeners ∧
    (kill_matcher s m).listenersDestroyed = s.listenersDestroyed := by
  obtain ⟨g1, g2, g3, g4, g5, g6, g7, g8, g9, g10, g11, g12, g13⟩ :=
    fail_fold_frame (s.matchers m).requests s
  have hkr := request_matcher_kill_requests
  obtain ⟨z1, z2, z3, z4, z5, z6, z7, z8, z9, z10, z11, z12⟩ :=
    zombify_fold_frame ((request_matcher_kill_requests s m).matchers m).pending
      (request_matcher_kill_requests s m)
  refine ⟨?_, ?_, ?_, ?_, ?_, ?_, ?_, ?_⟩
  · exact z5.trans g6
  · exact z6.trans g7
  · exact z7.trans g8
  · exact z8.trans g9
  · exact z9.trans g10
  · exact z10.trans g11
  · exact z11.trans g12
  · exact z12.trans g13

theorem kill_pending_shutdown_frame : ∀ (l : List Nat) (s : ServerState),
    (l.foldl kill_matcher s).shutdown_flag = s.shutdown_flag ∧
    (l.foldl kill_matcher s).shutdown_published = s.shutdown_published ∧
    (l.foldl kill_matcher s).shutdown_tags = s.shutdown_tags ∧
    (l.foldl kill_matcher s).shutdownCompletions = s.shutdownCompletions ∧
    (l.foldl kill_matcher s).nextShutdownTag = s.nextShutdownTag ∧
    (l.foldl kill_matcher s).numChannels = s.numChannels ∧
    (l.foldl kill_matcher s).numListeners = s.numListeners ∧
    (l.foldl kill_matcher s).listenersDestroyed = s.listenersDestroyed := by
  intro l
  induction l with
  | nil => intro s; exact ⟨rfl, rfl, rfl, rfl, rfl, rfl, rfl, rfl⟩
  | cons x xs ih =>
    intro s
    obtain ⟨a1, a2, a3, a4, a5, a6, a7, a8⟩ := kill_matcher_shutdown_frame s x
    obtain ⟨b1, b2, b3, b4, b5, b6, b7, b8⟩ := ih (kill_matcher s x)
    exact ⟨b1.trans a1, b2.trans a2, b3.trans a3, b4.trans a4, b5.trans a5,
      b6.trans a6, b7.trans a7, b8.trans a8⟩

theorem kill_pending_work_shutdown_frame (s : ServerState) :
    (kill_pending_work_locked s).shutdown_flag = s.shutdown_flag ∧
    (kill_pending_work_locked s).shutdown_published = s.shutdown_published ∧
    (kill_pending_work_locked s).shutdown_tags = s.shutdown_tags ∧
    (kill_pending_work_locked s).shutdownCompletions = s.shutdownCompletions ∧
    (kill_pending_work_locked s).nextShutdownTag = s.nextShutdownTag ∧
    (kill_pending_work_locked s).numChannels = s.numChannels ∧
    (kill_pending_work_locked s).numListeners = s.numListeners ∧
    (kill_pending_work_locked s).listenersDestroyed = s.listenersDestroyed :=
  kill_pending_shutdown_frame (List.range s.numMatchers) s

theorem maybe_finish_idle {s : ServerState}
    (h : (!s.shutdown_flag || s.shutdown_published) = true) :
    maybe_finish_shutdown s = s := by
  simp [maybe_finish_shutdown, h]

theorem maybe_finish_wait {s : ServerState}
    (h1 : (!s.shutdown_flag || s.shutdown_published) = false)
    (h2 : (kill_pending_work_locked s).numChannels ≠ 0 ∨
          (kill_pending_work_locked s).listenersDestroyed <
          (kill_pending_work_locked s).numListeners) :
    maybe_finish_shutdown s = kill_pending_work_locked s := by
  simp [maybe_finish_shutdown, h1, h2]

theorem maybe_finish_publish {s : ServerState}
    (h1 : (!s.shutdown_flag || s.shutdown_published) = false)
    (h2 : ¬ ((kill_pending_work_locked s).numChannels ≠ 0 ∨
          (kill_pending_work_locked s).listenersDestroyed <
          (kill_pending_work_locked s).numListeners)) :
    maybe_finish_shutdown s = { kill_pending_work_locked s with
      shutdown_published := true
      shutdownCompletions :=
        (kill_pending_work_locked s).shutdown_tags.map (fun t => (t, true)) ++
        (kill_pending_work_locked s).shutdownCompletions } := by
  simp [maybe_finish_shutdown, h1, h2]

theorem cnt_pair_map (t : Nat) (l : List Nat) :
    cnt (t, true) (l.map (fun x => (x, true))) = cnt t l := by
  induction l with
  | nil => rfl
  | cons x xs ih =>
    rw [List.map_cons, cnt_cons, cnt_cons, ih]
    by_cases hx : x = t
    · rw [if_pos (by rw [hx]), if_pos hx]
    · rw [if_neg (by simp [hx]), if_neg hx]

theorem bool_cond_split {f p : Bool} (h : (!f || p) = false) : f = true ∧ p = false := by
  cases f <;> cases p <;> simp at h
  exact ⟨rfl, rfl⟩

theorem inv_maybe_finish {s : ServerState} (h : Inv s) : Inv (maybe_finish_shutdown s) := by
  cases h1 : (!s.shutdown_flag || s.shutdown_published) with
  | true => rw [maybe_finish_idle h1]; exact h
  | false =>
    obtain ⟨hflag, hpub⟩ := bool_cond_split h1
    have hk : Inv (kill_pending_work_locked s) := inv_kill_pending_work h
    by_cases h2 : (kill_pending_work_locked s).numChannels ≠ 0 ∨
        (kill_pending_work_locked s).listenersDestroyed <
        (kill_pending_work_locked s).numListeners
    · rw [maybe_finish_wait h1 h2]; exact hk
    · rw [maybe_finish_publish h1 h2]
      obtain ⟨⟨k1, k2, k3, k4, k5⟩, k6⟩ := hk
      obtain ⟨f1, f2, f3, f4, f5, f6, f7, f8⟩ := kill_pending_work_shutdown_frame s
      obtain ⟨w1, w2, w3, w4, w5⟩ := k5
      refine ⟨⟨k1, ?_, k3, k4, ?_⟩, ?_⟩
      · intro c
        exact callOK_transfer (s := kill_pending_work_locked s) rfl (fun m => rfl) (k2 c)
      · refine ⟨?_, ?_, ?_, ?_, ?_⟩
        · intro _
          show (kill_pending_work_locked s).shutdown_flag = true
          rw [f1]
          exact hflag
        · exact w2
        · exact w3
        · intro t ht
          have htags : t ∈ (kill_pending_work_locked s).shutdown_tags := ht
          have hold : cnt (t, true) (kill_pending_work_locked s).shutdownCompletions = 0 := by
            have := w4 t htags
            rw [f2, hpub] at this
            simpa using this
          show cnt (t, true)
            ((kill_pending_work_locked s).shutdown_tags.map (fun x => (x, true)) ++
             (kill_pending_work_locked s).shutdownCompletions) = 1
          rw [cnt_append, cnt_pair_map, hold, w2 t htags]
        · intro p hp
          have hp' : p ∈ (kill_pending_work_locked s).shutdown_tags.map (fun x => (x, true)) ++
              (kill_pending_work_locked s).shutdownCompletions := hp
          rcases List.mem_append.mp hp' with hmap | hmem
        
          · obtain ⟨x, hx, hpx⟩ := List.mem_map.mp hmap
            subst hpx
            exact ⟨rfl, w3 x hx⟩
          · exact w5 p hmem
      · intro m
        exact k6 m

theorem shutdown_notify_published {s : ServerState} (hp : s.shutdown_published = true) :
    grpc_server_shutdown_and_notify s = { s with
      nextShutdownTag := s.nextShutdownTag + 1
      shutdownCompletions := (s.nextShutdownTag, true) :: s.shutdownCompletions } := by
  simp [grpc_server_shutdown_and_notify, hp]

theorem shutdown_notify_flagged {s : ServerState} (hp : s.shutdown_published = false)
    (hf : s.shutdown_flag = true) :
    grpc_server_shutdown_and_notify s = { s with
      nextShutdownTag := s.nextShutdownTag + 1
      shutdown_tags := s.shutdown_tags ++ [s.nextShutdownTag] } := by
  simp [grpc_server_shutdown_and_notify, hp, hf]

theorem shutdown_notify_fresh {s : ServerState} (hp : s.shutdown_published = false)
    (hf : s.shutdown_flag = false) :
    grpc_server_shutdown_and_notify s = maybe_finish_shutdown
      { kill_pending_work_locked { s with
          nextShutdownTag := s.nextShutdownTag + 1
          shutdown_tags := s.shutdown_tags ++ [s.nextShutdownTag] } with
        shutdown_flag := true } := by
  simp [grpc_server_shutdown_and_notify, hp, hf]

theorem cnt_pair_zero_of_bound {tag : Nat} {l : List (Nat × Bool)}
    (h : ∀ p ∈ l, p.1 < tag) : cnt (tag, true) l = 0 := by
  apply cnt_eq_zero_of_not_mem
  intro hmem
  have := h _ hmem
  omega

theorem inv_register_tag {s : ServerState} (h : Inv s)
    (hp : s.shutdown_published = false) :
    Inv { s with
      nextShutdownTag := s.nextShutdownTag + 1
      shutdown_tags := s.shutdown_tags ++ [s.nextShutdownTag] } := by
  obtain ⟨⟨h1, h2, h3, h4, h5⟩, h6⟩ := h
  obtain ⟨w1, w2, w3, w4, w5⟩ := h5
  have hnotmem : s.nextShutdownTag ∉ s.shutdown_tags := by
    intro hmem
    have := w3 _ hmem
    omega
  refine ⟨⟨h1, h2, h3, h4, ⟨?_, ?_, ?_, ?_, ?_⟩⟩, h6⟩
  · intro hq
    have hq' : s.shutdown_published = true := hq
    rw [hp] at hq'
    cases hq'
  · intro t ht
    have ht' : t ∈ s.shutdown_tags ++ [s.nextShutdownTag] := ht
    show cnt t (s.shutdown_tags ++ [s.nextShutdownTag]) = 1
    rw [cnt_append]
    rcases List.mem_append.mp ht' with hmem | hmem
    · have hne : s.nextShutdownTag ≠ t := by
        have := w3 _ hmem
        omega
      rw [w2 t hmem]
      simp [cnt, hne]
    · have hte : t = s.nextShutdownTag := by simpa using hmem
      subst hte
      rw [cnt_eq_zero_of_not_mem hnotmem]
      simp [cnt]
  · intro t ht
    have ht' : t ∈ s.shutdown_tags ++ [s.nextShutdownTag] := ht
    show t < s.nextShutdownTag + 1
    rcases List.mem_append.mp ht' with hmem | hmem
    · have := w3 _ hmem
      omega
    · have hte : t = s.nextShutdownTag := by simpa using hmem
      omega
  · intro t ht
    have ht' : t ∈ s.shutdown_tags ++ [s.nextShutdownTag] := ht
    show cnt (t, true) s.shutdownCompletions =
      if ({ s with
        nextShutdownTag := s.nextShutdownTag + 1
        shutdown_tags := s.shutdown_tags ++ [s.nextShutdownTag] } :
        ServerState).shutdown_published = true then 1 else 0
    have hps : ({ s with
        nextShutdownTag := s.nextShutdownTag + 1
        shutdown_tags := s.shutdown_tags ++ [s.nextShutdownTag] } :
        ServerState).shutdown_published = false := hp
    rw [hps]
    simp only [Bool.false_eq_true, if_false]
    rcases List.mem_append.mp ht' with hmem | hmem
    · have := w4 t hmem
      rw [hp] at this
      simpa using this
    · have hte : t = s.nextShutdownTag := by simpa using hmem
      subst hte
      exact cnt_pair_zero_of_bound (fun p hp' => (w5 p hp').2)
  · intro p hp'
    obtain ⟨ha, hb⟩ := w5 p hp'
    refine ⟨ha, ?_⟩
    show p.1 < s.nextShutdownTag + 1
    omega

theorem inv_set_flag {s : ServerState} (h : Inv s) :
    Inv { s with shutdown_flag := true } := by
  obtain ⟨⟨h1, h2, h3, h4, h5⟩, h6⟩ := h
  obtain ⟨w1, w2, w3, w4, w5⟩ := h5
  exact ⟨⟨h1, h2, h3, h4, ⟨fun _ => rfl, w2, w3, w4, w5⟩⟩, h6⟩

theorem inv_shutdown_notify {s : ServerState} (h : Inv s) :
    Inv (grpc_server_shutdown_and_notify s) := by
  cases hp : s.shutdown_published with
  | true =>
    rw [shutdown_notify_published hp]
    obtain ⟨⟨h1, h2, h3, h4, h5⟩, h6⟩ := h
    obtain ⟨w1, w2, w3, w4, w5⟩ := h5
    refine ⟨⟨h1, h2, h3, h4, ⟨?_, w2, ?_, ?_, ?_⟩⟩, h6⟩
    · intro _
      exact w1 hp
    · intro t ht
      have := w3 t ht
      show t < s.nextShutdownTag + 1
      omega
    · intro t ht
      have hne : (s.nextShutdownTag, true) ≠ ((t : Nat), true) := by
        have := w3 t ht
        intro hq
        rw [Prod.mk.injEq] at hq
        omega
      show cnt (t, true) ((s.nextShutdownTag, true) :: s.shutdownCompletions) =
        if ({ s with
          nextShutdownTag := s.nextShutdownTag + 1
          shutdownCompletions := (s.nextShutdownTag, true) :: s.shutdownCompletions } :
          ServerState).shutdown_published = true then 1 else 0
      rw [cnt_cons, if_neg hne]
      have := w4 t ht
      rw [hp] at this
      have hps : ({ s with
          nextShutdownTag := s.nextShutdownTag + 1
          shutdownCompletions := (s.nextShutdownTag, true) :: s.shutdownCompletions } :
          ServerState).shutdown_published = true := hp
      rw [hps]
      simpa using this
    · intro p hp'
      have hp'' : p ∈ (s.nextShutdownTag, true) :: s.shutdownCompletions := hp'
      rcases List.mem_cons.mp hp'' with hq | hq
      · subst hq
        exact ⟨rfl, by show s.nextShutdownTag < s.nextShutdownTag + 1; omega⟩
      · obtain ⟨ha, hb⟩ := w5 p hq
        refine ⟨ha, ?_⟩
        show p.1 < s.nextShutdownTag + 1
        omega
  | false =>
    cases hf : s.shutdown_flag with
    | true =>
      rw [shutdown_notify_flagged hp hf]
      exact inv_register_tag h hp
    | false =>
      rw [shutdown_notify_fresh hp hf]
      exact inv_maybe_finish (inv_set_flag (inv_kill_pending_work (inv_register_tag h hp)))

theorem inv_listener_done {s : ServerState} (h : Inv s) :
    Inv (listener_destroy_done s) := by
  unfold listener_destroy_done
  exact inv_maybe_finish h

theorem inv_destroy_channel {s : ServerState} (h : Inv s) :
    Inv (destroy_channel_step s) := by
  unfold destroy_channel_step
  exact inv_maybe_finish h

/-! ## The main invariant theorem -/

theorem init_inv (M N : Nat) : Inv (initState M N) := by
  refine ⟨⟨?_, ?_, ?_, rfl, ?_⟩, ?_⟩
  · intro c _
    rfl
  · intro c
    constructor
    · intro _ m
      rfl
    · intro cd hcd
      cases hcd
  · intro m _
    rfl
  · refine ⟨?_, ?_, ?_, ?_, ?_⟩
    · intro hq; cases hq
    · intro t ht; cases ht
    · intro t ht; cases ht
    · intro t ht; cases ht
    · intro p hp; cases hp
  · intro m
    left
    rfl

theorem step_inv {s s' : ServerState} (hs : Step s s') (h : Inv s) : Inv s' := by
  cases hs with
  | new_call => exact inv_init_call_elem h
  | recv_initial_metadata c m cd hm hc hsns hg hd => exact inv_dispatch_rpc c m cd hm hc hsns h
  | recv_closed c cd hc hd => exact inv_stream_recv_closed c h
  | closed c cd hc hd => exact inv_stream_closed c h
  | publish c success cd hc hd => exact inv_publish_rpc c success h
  | request m hm => exact inv_queue_call_request m hm h
  | shutdown_and_notify => exact inv_shutdown_notify h
  | listener_done hl hf => exact inv_listener_done h
  | channel_destroy hc => exact inv_destroy_channel h
  | channel_add => exact h
  | listener_add => exact h
  | destroy_call c cd hc hd hen => exact inv_destroy_call_elem c cd hc hen h

theorem reachable_inv {s : ServerState} (h : Reachable s) : Inv s := by
  obtain ⟨M, N, hr⟩ := h
  induction hr with
  | refl => exact init_inv M N
  | tail _ h2 ih => exact step_inv h2 ih

/-! ## The call state machine (C2) -/

/-- Allowed evolution of one call's state across a single atomic step:
stay put, leave NOT_STARTED for anything, or leave PENDING for a terminal
state.  ACTIVATED and ZOMBIED are terminal. -/
def state_step_ok (a b : call_state) : Prop :=
  a = b ∨ a = call_state.NOT_STARTED ∨
  (a = call_state.PENDING ∧ (b = call_state.ACTIVATED ∨ b = call_state.ZOMBIED))

theorem state_step_ok_refl (a : call_state) : state_step_ok a a := Or.inl rfl

theorem state_step_ok_trans {a b c : call_state}
    (h1 : state_step_ok a b) (h2 : state_step_ok b c) : state_step_ok a c := by
  rcases h1 with rfl | ha | ⟨ha, hb⟩
  · exact h2
  · exact Or.inr (Or.inl ha)
  · rcases h2 with rfl | hb2 | ⟨hb2, _⟩
    · exact Or.inr (Or.inr ⟨ha, hb⟩)
    · rcases hb with hb | hb <;> rw [hb] at hb2 <;> cases hb2
    · rcases hb with hb | hb <;> rw [hb] at hb2 <;> cases hb2

/-- `s'` preserves every call of `s` up to an allowed state transition. -/
def calls_mono (s s' : ServerState) : Prop :=
  ∀ c cd, s.calls c = some cd →
    ∃ cd', s'.calls c = some cd' ∧ state_step_ok cd.state cd'.state

theorem calls_mono_refl (s : ServerState) : calls_mono s s :=
  fun _ cd h => ⟨cd, h, state_step_ok_refl _⟩

theorem calls_mono_trans {s1 s2 s3 : ServerState}
    (h1 : calls_mono s1 s2) (h2 : calls_mono s2 s3) : calls_mono s1 s3 := by
  intro c cd hc
  obtain ⟨cd2, hc2, ho2⟩ := h1 c cd hc
  obtain ⟨cd3, hc3, ho3⟩ := h2 c cd2 hc2
  exact ⟨cd3, hc3, state_step_ok_trans ho2 ho3⟩

theorem calls_mono_of_calls_eq {s s' : ServerState} (h : s'.calls = s.calls) :
    calls_mono s s' :=
  fun _ cd hc => ⟨cd, h ▸ hc, state_step_ok_refl _⟩

theorem upd_other_eq {α : Type} {f : Nat → α} {i j : Nat} {v w : α}
    (h : j ≠ i) (hf : f j = w) : upd f i v j = w := by
  rw [upd_ne _ _ _ h]
  exact hf

theorem mono_init_call_elem {s : ServerState}
    (h1 : ∀ c, s.numCalls ≤ c → s.calls c = none) :
    calls_mono s (init_call_elem_step s) := by
  intro c cd hc
  by_cases hcc : c = s.numCalls
  · subst hcc
    rw [h1 _ (Nat.le_refl _)] at hc
    cases hc
  · exact ⟨cd, upd_other_eq hcc hc, state_step_ok_refl _⟩

theorem mono_dispatch_rpc {s : ServerState} {c m : Nat} {cd : call_data}
    (hc : s.calls c = some cd) (hs : cd.state = call_state.NOT_STARTED) :
    calls_mono s (dispatch_rpc s c m) := by
  intro c' cd' hc'
  by_cases hcc : c' = c
  · subst hcc
    rw [hc] at hc'
    cases hc'
    cases hf : s.shutdown_flag with
    | true =>
      rw [dispatch_rpc_shutdown hc hf]
      exact ⟨_, upd_self _ _ _, Or.inr (Or.inl hs)⟩
    | false =>
      cases hr : (s.matchers m).requests with
      | nil =>
        rw [dispatch_rpc_to_pending hc hf hr]
        exact ⟨_, upd_self _ _ _, Or.inr (Or.inl hs)⟩
      | cons idx rest =>
        rw [dispatch_rpc_to_activated hc hf hr]
        exact ⟨_, upd_self _ _ _, Or.inr (Or.inl hs)⟩
  · cases hf : s.shutdown_flag with
    | true =>
      rw [dispatch_rpc_shutdown hc hf]
      exact ⟨cd', upd_other_eq hcc hc', state_step_ok_refl _⟩
    | false =>
      cases hr : (s.matchers m).requests with
      | nil =>
        rw [dispatch_rpc_to_pending hc hf hr]
        exact ⟨cd', upd_other_eq hcc hc', state_step_ok_refl _⟩
      | cons idx rest =>
        rw [dispatch_rpc_to_activated hc hf hr]
        exact ⟨cd', upd_other_eq hcc hc', state_step_ok_refl _⟩

theorem mono_stream_recv_closed {s : ServerState} (c : Nat) :
    calls_mono s (stream_recv_closed s c) := by
  intro c' cd' hc'
  cases hc : s.calls c with
  | none => rw [stream_recv_closed_none hc]; exact ⟨cd', hc', state_step_ok_refl _⟩
  | some cd =>
    by_cases hs : cd.state = call_state.NOT_STARTED
    · rw [stream_recv_closed_ns hc hs]
      by_cases hcc : c' = c
      · subst hcc
        rw [hc] at hc'
        cases hc'
        exact ⟨_, upd_self _ _ _, Or.inr (Or.inl hs)⟩
      · exact ⟨cd', upd_other_eq hcc hc', state_step_ok_refl _⟩
    · rw [stream_recv_closed_other hc hs]
      exact ⟨cd', hc', state_step_ok_refl _⟩

theorem mono_stream_closed {s : ServerState} (c : Nat) :
    calls_mono s (stream_closed s c) := by
  intro c' cd' hc'
  cases hc : s.calls c with
  | none => rw [stream_closed_none hc]; exact ⟨cd', hc', state_step_ok_refl _⟩
  | some cd =>
    by_cases hs : cd.state = call_state.NOT_STARTED
    · rw [stream_closed_ns hc hs]
      by_cases hcc : c' = c
      · subst hcc
        rw [hc] at hc'
        cases hc'
        exact ⟨_, upd_self _ _ _, Or.inr (Or.inl hs)⟩
      · exact ⟨cd', upd_other_eq hcc hc', state_step_ok_refl _⟩
    · by_cases hp : cd.state = call_state.PENDING
      · rw [stream_closed_pending hc hp]
        by_cases hcc : c' = c
        · subst hcc
          rw [hc] at hc'
          cases hc'
          exact ⟨_, upd_self _ _ _, Or.inr (Or.inr ⟨hp, Or.inr rfl⟩)⟩
        · exact ⟨cd', upd_other_eq hcc hc', state_step_ok_refl _⟩
      · rw [stream_closed_other hc hs hp]
        exact ⟨cd', hc', state_step_ok_refl _⟩

theorem mono_publish_rpc {s : ServerState} (c : Nat) (success : Bool) :
    calls_mono s (publish_rpc s c success) := by
  intro c' cd' hc'
  cases hc : s.calls c with
  | none => rw [publish_rpc_none hc]; exact ⟨cd', hc', state_step_ok_refl _⟩
  | some cd =>
    cases haw : cd.awaiting with
    | none => rw [publish_rpc_no_await hc haw]; exact ⟨cd', hc', state_step_ok_refl _⟩
    | some idx =>
      rw [publish_rpc_some hc haw]
      by_cases hcc : c' = c
      · subst hcc
        rw [hc] at hc'
        cases hc'
        exact ⟨_, upd_self _ _ _, Or.inl rfl⟩
      · exact ⟨cd', upd_other_eq hcc hc', state_step_ok_refl _⟩

theorem mono_destroy_call_elem {s : ServerState} (c : Nat) :
    calls_mono s (destroy_call_elem_step s c) := by
  intro c' cd' hc'
  cases hc : s.calls c with
  | none =>
    have heq : destroy_call_elem_step s c = s := by simp [destroy_call_elem_step, hc]
    rw [heq]
    exact ⟨cd', hc', state_step_ok_refl _⟩
  | some cd =>
    rw [destroy_call_elem_some hc]
    by_cases hcc : c' = c
    · subst hcc
      rw [hc] at hc'
      cases hc'
      exact ⟨_, upd_self _ _ _, Or.inl rfl⟩
    · exact ⟨cd', upd_other_eq hcc hc', state_step_ok_refl _⟩

theorem mono_drainLoop : ∀ (fuel : Nat) (s : ServerState) (m : Nat),
    calls_mono s (drainLoop fuel s m) := by
  intro fuel
  induction fuel with
  | zero => intro s m; rw [drainLoop_zero]; exact calls_mono_refl s
  | succ fuel ih =>
    intro s m
    cases hpend : (s.matchers m).pending with
    | nil => rw [drainLoop_pending_nil fuel hpend]; exact calls_mono_refl s
    | cons c ps =>
      cases hreq : (s.matchers m).requests with
      | nil => rw [drainLoop_requests_nil fuel hpend hreq]; exact calls_mono_refl s
      | cons idx rest =>
        cases hcall : s.calls c with
        | none =>
          rw [drainLoop_call_none fuel hpend hreq hcall]
          intro c' cd' hc'
          exact ⟨cd', hc', state_step_ok_refl _⟩
        | some cd =>
          by_cases hz : cd.state = call_state.ZOMBIED
          · rw [drainLoop_zombie fuel hpend hreq hcall hz]
            refine calls_mono_trans ?_ (ih _ m)
            intro c' cd' hc'
            by_cases hcc : c' = c
            · subst hcc
              rw [hcall] at hc'
              cases hc'
              exact ⟨_, upd_self _ _ _, Or.inl rfl⟩
            · exact ⟨cd', upd_other_eq hcc hc', state_step_ok_refl _⟩
          · by_cases hp : cd.state = call_state.PENDING
            · rw [drainLoop_activate fuel hpend hreq hcall hp]
              refine calls_mono_trans ?_ (ih _ m)
              intro c' cd' hc'
              by_cases hcc : c' = c
              · subst hcc
                rw [hcall] at hc'
                cases hc'
                exact ⟨_, upd_self _ _ _, Or.inr (Or.inr ⟨hp, Or.inl rfl⟩)⟩
              · exact ⟨cd', upd_other_eq hcc hc', state_step_ok_refl _⟩
            · rw [drainLoop_bad_state fuel hpend hreq hcall hz hp]
              intro c' cd' hc'
              exact ⟨cd', hc', state_step_ok_refl _⟩

theorem mono_queue_call_request {s : ServerState} (m : Nat) :
    calls_mono s (queue_call_request s m).1 := by
  cases hf : s.shutdown_flag with
  | true =>
    rw [queue_call_request_shutdown hf]
    intro c cd hc
    exact ⟨cd, hc, state_step_ok_refl _⟩
  | false =>
    cases hfl : s.request_freelist with
    | nil =>
      rw [queue_call_request_exhausted hf hfl]
      intro c cd hc
      exact ⟨cd, hc, state_step_ok_refl _⟩
    | cons idx rest =>
      cases hr : (s.matchers m).requests with
      | nil =>
        rw [queue_call_request_edge hf hfl hr]
        have m1 : calls_mono s (pushState s m idx rest) := by
          intro c cd hc
          exact ⟨cd, hc, state_step_ok_refl _⟩
        exact calls_mono_trans m1 (mono_drainLoop _ _ m)
      | cons x xs =>
        rw [queue_call_request_no_edge hf hfl hr]
        intro c cd hc
        exact ⟨cd, hc, state_step_ok_refl _⟩

theorem mono_zombify {s : ServerState} (m : Nat) (h : Inv s) :
    calls_mono s (request_matcher_zombify_all_pending_calls s m) := by
  obtain ⟨⟨h1, h2, h3, h4, h5⟩, h6⟩ := h
  have hcnt1 : ∀ c ∈ (s.matchers m).pending, cnt c (s.matchers m).pending = 1 := by
    intro c hmem
    have hpos : 0 < pendingCnt s c m := by
      unfold pendingCnt
      exact cnt_pos_of_mem hmem
    cases hc : s.calls c with
    | none =>
      exfalso
      have := (h2 c).1 hc m
      omega
    | some cd =>
      obtain ⟨k1, k2, k3, k4⟩ := (h2 c).2 cd hc
      cases hstate : cd.state with
      | NOT_STARTED => exact absurd ((k1 hstate).1 m) (by omega)
      | ACTIVATED => exact absurd ((k3 hstate).1 m) (by omega)
      | PENDING =>
        have hon := (k2 hstate).1
        have hmm : cd.matcher = m := onFifoOnce_matcher_eq hon hpos
        rw [hmm] at hon
        exact hon.1
      | ZOMBIED =>
        obtain ⟨_, hdisj⟩ := k4 hstate
        rcases hdisj with ⟨_, hoff⟩ | ⟨_, hon, _⟩
        · exact absurd (hoff m) (by omega)
        · have hmm : cd.matcher = m := onFifoOnce_matcher_eq hon hpos
          rw [hmm] at hon
          exact hon.1
  have hstates : ∀ c ∈ (s.matchers m).pending, ∀ cd, s.calls c = some cd →
      cd.state = call_state.PENDING ∨ cd.state = call_state.ZOMBIED := by
    intro c hmem cd hc
    have hpos : 0 < pendingCnt s c m := by
      unfold pendingCnt
      exact cnt_pos_of_mem hmem
    obtain ⟨k1, k2, k3, k4⟩ := (h2 c).2 cd hc
    cases hstate : cd.state with
    | NOT_STARTED => exact absurd ((k1 hstate).1 m) (by omega)
    | ACTIVATED => exact absurd ((k3 hstate).1 m) (by omega)
    | PENDING => exact Or.inl rfl
    | ZOMBIED => exact Or.inr rfl
  obtain ⟨z1, z2⟩ := zombify_fold_calls (s.matchers m).pending s hcnt1
  intro c cd hc
  by_cases hmem : c ∈ (s.matchers m).pending
  · refine ⟨{ cd with state := call_state.ZOMBIED, killScheduled := cd.killScheduled + 1 },
      z2 c cd hmem hc, ?_⟩
    rcases hstates c hmem cd hc with hp | hz
    · exact Or.inr (Or.inr ⟨hp, Or.inr rfl⟩)
    · rw [hz]
      exact Or.inl rfl
  · refine ⟨cd, ?_, state_step_ok_refl _⟩
    show ((s.matchers m).pending.foldl zombify_call s).calls c = some cd
    rw [z1 c hmem]
    exact hc

theorem mono_kill_requests {s : ServerState} (m : Nat) :
    calls_mono s (request_matcher_kill_requests s m) := by
  intro c cd hc
  refine ⟨cd, ?_, state_step_ok_refl _⟩
  show ((s.matchers m).requests.foldl fail_ticket_at s).calls c = some cd
  rw [(fail_fold_frame (s.matchers m).requests s).1]
  exact hc

theorem mono_kill_matcher {s : ServerState} (m : Nat) (h : Inv s) :
    calls_mono s (kill_matcher s m) :=
  calls_mono_trans (mono_kill_requests m)
    (mono_zombify m (inv_kill_requests m h))

theorem mono_kill_pending_work {s : ServerState} (h : Inv s) :
    calls_mono s (kill_pending_work_locked s) := by
  have hgen : ∀ (l : List Nat) (s0 : ServerState), Inv s0 →
      Inv (l.foldl kill_matcher s0) ∧ calls_mono s0 (l.foldl kill_matcher s0) := by
    intro l
    induction l with
    | nil => intro s0 h0; exact ⟨h0, calls_mono_refl s0⟩
    | cons x xs ih =>
      intro s0 h0
      obtain ⟨ha, hb⟩ := ih (kill_matcher s0 x) (inv_kill_matcher x h0)
      exact ⟨ha, calls_mono_trans (mono_kill_matcher x h0) hb⟩
  exact (hgen (List.range s.numMatchers) s h).2

theorem mono_maybe_finish {s : ServerState} (h : Inv s) :
    calls_mono s (maybe_finish_shutdown s) := by
  cases h1 : (!s.shutdown_flag || s.shutdown_published) with
  | true => rw [maybe_finish_idle h1]; exact calls_mono_refl s
  | false =>
    by_cases h2 : (kill_pending_work_locked s).numChannels ≠ 0 ∨
        (kill_pending_work_locked s).listenersDestroyed <
        (kill_pending_work_locked s).numListeners
    · rw [maybe_finish_wait h1 h2]
      exact mono_kill_pending_work h
    · rw [maybe_finish_publish h1 h2]
      refine calls_mono_trans (mono_kill_pending_work h) ?_
      intro c cd hc
      exact ⟨cd, hc, state_step_ok_refl _⟩

theorem mono_shutdown_tail {s0 : ServerState} (h0 : Inv s0) :
    calls_mono s0 (maybe_finish_shutdown
      { kill_pending_work_locked s0 with shutdown_flag := true }) := by
  have m2 : calls_mono s0 (kill_pending_work_locked s0) := mono_kill_pending_work h0
  have hki : Inv (kill_pending_work_locked s0) := inv_kill_pending_work h0
  have m3 : calls_mono (kill_pending_work_locked s0)
      { kill_pending_work_locked s0 with shutdown_flag := true } := by
    intro c cd hc
    exact ⟨cd, hc, state_step_ok_refl _⟩
  have m4 : calls_mono { kill_pending_work_locked s0 with shutdown_flag := true }
      (maybe_finish_shutdown { kill_pending_work_locked s0 with shutdown_flag := true }) :=
    mono_maybe_finish (inv_set_flag hki)
  exact calls_mono_trans m2 (calls_mono_trans m3 m4)

theorem mono_shutdown_notify {s : ServerState} (h : Inv s) :
    calls_mono s (grpc_server_shutdown_and_notify s) := by
  cases hp : s.shutdown_published with
  | true =>
    rw [shutdown_notify_published hp]
    intro c cd hc
    exact ⟨cd, hc, state_step_ok_refl _⟩
  | false =>
    cases hf : s.shutdown_flag with
    | true =>
      rw [shutdown_notify_flagged hp hf]
      intro c cd hc
      exact ⟨cd, hc, state_step_ok_refl _⟩
    | false =>
      rw [shutdown_notify_fresh hp hf]
      have hreg : Inv { s with
          nextShutdownTag := s.nextShutdownTag + 1
          shutdown_tags := s.shutdown_tags ++ [s.nextShutdownTag] } :=
        inv_register_tag h hp
      have m1 : calls_mono s { s with
          nextShutdownTag := s.nextShutdownTag + 1
          shutdown_tags := s.shutdown_tags ++ [s.nextShutdownTag] } := by
        intro c cd hc
        exact ⟨cd, hc, state_step_ok_refl _⟩
      exact calls_mono_trans m1 (mono_shutdown_tail hreg)

theorem step_calls_mono {s s' : ServerState} (hs : Step s s') (h : Inv s) :
    calls_mono s s' := by
  cases hs with
  | new_call => exact mono_init_call_elem h.1.1
  | recv_initial_metadata c m cd hm hc hsns hg hd => exact mono_dispatch_rpc hc hsns
  | recv_closed c cd hc hd => exact mono_stream_recv_closed c
  | closed c cd hc hd => exact mono_stream_closed c
  | publish c success cd hc hd => exact mono_publish_rpc c success
  | request m hm => exact mono_queue_call_request m
  | shutdown_and_notify => exact mono_shutdown_notify h
  | listener_done hl hf =>
    have m2 : calls_mono { s with listenersDestroyed := s.listenersDestroyed + 1 }
        (maybe_finish_shutdown { s with listenersDestroyed := s.listenersDestroyed + 1 }) :=
      mono_maybe_finish h
    intro c cd hc
    exact m2 c cd hc
  | channel_destroy hc =>
    have m2 : calls_mono { s with numChannels := s.numChannels - 1 }
        (maybe_finish_shutdown { s with numChannels := s.numChannels - 1 }) :=
      mono_maybe_finish h
    intro c cd hc
    exact m2 c cd hc
  | channel_add =>
    intro c cd hc
    exact ⟨cd, hc, state_step_ok_refl _⟩
  | listener_add =>
    intro c cd hc
    exact ⟨cd, hc, state_step_ok_refl _⟩
  | destroy_call c cd hc hd hen => exact mono_destroy_call_elem c

theorem reachable_trans {s s' : ServerState} (h : Reachable s)
    (hsteps : Relation.ReflTransGen Step s s') : Reachable s' := by
  obtain ⟨M, N, hr⟩ := h
  exact ⟨M, N, hr.trans hsteps⟩

theorem steps_terminal_stable {s s' : ServerState} (hreach : Reachable s)
    (hsteps : Relation.ReflTransGen Step s s') :
    ∀ c cd, s.calls c = some cd →
      (cd.state = call_state.ACTIVATED ∨ cd.state = call_state.ZOMBIED) →
      ∃ cd', s'.calls c = some cd' ∧ cd'.state = cd.state := by
  induction hsteps with
  | refl => intro c cd hc _; exact ⟨cd, hc, rfl⟩
  | tail hps hstep ih =>
    intro c cd hc hterm
    obtain ⟨cd2, hc2, hst2⟩ := ih c cd hc hterm
    have hmono := step_calls_mono hstep (reachable_inv (reachable_trans hreach hps))
    obtain ⟨cd3, hc3, hsso⟩ := hmono c cd2 hc2
    refine ⟨cd3, hc3, ?_⟩
    rcases hsso with heq | hns | ⟨hpd, _⟩
    · rw [← heq]
      exact hst2
    · exfalso
      rw [hst2] at hns
      rcases hterm with ht | ht <;> rw [ht] at hns <;> cases hns
    · exfalso
      rw [hst2] at hpd
      rcases hterm with ht | ht <;> rw [ht] at hpd <;> cases hpd

/-! ## Functional characterization of the pairing drain (C4) -/

theorem drainLoop_run : ∀ (fuel : Nat) (s : ServerState) (m : Nat) (p r : List Nat),
    (s.matchers m).pending = p → (s.matchers m).requests = r →
    p.length ≤ fuel →
    (∀ c ∈ p, ∃ cd, s.calls c = some cd ∧
       (cd.state = call_state.PENDING ∨ cd.state = call_state.ZOMBIED)) →
    (∀ c ∈ p, cnt c p = 1) →
    (drainLoop fuel s m).matchers m =
      ⟨p.drop (min p.length r.length), r.drop (min p.length r.length)⟩ ∧
    (∀ c, c ∉ p.take (min p.length r.length) → (drainLoop fuel s m).calls c = s.calls c) ∧
    (∀ c ∈ p.take (min p.length r.length), ∀ cd, s.calls c = some cd →
       (cd.state = call_state.PENDING →
          ∃ idx ∈ r.take (min p.length r.length),
            (drainLoop fuel s m).calls c = some { cd with
              state := call_state.ACTIVATED, awaiting := some idx }) ∧
       (cd.state = call_state.ZOMBIED →
          (drainLoop fuel s m).calls c = some { cd with
            killScheduled := cd.killScheduled + 1 })) := by
  intro fuel
  induction fuel with
  | zero =>
    intro s m p r hpend hreq hlen hst hcnt
    have hp0 : p = [] := List.length_eq_zero.mp (by omega)
    subst hp0
    rw [drainLoop_zero]
    refine ⟨?_, fun c _ => rfl, fun c hc => absurd hc (by simp)⟩
    simp only [List.length_nil, Nat.zero_min, List.drop_zero, List.take_zero,
      Nat.min_def]
    rw [← hpend, ← hreq]
    simp
  | succ fuel ih =>
    intro s m p r hpend hreq hlen hst hcnt
    cases hp : p with
    | nil =>
      subst hp
      rw [drainLoop_pending_nil fuel hpend]
      refine ⟨?_, fun c _ => rfl, fun c hc => absurd hc (by simp)⟩
      simp only [List.length_nil, Nat.zero_min, List.drop_zero, List.take_zero]
      rw [← hpend, ← hreq]
    | cons c ps =>
      subst hp
      cases hr : r with
      | nil =>
        subst hr
        rw [drainLoop_requests_nil fuel hpend hreq]
        refine ⟨?_, fun c' _ => rfl, fun c' hc' => absurd hc' (by simp)⟩
        simp only [List.length_nil, Nat.min_zero, List.drop_zero, List.take_zero]
        rw [← hpend, ← hreq]
      | cons idx rest =>
        subst hr
        have hchd : c ∈ c :: ps := List.mem_cons_self c ps
        obtain ⟨cd, hcall, hpz⟩ := hst c hchd
        have hcnotps : c ∉ ps := by
          have h1 := hcnt c hchd
          rw [cnt_cons, if_pos rfl] at h1
          intro hmem
          have := cnt_pos_of_mem (a := c) (l := ps) hmem
          omega
        have hlen' : ps.length ≤ fuel := by
          simp at hlen
          omega
        have hk : min (c :: ps).length (idx :: rest).length
            = min ps.length rest.length + 1 := by
          simp [Nat.succ_min_succ]
        have hmain : ∀ (newcd : call_data),
            ((detachState s m c ps rest newcd).matchers m).pending = ps ∧
            ((detachState s m c ps rest newcd).matchers m).requests = rest ∧
            (∀ c' ∈ ps, ∃ cd', (detachState s m c ps rest newcd).calls c' = some cd' ∧
               (cd'.state = call_state.PENDING ∨ cd'.state = call_state.ZOMBIED)) := by
          intro newcd
          refine ⟨?_, ?_, ?_⟩
          · show (upd s.matchers m ⟨ps, rest⟩ m).pending = ps
            rw [upd_self]
          · show (upd s.matchers m ⟨ps, rest⟩ m).requests = rest
            rw [upd_self]
          · intro c' hmem
            have hne : c' ≠ c := fun hq => hcnotps (hq ▸ hmem)
            obtain ⟨cd', hcd', hpz'⟩ := hst c' (List.mem_cons_of_mem c hmem)
            exact ⟨cd', upd_other_eq hne hcd', hpz'⟩
        have hcnt' : ∀ c' ∈ ps, cnt c' ps = 1 := by
          intro c' hmem
          have h1 := hcnt c' (List.mem_cons_of_mem c hmem)
          rw [cnt_cons] at h1
          have hne : ¬ c = c' := fun hq => hcnotps (hq ▸ hmem)
          rw [if_neg hne] at h1
          omega
        rcases hpz with hpstate | hzstate
        · rw [drainLoop_activate fuel hpend hreq hcall hpstate]
          obtain ⟨hp1, hq1, hst'⟩ := hmain { cd with
            state := call_state.ACTIVATED, awaiting := some idx }
          obtain ⟨g1, g2, g3⟩ := ih (detachState s m c ps rest { cd with
            state := call_state.ACTIVATED, awaiting := some idx }) m ps rest
            hp1 hq1 hlen' hst' hcnt'
          refine ⟨?_, ?_, ?_⟩
          · rw [g1, hk]
            rw [List.drop_succ_cons, List.drop_succ_cons]
          · intro c' hc'
            rw [hk, List.take_succ_cons] at hc'
            have hne : c' ≠ c := fun hq => hc' (hq ▸ List.mem_cons_self _ _)
            have hnps : c' ∉ ps.take (min ps.length rest.length) :=
              fun hq => hc' (List.mem_cons_of_mem _ hq)
            rw [g2 c' hnps]
            exact upd_other_eq hne rfl
          · intro c' hc' cd' hcd'
            rw [hk, List.take_succ_cons] at hc'
            rcases List.mem_cons.mp hc' with hceq | hmem
            · subst hceq
              rw [hcall] at hcd'
              cases hcd'
              constructor
              · intro _
                refine ⟨idx, ?_, ?_⟩
                · rw [hk, List.take_succ_cons]
                  exact List.mem_cons_self _ _
                · have hnotin : c' ∉ ps.take (min ps.length rest.length) :=
                    fun hq => hcnotps (List.mem_of_mem_take hq)
                  rw [g2 c' hnotin]
                  exact upd_self _ _ _
              · intro hzz
                rw [hpstate] at hzz
                cases hzz
            · have hne : c' ≠ c := fun hq => hcnotps (hq ▸ List.mem_of_mem_take hmem)
              have hcd'' : (detachState s m c ps rest { cd with
                  state := call_state.ACTIVATED, awaiting := some idx }).calls c'
                  = some cd' := upd_other_eq hne hcd'
              obtain ⟨ga, gb⟩ := g3 c' hmem cd' hcd''
              constructor
              · intro hpp
                obtain ⟨idx', hidx', heq⟩ := ga hpp
                refine ⟨idx', ?_, heq⟩
                rw [hk, List.take_succ_cons]
                exact List.mem_cons_of_mem _ hidx'
              · intro hzz
                exact gb hzz
        · rw [drainLoop_zombie fuel hpend hreq hcall hzstate]
          obtain ⟨hp1, hq1, hst'⟩ := hmain { cd with
            killScheduled := cd.killScheduled + 1 }
          obtain ⟨g1, g2, g3⟩ := ih (detachState s m c ps rest { cd with
            killScheduled := cd.killScheduled + 1 }) m ps rest
            hp1 hq1 hlen' hst' hcnt'
          refine ⟨?_, ?_, ?_⟩
          · rw [g1, hk]
            rw [List.drop_succ_cons, List.drop_succ_cons]
          · intro c' hc'
            rw [hk, List.take_succ_cons] at hc'
            have hne : c' ≠ c := fun hq => hc' (hq ▸ List.mem_cons_self _ _)
            have hnps : c' ∉ ps.take (min ps.length rest.length) :=
              fun hq => hc' (List.mem_cons_of_mem _ hq)
            rw [g2 c' hnps]
            exact upd_other_eq hne rfl
          · intro c' hc' cd' hcd'
            rw [hk, List.take_succ_cons] at hc'
            rcases List.mem_cons.mp hc' with hceq | hmem
            · subst hceq
              rw [hcall] at hcd'
              cases hcd'
              constructor
              · intro hpp
                rw [hzstate] at hpp
                cases hpp
              · intro _
                have hnotin : c' ∉ ps.take (min ps.length rest.length) :=
                  fun hq => hcnotps (List.mem_of_mem_take hq)
                rw [g2 c' hnotin]
                exact upd_self _ _ _
            · have hne : c' ≠ c := fun hq => hcnotps (hq ▸ List.mem_of_mem_take hmem)
              have hcd'' : (detachState s m c ps rest { cd with
                  killScheduled := cd.killScheduled + 1 }).calls c'
                  = some cd' := upd_other_eq hne hcd'
              obtain ⟨ga, gb⟩ := g3 c' hmem cd' hcd''
              constructor
              · intro hpp
                obtain ⟨idx', hidx', heq⟩ := ga hpp
                refine ⟨idx', ?_, heq⟩
                rw [hk, List.take_succ_cons]
                exact List.mem_cons_of_mem _ hidx'
              · intro hzz
                exact gb hzz

/-! ## Ticket-completion accounting (C1) -/

theorem mem_requests_upd {f : Nat → request_matcher} {m m' : Nat}
    {v : request_matcher} {idx : Nat}
    (h : idx ∈ ((upd f m v) m').requests) :
    (m' = m ∧ idx ∈ v.requests) ∨ (m' ≠ m ∧ idx ∈ (f m').requests) := by
  by_cases hmm : m' = m
  · subst hmm
    rw [upd_self] at h
    exact Or.inl ⟨rfl, h⟩
  · rw [upd_ne _ _ _ hmm] at h
    exact Or.inr ⟨hmm, h⟩

theorem calls_upd_cases {f : Nat → Option call_data} {i j : Nat} {v cd' : call_data}
    (h : upd f i (some v) j = some cd') :
    (j = i ∧ cd' = v) ∨ (j ≠ i ∧ f j = some cd') := by
  by_cases hji : j = i
  · subst hji
    rw [upd_self] at h
    cases h
    exact Or.inl ⟨rfl, rfl⟩
  · rw [upd_ne _ _ _ hji] at h
    exact Or.inr ⟨hji, h⟩

/-- Number of completions posted on notification queues for ticket `t`. -/
def ticketCompletionCount (s : ServerState) (t : Nat) : Nat :=
  cnt t (s.ticketCompletions.map (fun tc => tc.tid))

/-- Ticket `t` is dead: it has no completion, and no live position from
which one could ever be posted — it is stored in no backing slot that is on
any matcher stack, and no call record awaits a publish of it.  A dead
ticket never receives a completion (dead_step / dead_steps below). -/
def TicketDead (s : ServerState) (t : Nat) : Prop :=
  ticketCompletionCount s t = 0 ∧ t < s.nextTid ∧
  (∀ m idx, idx ∈ (s.matchers m).requests → s.requested_calls idx ≠ t) ∧
  (∀ c cd idx, s.calls c = some cd → cd.awaiting = some idx →
     s.requested_calls idx ≠ t)

theorem dead_cons_completion {s : ServerState} {t : Nat} {tc : ticket_completion}
    (h : ticketCompletionCount s t = 0) (hne : tc.tid ≠ t) :
    cnt t ((tc :: s.ticketCompletions).map (fun x => x.tid)) = 0 := by
  rw [List.map_cons, cnt_cons, if_neg hne, Nat.zero_add]
  exact h

theorem dead_fail_fold {t : Nat} : ∀ (l : List Nat) (s : ServerState),
    TicketDead s t → (∀ idx ∈ l, s.requested_calls idx ≠ t) →
    TicketDead (l.foldl fail_ticket_at s) t := by
  intro l
  induction l with
  | nil => intro s h _; exact h
  | cons x xs ih =>
    intro s h hl
    have hx : s.requested_calls x ≠ t := hl x (List.mem_cons_self x xs)
    obtain ⟨h1, h2, h3, h4⟩ := h
    refine ih (fail_ticket_at s x) ⟨dead_cons_completion h1 hx, h2, h3, h4⟩ ?_
    intro idx hm
    exact hl idx (List.mem_cons_of_mem x hm)

theorem dead_kill_requests {s : ServerState} {t : Nat} (m : Nat)
    (h : TicketDead s t) : TicketDead (request_matcher_kill_requests s m) t := by
  obtain ⟨g1, g2, g3, g4⟩ := dead_fail_fold (s.matchers m).requests s h
    (fun idx hm => h.2.2.1 m idx hm)
  refine ⟨g1, g2, ?_, g4⟩
  intro m' idx hm
  have hm' : idx ∈ ((upd ((s.matchers m).requests.foldl fail_ticket_at s).matchers m
      ⟨(((s.matchers m).requests.foldl fail_ticket_at s).matchers m).pending, []⟩)
      m').requests := hm
  rcases mem_requests_upd hm' with ⟨_, hq⟩ | ⟨_, hq⟩
  · cases hq
  · exact g3 m' idx hq

theorem dead_zombify_call {s : ServerState} {t : Nat} (c : Nat)
    (h : TicketDead s t) : TicketDead (zombify_call s c) t := by
  obtain ⟨h1, h2, h3, h4⟩ := h
  cases hc : s.calls c with
  | none => rw [zombify_call_none hc]; exact ⟨h1, h2, h3, h4⟩
  | some cd =>
    rw [zombify_call_some hc]
    refine ⟨h1, h2, h3, ?_⟩
    intro c' cd' idx hc' ha
    rcases calls_upd_cases hc' with ⟨heq, rfl⟩ | ⟨hne, hold⟩
    · subst heq
      exact h4 c' cd idx hc ha
    · exact h4 c' cd' idx hold ha

theorem dead_zombify_all {s : ServerState} {t : Nat} (m : Nat)
    (h : TicketDead s t) : TicketDead (request_matcher_zombify_all_pending_calls s m) t := by
  have hfold : TicketDead ((s.matchers m).pending.foldl zombify_call s) t := by
    have hgen : ∀ (l : List Nat) (s0 : ServerState), TicketDead s0 t →
        TicketDead (l.foldl zombify_call s0) t := by
      intro l
      induction l with
      | nil => intro s0 h0; exact h0
      | cons x xs ih => intro s0 h0; exact ih (zombify_call s0 x) (dead_zombify_call x h0)
    exact hgen (s.matchers m).pending s h
  obtain ⟨g1, g2, g3, g4⟩ := hfold
  refine ⟨g1, g2, ?_, g4⟩
  intro m' idx hm
  have hm' : idx ∈ ((upd ((s.matchers m).pending.foldl zombify_call s).matchers m
      ⟨[], (((s.matchers m).pending.foldl zombify_call s).matchers m).requests⟩)
      m').requests := hm
  rcases mem_requests_upd hm' with ⟨heq, hq⟩ | ⟨_, hq⟩
  · subst heq
    exact g3 m' idx hq
  · exact g3 m' idx hq

theorem dead_kill_pending {s : ServerState} {t : Nat}
    (h : TicketDead s t) : TicketDead (kill_pending_work_locked s) t := by
  refine foldl_preserve (fun s0 => TicketDead s0 t) kill_matcher ?_ _ s h
  intro s0 m h0
  exact dead_zombify_all m (dead_kill_requests m h0)

theorem dead_maybe_finish {s : ServerState} {t : Nat}
    (h : TicketDead s t) : TicketDead (maybe_finish_shutdown s) t := by
  cases h1 : (!s.shutdown_flag || s.shutdown_published) with
  | true => rw [maybe_finish_idle h1]; exact h
  | false =>
    by_cases h2 : (kill_pending_work_locked s).numChannels ≠ 0 ∨
        (kill_pending_work_locked s).listenersDestroyed <
        (kill_pending_work_locked s).numListeners
    · rw [maybe_finish_wait h1 h2]
      exact dead_kill_pending h
    · rw [maybe_finish_publish h1 h2]
      obtain ⟨g1, g2, g3, g4⟩ := dead_kill_pending h
      exact ⟨g1, g2, g3, g4⟩

theorem dead_drainLoop {t : Nat} : ∀ (fuel : Nat) (s : ServerState) (m : Nat),
    TicketDead s t → TicketDead (drainLoop fuel s m) t := by
  intro fuel
  induction fuel with
  | zero => intro s m h; exact h
  | succ fuel ih =>
    intro s m h
    obtain ⟨h1, h2, h3, h4⟩ := h
    cases hpend : (s.matchers m).pending with
    | nil => rw [drainLoop_pending_nil fuel hpend]; exact ⟨h1, h2, h3, h4⟩
    | cons c ps =>
      cases hreq : (s.matchers m).requests with
      | nil => rw [drainLoop_requests_nil fuel hpend hreq]; exact ⟨h1, h2, h3, h4⟩
      | cons idx rest =>
        cases hcall : s.calls c with
        | none =>
          rw [drainLoop_call_none fuel hpend hreq hcall]
          exact ⟨h1, h2, h3, h4⟩
        | some cd =>
          have hstack : ∀ m' idx', idx' ∈ ((upd s.matchers m ⟨ps, rest⟩) m').requests →
              s.requested_calls idx' ≠ t := by
            intro m' idx' hm'
            rcases mem_requests_upd hm' with ⟨heq, hq⟩ | ⟨_, hq⟩
            · subst heq
              apply h3 m' idx'
              rw [hreq]
              exact List.mem_cons_of_mem _ hq
            · exact h3 m' idx' hq
          by_cases hz : cd.state = call_state.ZOMBIED
          · rw [drainLoop_zombie fuel hpend hreq hcall hz]
            refine ih _ m ⟨h1, h2, hstack, ?_⟩
            intro c' cd' idx' hc' ha
            rcases calls_upd_cases hc' with ⟨heq, rfl⟩ | ⟨_, hold⟩
            · subst heq
              exact h4 c' cd idx' hcall ha
            · exact h4 c' cd' idx' hold ha
          · by_cases hp : cd.state = call_state.PENDING
            · rw [drainLoop_activate fuel hpend hreq hcall hp]
              refine ih _ m ⟨h1, h2, hstack, ?_⟩
              intro c' cd' idx' hc' ha
              rcases calls_upd_cases hc' with ⟨heq, rfl⟩ | ⟨_, hold⟩
              · subst heq
                have ha' : some idx = some idx' := ha
                cases ha'
                apply h3 m idx
                rw [hreq]
                exact List.mem_cons_self _ _
              · exact h4 c' cd' idx' hold ha
            · rw [drainLoop_bad_state fuel hpend hreq hcall hz hp]
              exact ⟨h1, h2, h3, h4⟩

theorem dead_step {s s' : ServerState} {t : Nat} (hs : Step s s')
    (h : TicketDead s t) : TicketDead s' t := by
  obtain ⟨h1, h2, h3, h4⟩ := h
  cases hs with
  | new_call =>
    refine ⟨h1, h2, h3, ?_⟩
    intro c cd idx hc ha
    rcases calls_upd_cases hc with ⟨heq, rfl⟩ | ⟨_, hold⟩
    · cases ha
    · exact h4 c cd idx hold ha
  | recv_initial_metadata c m cd hm hc hsns hg hd =>
    cases hf : s.shutdown_flag with
    | true =>
      rw [dispatch_rpc_shutdown hc hf]
      refine ⟨h1, h2, h3, ?_⟩
      intro c' cd' idx hc' ha
      rcases calls_upd_cases hc' with ⟨heq, rfl⟩ | ⟨_, hold⟩
      · subst heq
        exact h4 c' cd idx hc ha
      · exact h4 c' cd' idx hold ha
    | false =>
      cases hr : (s.matchers m).requests with
      | nil =>
        rw [dispatch_rpc_to_pending hc hf hr]
        refine ⟨h1, h2, ?_, ?_⟩
        · intro m' idx hm'
          have hm'' : idx ∈ ((upd s.matchers m
              ⟨(s.matchers m).pending ++ [c], []⟩) m').requests := hm'
          rcases mem_requests_upd hm'' with ⟨_, hq⟩ | ⟨_, hq⟩
          · cases hq
          · exact h3 m' idx hq
        · intro c' cd' idx hc' ha
          rcases calls_upd_cases hc' with ⟨heq, rfl⟩ | ⟨_, hold⟩
          · subst heq
            exact h4 c' cd idx hc ha
          · exact h4 c' cd' idx hold ha
      | cons idx0 rest =>
        rw [dispatch_rpc_to_activated hc hf hr]
        refine ⟨h1, h2, ?_, ?_⟩
        · intro m' idx hm'
          have hm'' : idx ∈ ((upd s.matchers m
              ⟨(s.matchers m).pending, rest⟩) m').requests := hm'
          rcases mem_requests_upd hm'' with ⟨heq, hq⟩ | ⟨_, hq⟩
          · subst heq
            apply h3 m' idx
            rw [hr]
            exact List.mem_cons_of_mem _ hq
          · exact h3 m' idx hq
        · intro c' cd' idx hc' ha
          rcases calls_upd_cases hc' with ⟨heq, rfl⟩ | ⟨_, hold⟩
          · subst heq
            have ha' : some idx0 = some idx := ha
            cases ha'
            apply h3 m idx0
            rw [hr]
            exact List.mem_cons_self _ _
          · exact h4 c' cd' idx hold ha
  | recv_closed c cd hc hd =>
    cases hcall : s.calls c with
    | none => rw [stream_recv_closed_none hcall]; exact ⟨h1, h2, h3, h4⟩
    | some cd0 =>
      by_cases hns : cd0.state = call_state.NOT_STARTED
      · rw [stream_recv_closed_ns hcall hns]
        refine ⟨h1, h2, h3, ?_⟩
        intro c' cd' idx hc' ha
        rcases calls_upd_cases hc' with ⟨heq, rfl⟩ | ⟨_, hold⟩
        · subst heq
          exact h4 c' cd0 idx hcall ha
        · exact h4 c' cd' idx hold ha
      · rw [stream_recv_closed_other hcall hns]
        exact ⟨h1, h2, h3, h4⟩
  | closed c cd hc hd =>
    cases hcall : s.calls c with
    | none => rw [stream_closed_none hcall]; exact ⟨h1, h2, h3, h4⟩
    | some cd0 =>
      by_cases hns : cd0.state = call_state.NOT_STARTED
      · rw [stream_closed_ns hcall hns]
        refine ⟨h1, h2, h3, ?_⟩
        intro c' cd' idx hc' ha
        rcases calls_upd_cases hc' with ⟨heq, rfl⟩ | ⟨_, hold⟩
        · subst heq
          exact h4 c' cd0 idx hcall ha
        · exact h4 c' cd' idx hold ha
      · by_cases hp : cd0.state = call_state.PENDING
        · rw [stream_closed_pending hcall hp]
          refine ⟨h1, h2, h3, ?_⟩
          intro c' cd' idx hc' ha
          rcases calls_upd_cases hc' with ⟨heq, rfl⟩ | ⟨_, hold⟩
          · subst heq
            exact h4 c' cd0 idx hcall ha
          · exact h4 c' cd' idx hold ha
        · rw [stream_closed_other hcall hns hp]
          exact ⟨h1, h2, h3, h4⟩
  | publish c success cd hc hd =>
    cases hcall : s.calls c with
    | none => rw [publish_rpc_none hcall]; exact ⟨h1, h2, h3, h4⟩
    | some cd0 =>
      cases haw : cd0.awaiting with
      | none => rw [publish_rpc_no_await hcall haw]; exact ⟨h1, h2, h3, h4⟩
      | some idx =>
        rw [publish_rpc_some hcall haw]
        have hslot : s.requested_calls idx ≠ t := h4 c cd0 idx hcall haw
        refine ⟨dead_cons_completion h1 hslot, h2, h3, ?_⟩
        intro c' cd' idx' hc' ha
        rcases calls_upd_cases hc' with ⟨heq, rfl⟩ | ⟨_, hold⟩
        · cases ha
        · exact h4 c' cd' idx' hold ha
  | request m hm =>
    cases hf : s.shutdown_flag with
    | true =>
      rw [queue_call_request_shutdown hf]
      exact ⟨dead_cons_completion h1 (by show s.nextTid ≠ t; omega),
        by show t < s.nextTid + 1; omega, h3, h4⟩
    | false =>
      cases hfl : s.request_freelist with
      | nil =>
        rw [queue_call_request_exhausted hf hfl]
        exact ⟨dead_cons_completion h1 (by show s.nextTid ≠ t; omega),
          by show t < s.nextTid + 1; omega, h3, h4⟩
      | cons idx rest =>
        have hslotne : ∀ idx', upd s.requested_calls idx s.nextTid idx' = t →
            (idx' ≠ idx ∧ s.requested_calls idx' = t) := by
          intro idx' hq
          by_cases hii : idx' = idx
          · subst hii
            rw [upd_self] at hq
            omega
          · rw [upd_ne _ _ _ hii] at hq
            exact ⟨hii, hq⟩
        have hpushdead : TicketDead (pushState s m idx rest) t := by
          refine ⟨h1, by show t < s.nextTid + 1; omega, ?_, ?_⟩
          · intro m' idx' hm' hq
            obtain ⟨hii, hslot⟩ := hslotne idx' hq
            have hm'' : idx' ∈ ((upd s.matchers m ⟨(s.matchers m).pending,
                idx :: (s.matchers m).requests⟩) m').requests := hm'
            rcases mem_requests_upd hm'' with ⟨_, hq2⟩ | ⟨_, hq2⟩
            · rcases List.mem_cons.mp hq2 with hq3 | hq3
              · exact hii hq3
              · exact h3 m idx' hq3 hslot
            · exact h3 m' idx' hq2 hslot
          · intro c' cd' idx' hc' ha hq
            obtain ⟨hii, hslot⟩ := hslotne idx' hq
            exact h4 c' cd' idx' hc' ha hslot
        cases hr : (s.matchers m).requests with
        | nil =>
          rw [queue_call_request_edge hf hfl hr]
          exact dead_drainLoop _ _ m hpushdead
        | cons x xs =>
          rw [queue_call_request_no_edge hf hfl hr]
          exact hpushdead
  | shutdown_and_notify =>
    cases hp : s.shutdown_published with
    | true =>
      rw [shutdown_notify_published hp]
      exact ⟨h1, h2, h3, h4⟩
    | false =>
      cases hf : s.shutdown_flag with
      | true =>
        rw [shutdown_notify_flagged hp hf]
        exact ⟨h1, h2, h3, h4⟩
      | false =>
        rw [shutdown_notify_fresh hp hf]
        apply dead_maybe_finish
        have hdead2 : TicketDead { s with
            nextShutdownTag := s.nextShutdownTag + 1
            shutdown_tags := s.shutdown_tags ++ [s.nextShutdownTag] } t :=
          ⟨h1, h2, h3, h4⟩
        obtain ⟨g1, g2, g3, g4⟩ := dead_kill_pending hdead2
        exact ⟨g1, g2, g3, g4⟩
  | listener_done hl hf => exact dead_maybe_finish ⟨h1, h2, h3, h4⟩
  | channel_destroy hc => exact dead_maybe_finish ⟨h1, h2, h3, h4⟩
  | channel_add => exact ⟨h1, h2, h3, h4⟩
  | listener_add => exact ⟨h1, h2, h3, h4⟩
  | destroy_call c cd hc hd hen =>
    cases hcall : s.calls c with
    | none =>
      have heq : destroy_call_elem_step s c = s := by simp [destroy_call_elem_step, hcall]
      rw [heq]
      exact ⟨h1, h2, h3, h4⟩
    | some cd0 =>
      rw [destroy_call_elem_some hcall]
      refine ⟨h1, h2, h3, ?_⟩
      intro c' cd' idx hc' ha
      rcases calls_upd_cases hc' with ⟨heq, rfl⟩ | ⟨_, hold⟩
      · subst heq
        exact h4 c' cd0 idx hcall ha
      · exact h4 c' cd' idx hold ha

theorem dead_steps {s s' : ServerState} {t : Nat}
    (hsteps : Relation.ReflTransGen Step s s') (h : TicketDead s t) :
    TicketDead s' t := by
  induction hsteps with
  | refl => exact h
  | tail _ hstep ih => exact dead_step hstep ih

/-! ## grpc_server_register_method (C9) -/

/-- struct registered_method, restricted to the registration key.  The C
code strdup's the method (never NULL past the guard) and the host (NULL
allowed, meaning wildcard). -/
structure registered_method_rec where
  method : String
  host : Option String
deriving DecidableEq, Repr

/-- streq (server.c:940-950): NULL equals only NULL, otherwise strcmp. -/
def streq : Option String → Option String → Bool
  | none, none => true
  | none, some _ => false
  | some _, none => false
  | some a, some b => a == b

/-- grpc_server_register_method (server.c:952-977) acting on the server's
registered-method list (most recently registered first).  Returns the
handle (`some` of the new record; NULL return is `none`) and the updated
list.  The C guard is `if (!method)`: only a NULL method pointer is
rejected; the duplicate check uses streq on both components. -/
def grpc_server_register_method (regs : List registered_method_rec)
    (method : Option String) (host : Option String) :
    Option registered_method_rec × List registered_method_rec :=
  match method with
  | none => (none, regs)
  | some mstr =>
    if regs.any (fun m => streq (some m.method) (some mstr) && streq m.host host) then
      (none, regs)
    else
      (some ⟨mstr, host⟩, ⟨mstr, host⟩ :: regs)

/-! ## Registered-method probe table (C5) -/

/-- An interned metadata string in a channel's mdctx: equality of the
`Mdstr` ids models pointer identity of interned strings. -/
abbrev Mdstr := Nat

/-- A server-global registered method as seen by the lookup: its method and
host strings interned in the channel's context, plus the identity `mid` of
its request matcher. -/
structure srv_registered_method where
  method : Mdstr
  host : Option Mdstr
  mid : Nat
deriving DecidableEq, Repr

/-- struct channel_registered_method: one probe-table slot's payload. -/
structure channel_registered_method where
  server_registered_method : Nat
  method : Mdstr
  host : Option Mdstr
deriving DecidableEq, Repr

def entryOf (r : srv_registered_method) : channel_registered_method :=
  ⟨r.mid, r.method, r.host⟩

/-- The linear probe of grpc_server_setup_transport (server.c:1061-1062):
`for (probes = 0; slot_occupied; probes++)`.  The fuel argument bounds the
scan; the build always calls it with fuel = slots and an empty slot
available, so the bound is never hit. -/
def probeEmpty (tbl : Nat → Option channel_registered_method) (slots hash : Nat) :
    Nat → Nat → Option Nat
  | _, 0 => none
  | p, fuel + 1 =>
    if tbl ((hash + p) % slots) = none then some p
    else probeEmpty tbl slots hash (p + 1) fuel

/-- Insert one registered method into the channel's table
(server.c:1056-1069): find the first free slot on the probe chain from
KV_HASH(host ? host->hash : 0, method->hash), store the entry there, and
track the longest chain in max_probes.  `h` abstracts GRPC_MDSTR_KV_HASH
composed with the interned strings' hashes. -/
def insertCrm (h : Option Mdstr → Mdstr → Nat) (slots : Nat)
    (acc : (Nat → Option channel_registered_method) × Nat)
    (r : srv_registered_method) :
    (Nat → Option channel_registered_method) × Nat :=
  match probeEmpty acc.1 slots (h r.host r.method) 0 slots with
  | none => acc
  | some p =>
    (upd acc.1 ((h r.host r.method + p) % slots) (some (entryOf r)), max acc.2 p)

/-- The table build of grpc_server_setup_transport (server.c:1050-1073):
slots = 2 × num_registered_methods, all slots initially empty. -/
def buildRegisteredMethodTable (h : Option Mdstr → Mdstr → Nat)
    (regs : List srv_registered_method) :
    (Nat → Option channel_registered_method) × Nat :=
  regs.foldl (insertCrm h (2 * regs.length)) (fun _ => none, 0)

/-- Per-channel routing data: `none` models
`chand->registered_methods == NULL` (no table built). -/
structure channel_data where
  registered_methods : Option ((Nat → Option channel_registered_method) × Nat × Nat)

/-- The table part of grpc_server_setup_transport: a table is built only
when at least one method is registered (server.c:1050). -/
def setup_transport_table (h : Option Mdstr → Mdstr → Nat)
    (regs : List srv_registered_method) : channel_data :=
  if regs.length = 0 then ⟨none⟩
  else ⟨some ((buildRegisteredMethodTable h regs).1, 2 * regs.length,
    (buildRegisteredMethodTable h regs).2)⟩

/-- One probe loop of start_new_rpc (server.c:516-527 and 530-541):
`for (i = 0; i <= max_probes; i++)` — the caller passes fuel = max_probes+1.
A slot is a hit when its predicate (host and method identity) holds; empty
slots never match.  (The `if (!rm) break` of the C code is dead: `rm` is
the address of a table slot and never NULL.) -/
def probeMatch (pred : channel_registered_method → Bool)
    (tbl : Nat → Option channel_registered_method) (slots hash : Nat) :
    Nat → Nat → Option Nat
  | _, 0 => none
  | i, fuel + 1 =>
    match tbl ((hash + i) % slots) with
    | some crm =>
      if pred crm then some crm.server_registered_method
      else probeMatch pred tbl slots hash (i + 1) fuel
    | none => probeMatch pred tbl slots hash (i + 1) fuel

/-- The routing decision of start_new_rpc (server.c:501-544): with a table
and both :path and :authority present, probe for an exact host+method
entry, then for a wildcard (host == NULL) entry, each for at most
max_probes+1 attempts; `none` means the unregistered matcher. -/
def start_new_rpc_route (h : Option Mdstr → Mdstr → Nat) (ch : channel_data)
    (path host : Option Mdstr) : Option Nat :=
  match ch.registered_methods, path, host with
  | some (tbl, slots, maxp), some p, some hst =>
    match probeMatch (fun crm => crm.host == some hst && crm.method == p)
        tbl slots (h (some hst) p) 0 (maxp + 1) with
    | some mid => some mid
    | none =>
      match probeMatch (fun crm => crm.host == none && crm.method == p)
          tbl slots (h none p) 0 (maxp + 1) with
      | some mid => some mid
      | none => none
  | _, _, _ => none

/-! ### Occupancy counting for the probe table -/

def occ (tbl : Nat → Option channel_registered_method) : Nat → Nat
  | 0 => 0
  | k + 1 => occ tbl k + (if (tbl k).isSome then 1 else 0)

theorem occ_congr {f g : Nat → Option channel_registered_method} :
    ∀ k, (∀ i, i < k → f i = g i) → occ f k = occ g k := by
  intro k
  induction k with
  | zero => intro _; rfl
  | succ k ih =>
    intro hfg
    show occ f k + _ = occ g k + _
    rw [ih (fun i hi => hfg i (by omega)), hfg k (by omega)]

theorem occ_upd_le (tbl : Nat → Option channel_registered_method)
    (j : Nat) (v : channel_registered_method) :
    ∀ k, occ (upd tbl j (some v)) k ≤ occ tbl k + 1 := by
  intro k
  induction k with
  | zero => exact Nat.zero_le _
  | succ k ih =>
    show occ (upd tbl j (some v)) k + _ ≤ occ tbl k + _ + 1
    by_cases hkj : k = j
    · subst hkj
      have hocc : occ (upd tbl k (some v)) k = occ tbl k :=
        occ_congr k (fun i hi => upd_ne _ _ _ (by omega))
      rw [hocc, upd_self]
      simp only [Option.isSome_some, if_true]
      by_cases hs : (tbl k).isSome <;> simp [hs]
    · rw [upd_ne _ _ _ hkj]
      omega

theorem occ_eq_of_all (tbl : Nat → Option channel_registered_method) :
    ∀ k, (∀ j, j < k → (tbl j).isSome) → occ tbl k = k := by
  intro k
  induction k with
  | zero => intro _; rfl
  | succ k ih =>
    intro hall
    show occ tbl k + _ = k + 1
    rw [ih (fun j hj => hall j (by omega)), if_pos (hall k (by omega))]

theorem exists_offset (slots j hash : Nat) (hs : 0 < slots) (hj : j < slots) :
    ∃ q, q < slots ∧ (hash + q) % slots = j := by
  refine ⟨(j + slots - hash % slots) % slots, Nat.mod_lt _ hs, ?_⟩
  have hmod : hash % slots < slots := Nat.mod_lt _ hs
  conv_lhs => rw [Nat.add_mod, Nat.mod_mod_of_dvd _ (dvd_refl slots), ← Nat.add_mod]
  have hd : hash + (j + slots - hash % slots)
      = (slots + j) + slots * (hash / slots) := by
    have := Nat.div_add_mod hash slots
    omega
  rw [hd, Nat.add_mul_mod_self_left, Nat.add_mod_left, Nat.mod_eq_of_lt hj]

theorem occ_none (slots : Nat) :
    occ (fun _ => (none : Option channel_registered_method)) slots = 0 := by
  induction slots with
  | zero => rfl
  | succ k ih =>
    show occ _ k + _ = 0
    rw [ih]
    rfl

theorem probeEmpty_none_occupied (tbl : Nat → Option channel_registered_method)
    (slots hash : Nat) :
    ∀ fuel p, probeEmpty tbl slots hash p fuel = none →
      ∀ q, q < fuel → tbl ((hash + (p + q)) % slots) ≠ none := by
  intro fuel
  induction fuel with
  | zero => intro p _ q hq; omega
  | succ fuel ih =>
    intro p hpe q hq
    simp only [probeEmpty] at hpe
    by_cases he : tbl ((hash + p) % slots) = none
    · rw [if_pos he] at hpe
      exact absurd hpe (by simp)
    · rw [if_neg he] at hpe
      cases q with
      | zero => exact he
      | succ q =>
        have hrec := ih (p + 1) hpe q (by omega)
        have harith : p + 1 + q = p + (q + 1) := by omega
        rw [harith] at hrec
        exact hrec

theorem probeEmpty_some_empty (tbl : Nat → Option channel_registered_method)
    (slots hash : Nat) :
    ∀ fuel p q, probeEmpty tbl slots hash p fuel = some q →
      tbl ((hash + q) % slots) = none := by
  intro fuel
  induction fuel with
  | zero => intro p q hpe; exact absurd hpe (by simp [probeEmpty])
  | succ fuel ih =>
    intro p q hpe
    simp only [probeEmpty] at hpe
    by_cases he : tbl ((hash + p) % slots) = none
    · rw [if_pos he] at hpe
      cases hpe
      exact he
    · rw [if_neg he] at hpe
      exact ih (p + 1) q hpe

theorem probeEmpty_finds (tbl : Nat → Option channel_registered_method)
    (slots hash : Nat) (hs : 0 < slots) (hocc : occ tbl slots < slots) :
    ∃ q, probeEmpty tbl slots hash 0 slots = some q := by
  cases hres : probeEmpty tbl slots hash 0 slots with
  | some q => exact ⟨q, rfl⟩
  | none =>
    exfalso
    have hall : ∀ j, j < slots → (tbl j).isSome := by
      intro j hj
      obtain ⟨q, hq, hqj⟩ := exists_offset slots j hash hs hj
      have hne := probeEmpty_none_occupied tbl slots hash slots 0 hres q hq
      rw [Nat.zero_add, hqj] at hne
      cases htbl : tbl j
      · exact absurd htbl hne
      · rfl
    rw [occ_eq_of_all tbl slots hall] at hocc
    omega

theorem insertCrm_eq (h : Option Mdstr → Mdstr → Nat) (slots : Nat)
    (acc : (Nat → Option channel_registered_method) × Nat)
    (r : srv_registered_method) (p : Nat)
    (hq : probeEmpty acc.1 slots (h r.host r.method) 0 slots = some p) :
    insertCrm h slots acc r
      = (upd acc.1 ((h r.host r.method + p) % slots) (some (entryOf r)),
         max acc.2 p) := by
  unfold insertCrm
  rw [hq]

theorem build_fold (h : Option Mdstr → Mdstr → Nat) (slots n : Nat)
    (hsl : slots = 2 * n) (hn : 0 < n) :
    ∀ (todo : List srv_registered_method)
      (tbl : Nat → Option channel_registered_method) (maxp k : Nat),
      occ tbl slots ≤ k → k + todo.length ≤ n →
      occ (todo.foldl (insertCrm h slots) (tbl, maxp)).1 slots ≤ k + todo.length
      ∧ maxp ≤ (todo.foldl (insertCrm h slots) (tbl, maxp)).2
      ∧ (∀ j e, tbl j = some e →
          (todo.foldl (insertCrm h slots) (tbl, maxp)).1 j = some e)
      ∧ (∀ r, r ∈ todo → ∃ q, q ≤ (todo.foldl (insertCrm h slots) (tbl, maxp)).2
          ∧ (todo.foldl (insertCrm h slots) (tbl, maxp)).1
              ((h r.host r.method + q) % slots) = some (entryOf r))
      ∧ (∀ j e, (todo.foldl (insertCrm h slots) (tbl, maxp)).1 j = some e →
          tbl j = some e ∨ ∃ r, r ∈ todo ∧ e = entryOf r) := by
  intro todo
  induction todo with
  | nil =>
    intro tbl maxp k hocc hlen
    exact ⟨by simpa using hocc, Nat.le_refl _, fun j e he => he,
      fun r hr => absurd hr (List.not_mem_nil r),
      fun j e he => Or.inl he⟩
  | cons r rest ih =>
    intro tbl maxp k hocc hlen
    have hs : 0 < slots := by omega
    have hocclt : occ tbl slots < slots := by
      have hlen' : k + (rest.length + 1) ≤ n := by simpa using hlen
      omega
    obtain ⟨p, hp⟩ := probeEmpty_finds tbl slots (h r.host r.method) hs hocclt
    have hempty : tbl ((h r.host r.method + p) % slots) = none :=
      probeEmpty_some_empty tbl slots (h r.host r.method) slots 0 p hp
    have hins : insertCrm h slots (tbl, maxp) r
        = (upd tbl ((h r.host r.method + p) % slots) (some (entryOf r)),
           max maxp p) :=
      insertCrm_eq h slots (tbl, maxp) r p hp
    have hfold : (r :: rest).foldl (insertCrm h slots) (tbl, maxp)
        = rest.foldl (insertCrm h slots)
            (upd tbl ((h r.host r.method + p) % slots) (some (entryOf r)),
             max maxp p) := by
      rw [List.foldl_cons, hins]
    have hocc1 : occ (upd tbl ((h r.host r.method + p) % slots)
        (some (entryOf r))) slots ≤ k + 1 := by
      have := occ_upd_le tbl ((h r.host r.method + p) % slots) (entryOf r) slots
      omega
    have hlen1 : (k + 1) + rest.length ≤ n := by
      have hlen' : k + (rest.length + 1) ≤ n := by simpa using hlen
      omega
    obtain ⟨ha, hb, hc, hd, he⟩ := ih
      (upd tbl ((h r.host r.method + p) % slots) (some (entryOf r)))
      (max maxp p) (k + 1) hocc1 hlen1
    rw [hfold]
    refine ⟨?_, ?_, ?_, ?_, ?_⟩
    · rw [List.length_cons]
      have hadd : k + (rest.length + 1) = (k + 1) + rest.length := by omega
      rw [hadd]
      exact ha
    · exact Nat.le_trans (Nat.le_max_left _ _) hb
    · intro j e hje
      have hjne : j ≠ (h r.host r.method + p) % slots := by
        intro heq
        rw [heq, hempty] at hje
        exact absurd hje (by simp)
      exact hc j e (upd_other_eq hjne hje)
    · intro r' hr'
      cases List.mem_cons.mp hr' with
      | inl heq =>
        subst heq
        refine ⟨p, Nat.le_trans (Nat.le_max_right _ _) hb, ?_⟩
        exact hc _ _ (upd_self _ _ _)
      | inr hmem => exact hd r' hmem
    · intro j e hje
      cases he j e hje with
      | inl hup =>
        by_cases hj : j = (h r.host r.method + p) % slots
        · subst hj
          rw [upd_self] at hup
          cases hup
          exact Or.inr ⟨r, List.mem_cons_self r rest, rfl⟩
        · rw [upd_ne tbl _ _ hj] at hup
          exact Or.inl hup
      | inr hrest =>
        obtain ⟨r', hr', hre⟩ := hrest
        exact Or.inr ⟨r', List.mem_cons_of_mem r hr', hre⟩

theorem buildTable_present (h : Option Mdstr → Mdstr → Nat)
    (regs : List srv_registered_method) (hne : 0 < regs.length) :
    ∀ r, r ∈ regs → ∃ q, q ≤ (buildRegisteredMethodTable h regs).2
      ∧ (buildRegisteredMethodTable h regs).1
          ((h r.host r.method + q) % (2 * regs.length)) = some (entryOf r) := by
  have hb := build_fold h (2 * regs.length) regs.length rfl hne regs
    (fun _ => none) 0 0 (by rw [occ_none]) (by omega)
  exact hb.2.2.2.1

theorem buildTable_sound (h : Option Mdstr → Mdstr → Nat)
    (regs : List srv_registered_method) (hne : 0 < regs.length) :
    ∀ j e, (buildRegisteredMethodTable h regs).1 j = some e →
      ∃ r, r ∈ regs ∧ e = entryOf r := by
  have hb := build_fold h (2 * regs.length) regs.length rfl hne regs
    (fun _ => none) 0 0 (by rw [occ_none]) (by omega)
  intro j e hje
  cases hb.2.2.2.2 j e hje with
  | inl habs => exact absurd habs (by simp)
  | inr hok => exact hok

theorem probeMatch_some_sound (pred : channel_registered_method → Bool)
    (tbl : Nat → Option channel_registered_method) (slots hash : Nat) :
    ∀ fuel i mid, probeMatch pred tbl slots hash i fuel = some mid →
      ∃ q crm, i ≤ q ∧ q < i + fuel
        ∧ tbl ((hash + q) % slots) = some crm ∧ pred crm = true
        ∧ crm.server_registered_method = mid := by
  intro fuel
  induction fuel with
  | zero => intro i mid hp; exact absurd hp (by simp [probeMatch])
  | succ fuel ih =>
    intro i mid hp
    simp only [probeMatch] at hp
    cases htbl : tbl ((hash + i) % slots) with
    | some crm =>
      rw [htbl] at hp
      simp only at hp
      by_cases hpred : pred crm = true
      · rw [if_pos hpred] at hp
        exact ⟨i, crm, Nat.le_refl _, by omega, htbl, hpred, Option.some.inj hp⟩
      · rw [if_neg hpred] at hp
        obtain ⟨q, crm', hq1, hq2, hq3, hq4, hq5⟩ := ih (i + 1) mid hp
        exact ⟨q, crm', by omega, by omega, hq3, hq4, hq5⟩
    | none =>
      rw [htbl] at hp
      simp only at hp
      obtain ⟨q, crm', hq1, hq2, hq3, hq4, hq5⟩ := ih (i + 1) mid hp
      exact ⟨q, crm', by omega, by omega, hq3, hq4, hq5⟩

theorem probeMatch_none_sound (pred : channel_registered_method → Bool)
    (tbl : Nat → Option channel_registered_method) (slots hash : Nat) :
    ∀ fuel i, probeMatch pred tbl slots hash i fuel = none →
      ∀ q, i ≤ q → q < i + fuel →
        ∀ crm, tbl ((hash + q) % slots) = some crm → pred crm = false := by
  intro fuel
  induction fuel with
  | zero => intro i _ q hq1 hq2; omega
  | succ fuel ih =>
    intro i hp q hq1 hq2 crm hcrm
    simp only [probeMatch] at hp
    cases htbl : tbl ((hash + i) % slots) with
    | some crm0 =>
      rw [htbl] at hp
      simp only at hp
      by_cases hpred : pred crm0 = true
      · rw [if_pos hpred] at hp
        exact absurd hp (by simp)
      · rw [if_neg hpred] at hp
        by_cases hqi : q = i
        · subst hqi
          rw [htbl] at hcrm
          cases hcrm
          exact Bool.eq_false_iff.mpr hpred
        · exact ih (i + 1) hp q (by omega) (by omega) crm hcrm
    | none =>
      rw [htbl] at hp
      simp only at hp
      by_cases hqi : q = i
      · subst hqi
        rw [htbl] at hcrm
        exact absurd hcrm (by simp)
      · exact ih (i + 1) hp q (by omega) (by omega) crm hcrm

/-- Registrations are keyed by the (method, host) pair: the C API forbids
duplicate registrations (C9), so a well-formed server has at most one
registration per pair. -/
def UniqPairs (regs : List srv_registered_method) : Prop :=
  ∀ r1, r1 ∈ regs → ∀ r2, r2 ∈ regs →
    r1.method = r2.method → r1.host = r2.host → r1 = r2

theorem start_new_rpc_route_eq (h : Option Mdstr → Mdstr → Nat)
    (tbl : Nat → Option channel_registered_method) (slots maxp p hst : Nat) :
    start_new_rpc_route h ⟨some (tbl, slots, maxp)⟩ (some p) (some hst)
      = (match probeMatch (fun crm => crm.host == some hst && crm.method == p)
            tbl slots (h (some hst) p) 0 (maxp + 1) with
         | some mid => some mid
         | none =>
           match probeMatch (fun crm => crm.host == none && crm.method == p)
               tbl slots (h none p) 0 (maxp + 1) with
           | some mid => some mid
           | none => none) := rfl

theorem setup_transport_table_pos (h : Option Mdstr → Mdstr → Nat)
    (regs : List srv_registered_method) (hlen : 0 < regs.length) :
    setup_transport_table h regs
      = ⟨some ((buildRegisteredMethodTable h regs).1, 2 * regs.length,
          (buildRegisteredMethodTable h regs).2)⟩ := by
  unfold setup_transport_table
  rw [if_neg (by omega)]

theorem route_exact (h : Option Mdstr → Mdstr → Nat)
    (regs : List srv_registered_method) (hu : UniqPairs regs)
    (r : srv_registered_method) (hr : r ∈ regs) (p hst : Mdstr)
    (hm : r.method = p) (hh : r.host = some hst) :
    start_new_rpc_route h (setup_transport_table h regs) (some p) (some hst)
      = some r.mid := by
  have hlen : 0 < regs.length := by
    cases regs with
    | nil => exact absurd hr (List.not_mem_nil r)
    | cons a l => simp
  rw [setup_transport_table_pos h regs hlen]
  rw [start_new_rpc_route_eq]
  obtain ⟨q, hq, hqin⟩ := buildTable_present h regs hlen r hr
  have hhash : h r.host r.method = h (some hst) p := by rw [hh, hm]
  rw [hhash] at hqin
  set T := (buildRegisteredMethodTable h regs).1 with hT
  set M := (buildRegisteredMethodTable h regs).2 with hM
  set epred := (fun crm : channel_registered_method =>
      crm.host == some hst && crm.method == p) with hepred
  have hpt : epred (entryOf r) = true := by
    rw [hepred]
    simp [entryOf, hh, hm]
  cases hpm : probeMatch epred T (2 * regs.length) (h (some hst) p) 0 (M + 1) with
  | none =>
    exfalso
    have hpf := probeMatch_none_sound epred T (2 * regs.length)
      (h (some hst) p) (M + 1) 0 hpm q (Nat.zero_le q) (by omega)
      (entryOf r) hqin
    rw [hpt] at hpf
    simp at hpf
  | some mid =>
    obtain ⟨q', crm, _, _, hslot, hpredc, hmid⟩ :=
      probeMatch_some_sound epred T (2 * regs.length)
        (h (some hst) p) (M + 1) 0 mid hpm
    obtain ⟨r', hr', hre⟩ := buildTable_sound h regs hlen _ crm hslot
    subst hre
    have hsplit : r'.host = some hst ∧ r'.method = p := by
      simpa [hepred, entryOf] using hpredc
    have hrr : r' = r :=
      hu r' hr' r hr (by rw [hsplit.2, hm]) (by rw [hsplit.1, hh])
    show some mid = some r.mid
    rw [← hmid, hrr]
    rfl

theorem route_wildcard (h : Option Mdstr → Mdstr → Nat)
    (regs : List srv_registered_method) (hu : UniqPairs regs)
    (r : srv_registered_method) (hr : r ∈ regs) (p hst : Mdstr)
    (hm : r.method = p) (hh : r.host = none)
    (hnoex : ∀ r', r' ∈ regs → r'.method = p → r'.host ≠ some hst) :
    start_new_rpc_route h (setup_transport_table h regs) (some p) (some hst)
      = some r.mid := by
  have hlen : 0 < regs.length := by
    cases regs with
    | nil => exact absurd hr (List.not_mem_nil r)
    | cons a l => simp
  rw [setup_transport_table_pos h regs hlen]
  rw [start_new_rpc_route_eq]
  set T := (buildRegisteredMethodTable h regs).1 with hT
  set M := (buildRegisteredMethodTable h regs).2 with hM
  set epred := (fun crm : channel_registered_method =>
      crm.host == some hst && crm.method == p) with hepred
  set wpred := (fun crm : channel_registered_method =>
      crm.host == none && crm.method == p) with hwpred
  cases hpme : probeMatch epred T (2 * regs.length) (h (some hst) p) 0 (M + 1) with
  | some mid =>
    exfalso
    obtain ⟨q', crm, _, _, hslot, hpredc, hmid⟩ :=
      probeMatch_some_sound epred T (2 * regs.length)
        (h (some hst) p) (M + 1) 0 mid hpme
    obtain ⟨r', hr', hre⟩ := buildTable_sound h regs hlen _ crm hslot
    subst hre
    have hsplit : r'.host = some hst ∧ r'.method = p := by
      simpa [hepred, entryOf] using hpredc
    exact hnoex r' hr' hsplit.2 hsplit.1
  | none =>
    obtain ⟨q, hq, hqin⟩ := buildTable_present h regs hlen r hr
    have hhash : h r.host r.method = h none p := by rw [hh, hm]
    rw [hhash] at hqin
    have hpt : wpred (entryOf r) = true := by
      rw [hwpred]
      simp [entryOf, hh, hm]
    cases hpmw : probeMatch wpred T (2 * regs.length) (h none p) 0 (M + 1) with
    | none =>
      exfalso
      have hpf := probeMatch_none_sound wpred T (2 * regs.length)
        (h none p) (M + 1) 0 hpmw q (Nat.zero_le q) (by omega)
        (entryOf r) hqin
      rw [hpt] at hpf
      simp at hpf
    | some mid =>
      obtain ⟨q', crm, _, _, hslot, hpredc, hmid⟩ :=
        probeMatch_some_sound wpred T (2 * regs.length)
          (h none p) (M + 1) 0 mid hpmw
      obtain ⟨r', hr', hre⟩ := buildTable_sound h regs hlen _ crm hslot
      subst hre
      have hsplit : r'.host = none ∧ r'.method = p := by
        simpa [hwpred, entryOf] using hpredc
      have hrr : r' = r :=
        hu r' hr' r hr (by rw [hsplit.2, hm]) (by rw [hsplit.1, hh])
      show some mid = some r.mid
      rw [← hmid, hrr]
      rfl

theorem route_unregistered (h : Option Mdstr → Mdstr → Nat)
    (regs : List srv_registered_method) (p hst : Mdstr)
    (hlen : 0 < regs.length)
    (hnom : ∀ r', r' ∈ regs → r'.method = p →
      r'.host ≠ some hst ∧ r'.host ≠ none) :
    start_new_rpc_route h (setup_transport_table h regs) (some p) (some hst)
      = none := by
  rw [setup_transport_table_pos h regs hlen]
  rw [start_new_rpc_route_eq]
  set T := (buildRegisteredMethodTable h regs).1 with hT
  set M := (buildRegisteredMethodTable h regs).2 with hM
  set epred := (fun crm : channel_registered_method =>
      crm.host == some hst && crm.method == p) with hepred
  set wpred := (fun crm : channel_registered_method =>
      crm.host == none && crm.method == p) with hwpred
  cases hpme : probeMatch epred T (2 * regs.length) (h (some hst) p) 0 (M + 1) with
  | some mid =>
    exfalso
    obtain ⟨q', crm, _, _, hslot, hpredc, hmid⟩ :=
      probeMatch_some_sound epred T (2 * regs.length)
        (h (some hst) p) (M + 1) 0 mid hpme
    obtain ⟨r', hr', hre⟩ := buildTable_sound h regs hlen _ crm hslot
    subst hre
    have hsplit : r'.host = some hst ∧ r'.method = p := by
      simpa [hepred, entryOf] using hpredc
    exact (hnom r' hr' hsplit.2).1 hsplit.1
  | none =>
    cases hpmw : probeMatch wpred T (2 * regs.length) (h none p) 0 (M + 1) with
    | some mid =>
      exfalso
      obtain ⟨q', crm, _, _, hslot, hpredc, hmid⟩ :=
        probeMatch_some_sound wpred T (2 * regs.length)
          (h none p) (M + 1) 0 mid hpmw
      obtain ⟨r', hr', hre⟩ := buildTable_sound h regs hlen _ crm hslot
      subst hre
      have hsplit : r'.host = none ∧ r'.method = p := by
        simpa [hwpred, entryOf] using hpredc
      exact (hnom r' hr' hsplit.2).2 hsplit.1
    | none => rfl

/-! ## A concrete execution that loses a ticket (C1, C7) -/

/-- initState 1 1 after: a call arrived (init_call_elem), its metadata
routed it to the unregistered matcher whose ticket stack was empty, parking
it PENDING in the FIFO, and then GRPC_STREAM_CLOSED zombied it in place —
still linked in the FIFO, with no kill closure scheduled. -/
def zombie_in_fifo_state : ServerState :=
  stream_closed (dispatch_rpc (init_call_elem_step (initState 1 1)) 0 0) 0

theorem zombie_prefix_steps :
    Relation.ReflTransGen Step (initState 1 1) zombie_in_fifo_state := by
  have h1 : Step (initState 1 1) (init_call_elem_step (initState 1 1)) :=
    Step.new_call
  have h2 : Step (init_call_elem_step (initState 1 1))
      (dispatch_rpc (init_call_elem_step (initState 1 1)) 0 0) :=
    Step.recv_initial_metadata 0 0
      ⟨call_state.NOT_STARTED, 0, 0, none, false, false⟩
      (by decide) rfl rfl rfl rfl
  have h3 : Step (dispatch_rpc (init_call_elem_step (initState 1 1)) 0 0)
      zombie_in_fifo_state :=
    Step.closed 0 ⟨call_state.PENDING, 0, 0, none, true, false⟩ rfl rfl
  exact Relation.ReflTransGen.tail
    (Relation.ReflTransGen.tail (Relation.ReflTransGen.single h1) h2) h3

/-- One ticket is then submitted: queue_call_request pushes slot 0, sees the
empty→non-empty edge, drains, pops the ticket for the zombied call and drops
it (scheduling only the kill closure).  The ticket (serial 0) is recorded in
`submitted` but its backing slot is on no stack and no call awaits it. -/
def leak_state : ServerState :=
  (queue_call_request zombie_in_fifo_state 0).1

theorem leak_steps :
    Relation.ReflTransGen Step (initState 1 1) leak_state :=
  Relation.ReflTransGen.tail zombie_prefix_steps
    (Step.request 0 (by decide))

theorem leak_matchers_eq : leak_state.matchers
    = upd (upd (upd (fun _ => (⟨[], []⟩ : request_matcher)) 0 ⟨[0], []⟩) 0
        ⟨[0], [0]⟩) 0 ⟨[], []⟩ := rfl

theorem leak_calls_eq : leak_state.calls
    = upd (upd (upd (upd (fun _ => none) 0
        (some ⟨call_state.NOT_STARTED, 0, 0, none, false, false⟩)) 0
        (some ⟨call_state.PENDING, 0, 0, none, true, false⟩)) 0
        (some ⟨call_state.ZOMBIED, 0, 0, none, true, false⟩)) 0
        (some ⟨call_state.ZOMBIED, 0, 1, none, true, false⟩) := rfl

theorem leak_dead : TicketDead leak_state 0 := by
  refine ⟨rfl, by decide, ?_, ?_⟩
  · intro m idx hmem
    exfalso
    rw [leak_matchers_eq] at hmem
    by_cases h0 : m = 0
    · subst h0
      rw [upd_self] at hmem
      exact (List.not_mem_nil idx) hmem
    · rw [upd_ne _ _ _ h0, upd_ne _ _ _ h0, upd_ne _ _ _ h0] at hmem
      exact (List.not_mem_nil idx) hmem
  · intro c cd idx hc hawait
    rw [leak_calls_eq] at hc
    by_cases h0 : c = 0
    · subst h0
      rw [upd_self] at hc
      cases hc
      exact absurd hawait (by simp)
    · rw [upd_ne _ _ _ h0, upd_ne _ _ _ h0, upd_ne _ _ _ h0,
        upd_ne _ _ _ h0] at hc
      exact absurd hc (by simp)

/-! ## Claim theorems -/

theorem steps_mono_all {s s' : ServerState} (hreach : Reachable s)
    (hsteps : Relation.ReflTransGen Step s s') : calls_mono s s' := by
  induction hsteps with
  | refl => exact calls_mono_refl s
  | tail hps hstep ih =>
    exact calls_mono_trans ih
      (step_calls_mono hstep (reachable_inv (reachable_trans hreach hps)))

/-- C1: the exactly-one-completion property FAILS.  In the modelled
execution `leak_state` — reachable from a fresh server — ticket 0 was
submitted through queue_call_request (no synchronous error), yet no
completion was ever posted for it, and none ever will be: the pairing drain
popped the ticket's backing index for a call that was ZOMBIED in the FIFO
and dropped it without failing or publishing the ticket. -/
theorem c1_submitted_ticket_never_completed :
    Reachable leak_state ∧ 0 ∈ leak_state.submitted ∧
    ∀ s', Relation.ReflTransGen Step leak_state s' →
      ticketCompletionCount s' 0 = 0 := by
  refine ⟨⟨1, 1, leak_steps⟩, by decide, ?_⟩
  intro s' hs
  exact (dead_steps hs leak_dead).1

theorem c1_submitted_ticket_never_completed_witness :
    ticketCompletionCount leak_state 0 = 0 :=
  c1_submitted_ticket_never_completed.2.2 leak_state Relation.ReflTransGen.refl

/-- C2: along any execution from a reachable state, every call record's
state evolves only along NOT_STARTED → {PENDING, ACTIVATED, ZOMBIED} and
PENDING → {ACTIVATED, ZOMBIED} (state_step_ok), and once it is terminal
(ACTIVATED or ZOMBIED) it never changes. -/
theorem c2_call_state_machine {s s' : ServerState} (hreach : Reachable s)
    (hsteps : Relation.ReflTransGen Step s s') (c : Nat) (cd : call_data)
    (hc : s.calls c = some cd) :
    (∃ cd', s'.calls c = some cd' ∧ state_step_ok cd.state cd'.state) ∧
    ((cd.state = call_state.ACTIVATED ∨ cd.state = call_state.ZOMBIED) →
      ∃ cd', s'.calls c = some cd' ∧ cd'.state = cd.state) :=
  ⟨steps_mono_all hreach hsteps c cd hc,
   fun hterm => steps_terminal_stable hreach hsteps c cd hc hterm⟩

theorem c2_call_state_machine_witness :
    (∃ cd', (init_call_elem_step (initState 1 1)).calls 0 = some cd'
        ∧ state_step_ok
            (⟨call_state.NOT_STARTED, 0, 0, none, false, false⟩ : call_data).state
            cd'.state) ∧
    (((⟨call_state.NOT_STARTED, 0, 0, none, false, false⟩ : call_data).state
          = call_state.ACTIVATED ∨
      (⟨call_state.NOT_STARTED, 0, 0, none, false, false⟩ : call_data).state
          = call_state.ZOMBIED) →
      ∃ cd', (init_call_elem_step (initState 1 1)).calls 0 = some cd'
        ∧ cd'.state
          = (⟨call_state.NOT_STARTED, 0, 0, none, false, false⟩ : call_data).state) :=
  c2_call_state_machine
    ⟨1, 1, Relation.ReflTransGen.single Step.new_call⟩
    Relation.ReflTransGen.refl 0
    ⟨call_state.NOT_STARTED, 0, 0, none, false, false⟩ rfl

/-- C3: eager pairing — in every reachable state, no request matcher has
both a non-empty pending-call FIFO and a non-empty ticket index stack. -/
theorem c3_eager_pairing {s : ServerState} (h : Reachable s) (m : Nat) :
    (s.matchers m).pending = [] ∨ (s.matchers m).requests = [] :=
  (reachable_inv h).2 m

theorem c3_eager_pairing_witness :
    ((initState 1 1).matchers 0).pending = []
    ∨ ((initState 1 1).matchers 0).requests = [] :=
  c3_eager_pairing ⟨1, 1, Relation.ReflTransGen.refl⟩ 0

/-- C4: the pairing drain is entered exactly on the empty→non-empty edge of
the matcher's ticket stack (first two conjuncts: with the freelist and
shutdown checks passed, queue_call_request drains iff the stack was empty
before the push), and the drain detaches pending calls from the FIFO head
in order, stopping as soon as a ticket pop returns -1: it consumes exactly
min(|pending|, |tickets|) pairs off the heads of both lists, leaves other
calls untouched, pairs each detached PENDING call with a popped ticket
index, and schedules a kill for each detached ZOMBIED call. -/
theorem c4_pairing_drain (s : ServerState) (m idx : Nat) (rest : List Nat)
    (hf : s.shutdown_flag = false) (hfl : s.request_freelist = idx :: rest) :
    ((s.matchers m).requests = [] →
      queue_call_request s m
        = (drain (pushState s m idx rest) m, grpc_call_error.GRPC_CALL_OK)) ∧
    (∀ x xs, (s.matchers m).requests = x :: xs →
      queue_call_request s m
        = (pushState s m idx rest, grpc_call_error.GRPC_CALL_OK)) ∧
    (∀ (u : ServerState) (p r : List Nat),
      (u.matchers m).pending = p → (u.matchers m).requests = r →
      (∀ c, c ∈ p → ∃ cd, u.calls c = some cd ∧
        (cd.state = call_state.PENDING ∨ cd.state = call_state.ZOMBIED)) →
      (∀ c, c ∈ p → cnt c p = 1) →
      (drain u m).matchers m
          = ⟨p.drop (min p.length r.length), r.drop (min p.length r.length)⟩
        ∧ (∀ c, c ∉ p.take (min p.length r.length) →
            (drain u m).calls c = u.calls c)
        ∧ (∀ c, c ∈ p.take (min p.length r.length) → ∀ cd, u.calls c = some cd →
            (cd.state = call_state.PENDING →
              ∃ idx2, idx2 ∈ r.take (min p.length r.length) ∧
                (drain u m).calls c = some { cd with
                  state := call_state.ACTIVATED, awaiting := some idx2 }) ∧
            (cd.state = call_state.ZOMBIED →
              (drain u m).calls c = some { cd with
                killScheduled := cd.killScheduled + 1 }))) := by
  refine ⟨fun hr => queue_call_request_edge hf hfl hr,
    fun x xs hr => queue_call_request_no_edge hf hfl hr, ?_⟩
  intro u p r hp hr hst hcnt
  have hdrain : drain u m = drainLoop p.length u m := by
    rw [drain, hp]
  rw [hdrain]
  exact drainLoop_run p.length u m p r hp hr (Nat.le_refl _) hst hcnt

theorem c4_pairing_drain_witness :
    queue_call_request (initState 1 1) 0
      = (drain (pushState (initState 1 1) 0 0 []) 0,
         grpc_call_error.GRPC_CALL_OK) :=
  (c4_pairing_drain (initState 1 1) 0 0 [] rfl rfl).1 rfl

/-- C5: routing with a registered-method table and both :path and
:authority interned: an exact host+method registration is found (and, by
key uniqueness, exactly its matcher is selected — so with both an
exact-host and a wildcard registration for the same method the exact one
wins); the wildcard (host = NULL) registration is used exactly when no
exact-host entry exists for the pair; when neither matches the route is
the unregistered matcher (`none`), as it is when no table was built; and
every probe hit happens within max_probes + 1 attempts of its chain. -/
theorem c5_registered_method_lookup (h : Option Mdstr → Mdstr → Nat)
    (regs : List srv_registered_method) (p hst : Mdstr)
    (hu : UniqPairs regs) :
    (∀ r, r ∈ regs → r.method = p → r.host = some hst →
      start_new_rpc_route h (setup_transport_table h regs) (some p) (some hst)
        = some r.mid) ∧
    (∀ r, r ∈ regs → r.method = p → r.host = none →
      (∀ r', r' ∈ regs → r'.method = p → r'.host ≠ some hst) →
      start_new_rpc_route h (setup_transport_table h regs) (some p) (some hst)
        = some r.mid) ∧
    (0 < regs.length →
      (∀ r', r' ∈ regs → r'.method = p → r'.host ≠ some hst ∧ r'.host ≠ none) →
      start_new_rpc_route h (setup_transport_table h regs) (some p) (some hst)
        = none) ∧
    (start_new_rpc_route h (setup_transport_table h []) (some p) (some hst)
        = none) ∧
    (∀ mid, probeMatch (fun crm => crm.host == some hst && crm.method == p)
        (buildRegisteredMethodTable h regs).1 (2 * regs.length)
        (h (some hst) p) 0 ((buildRegisteredMethodTable h regs).2 + 1)
        = some mid →
      ∃ q, q ≤ (buildRegisteredMethodTable h regs).2 ∧
        ∃ crm, (buildRegisteredMethodTable h regs).1
            ((h (some hst) p + q) % (2 * regs.length)) = some crm ∧
          crm.server_registered_method = mid) ∧
    (∀ mid, probeMatch (fun crm => crm.host == none && crm.method == p)
        (buildRegisteredMethodTable h regs).1 (2 * regs.length)
        (h none p) 0 ((buildRegisteredMethodTable h regs).2 + 1)
        = some mid →
      ∃ q, q ≤ (buildRegisteredMethodTable h regs).2 ∧
        ∃ crm, (buildRegisteredMethodTable h regs).1
            ((h none p + q) % (2 * regs.length)) = some crm ∧
          crm.server_registered_method = mid) := by
  refine ⟨fun r hr hm hh => route_exact h regs hu r hr p hst hm hh,
    fun r hr hm hh hno => route_wildcard h regs hu r hr p hst hm hh hno,
    fun hlen hno => route_unregistered h regs p hst hlen hno,
    rfl, ?_, ?_⟩
  · intro mid hpm
    obtain ⟨q, crm, _, hqlt, hslot, _, hmid⟩ :=
      probeMatch_some_sound _ _ _ _ _ 0 mid hpm
    exact ⟨q, by omega, crm, hslot, hmid⟩
  · intro mid hpm
    obtain ⟨q, crm, _, hqlt, hslot, _, hmid⟩ :=
      probeMatch_some_sound _ _ _ _ _ 0 mid hpm
    exact ⟨q, by omega, crm, hslot, hmid⟩

theorem c5_registered_method_lookup_witness :
    start_new_rpc_route (fun _ me => me)
      (setup_transport_table (fun _ me => me)
        [⟨10, some 7, 1⟩, ⟨10, none, 2⟩]) (some 10) (some 7) = some 1 := by
  have hu : UniqPairs [⟨10, some 7, 1⟩, ⟨10, none, 2⟩] := by
    intro r1 h1 r2 h2 hm hh
    rcases List.mem_cons.mp h1 with rfl | h1
    · rcases List.mem_cons.mp h2 with rfl | h2
      · rfl
      · rcases List.mem_cons.mp h2 with rfl | h2
        · exact absurd hh (by decide)
        · exact absurd h2 (List.not_mem_nil r2)
    · rcases List.mem_cons.mp h1 with rfl | h1
      · rcases List.mem_cons.mp h2 with rfl | h2
        · exact absurd hh (by decide)
        · rcases List.mem_cons.mp h2 with rfl | h2
          · rfl
          · exact absurd h2 (List.not_mem_nil r2)
      · exact absurd h1 (List.not_mem_nil r1)
  exact (c5_registered_method_lookup (fun _ me => me)
    [⟨10, some 7, 1⟩, ⟨10, none, 2⟩] 10 7 hu).1
    ⟨10, some 7, 1⟩ (List.mem_cons_self _ _) rfl rfl

/-- C6: when queue_call_request sees the shutdown flag set, or the freelist
pop fails, it posts the fail_call completion for the fresh ticket (success
= 0, `*rc->call` cleared, metadata count zeroed), touches no matcher, and
returns GRPC_CALL_OK. -/
theorem c6_queue_fail_paths (s : ServerState) (m t : Nat) :
    (s.shutdown_flag = true →
      queue_call_request s m
        = ({ s with
            nextTid := s.nextTid + 1
            submitted := s.nextTid :: s.submitted
            ticketCompletions :=
              fail_call_completion s.nextTid :: s.ticketCompletions },
           grpc_call_error.GRPC_CALL_OK)
      ∧ (queue_call_request s m).1.matchers = s.matchers) ∧
    (s.shutdown_flag = false → s.request_freelist = [] →
      queue_call_request s m
        = ({ s with
            nextTid := s.nextTid + 1
            submitted := s.nextTid :: s.submitted
            ticketCompletions :=
              fail_call_completion s.nextTid :: s.ticketCompletions },
           grpc_call_error.GRPC_CALL_OK)
      ∧ (queue_call_request s m).1.matchers = s.matchers) ∧
    ((fail_call_completion t).success = false
      ∧ (fail_call_completion t).callCleared = true
      ∧ (fail_call_completion t).metadataZeroed = true
      ∧ (fail_call_completion t).tid = t) := by
  refine ⟨?_, ?_, rfl, rfl, rfl, rfl⟩
  · intro hf
    have he := queue_call_request_shutdown (m := m) hf
    exact ⟨he, by rw [he]⟩
  · intro hf hfl
    have he := queue_call_request_exhausted (m := m) hf hfl
    exact ⟨he, by rw [he]⟩

theorem c6_queue_fail_paths_witness :
    queue_call_request { initState 1 1 with shutdown_flag := true } 0
      = ({ initState 1 1 with
          shutdown_flag := true
          nextTid := 1
          submitted := [0]
          ticketCompletions := [fail_call_completion 0] },
         grpc_call_error.GRPC_CALL_OK)
    ∧ (queue_call_request { initState 1 1 with shutdown_flag := true } 0).1.matchers
      = ({ initState 1 1 with shutdown_flag := true } : ServerState).matchers :=
  (c6_queue_fail_paths { initState 1 1 with shutdown_flag := true } 0 0).1 rfl

/-- C7: the original claim FAILS (see c7_zombie_prior_kill_counterexample:
a call zombied while PENDING sits in the FIFO with no kill scheduled); the
corrected discipline holds in every reachable state: a ZOMBIED call has no
pending publish and either exactly one kill closure has been scheduled and
the call is on no FIFO, or no kill has been scheduled yet and the call is
still linked exactly once in its matcher's pending FIFO (the drain's later
kill for it is then the first, not an extra one). -/
theorem c7_zombied_kill_discipline {s : ServerState} (h : Reachable s)
    (c : Nat) (cd : call_data) (hc : s.calls c = some cd)
    (hz : cd.state = call_state.ZOMBIED) :
    cd.awaiting = none ∧
    ((cd.killScheduled = 1 ∧ offAllFifos s c) ∨
     (cd.killScheduled = 0 ∧ onFifoOnce s c cd.matcher ∧
      cd.destroyed = false)) :=
  (((reachable_inv h).1.2.1 c).2 cd hc).2.2.2 hz

theorem c7_zombie_prior_kill_counterexample :
    ¬ (∀ s, Reachable s → ∀ c cd, s.calls c = some cd →
        cd.state = call_state.ZOMBIED → 1 ≤ cd.killScheduled) := by
  intro hall
  have h := hall zombie_in_fifo_state ⟨1, 1, zombie_prefix_steps⟩ 0
    ⟨call_state.ZOMBIED, 0, 0, none, true, false⟩ rfl rfl
  exact absurd h (by decide)

theorem c7_zombied_kill_discipline_witness :
    (⟨call_state.ZOMBIED, 0, 0, none, true, false⟩ : call_data).awaiting = none ∧
    (((⟨call_state.ZOMBIED, 0, 0, none, true, false⟩ : call_data).killScheduled = 1 ∧
        offAllFifos zombie_in_fifo_state 0) ∨
     ((⟨call_state.ZOMBIED, 0, 0, none, true, false⟩ : call_data).killScheduled = 0 ∧
        onFifoOnce zombie_in_fifo_state 0
          (⟨call_state.ZOMBIED, 0, 0, none, true, false⟩ : call_data).matcher ∧
        (⟨call_state.ZOMBIED, 0, 0, none, true, false⟩ : call_data).destroyed
          = false)) :=
  c7_zombied_kill_discipline ⟨1, 1, zombie_prefix_steps⟩ 0
    ⟨call_state.ZOMBIED, 0, 0, none, true, false⟩ rfl rfl

/-- C8: shutdown publication — in every reachable state shutdown_published
implies shutdown_flag, and each registered shutdown tag has exactly one
success completion when published and none before; maybe_finish_shutdown
is the identity unless the flag is set and not yet published, and it
publishes — posting one success completion per registered tag — exactly
when no channel remains and every listener acknowledged destruction. -/
theorem c8_shutdown_publication {s : ServerState} (h : Reachable s) :
    (s.shutdown_published = true → s.shutdown_flag = true) ∧
    (∀ t, t ∈ s.shutdown_tags →
      cnt (t, true) s.shutdownCompletions
        = if s.shutdown_published then 1 else 0) ∧
    ((!s.shutdown_flag || s.shutdown_published) = true →
      maybe_finish_shutdown s = s) ∧
    (∀ u : ServerState, (!u.shutdown_flag || u.shutdown_published) = false →
      ¬ ((kill_pending_work_locked u).numChannels ≠ 0 ∨
         (kill_pending_work_locked u).listenersDestroyed <
           (kill_pending_work_locked u).numListeners) →
      maybe_finish_shutdown u = { kill_pending_work_locked u with
        shutdown_published := true
        shutdownCompletions :=
          (kill_pending_work_locked u).shutdown_tags.map (fun t => (t, true)) ++
          (kill_pending_work_locked u).shutdownCompletions }) := by
  have h5 := (reachable_inv h).1.2.2.2.2
  exact ⟨h5.1, h5.2.2.2.1, fun hidle => maybe_finish_idle hidle,
    fun u h1 h2 => maybe_finish_publish h1 h2⟩

theorem c8_shutdown_publication_witness :
    maybe_finish_shutdown (initState 1 1) = initState 1 1 :=
  (c8_shutdown_publication ⟨1, 1, Relation.ReflTransGen.refl⟩).2.2.1 rfl

/-- C9: the original claim FAILS on the "empty" method string (see
c9_register_counterexample: registering method "" succeeds and returns a
handle); the corrected characterization: grpc_server_register_method
returns null exactly when the method is missing (NULL) or a method with
the same (method, host) pair — null host equal only to null host, per
streq — is already registered; otherwise it returns the handle and
prepends the record to the registered-method list. -/
theorem c9_register_method (regs : List registered_method_rec)
    (method host : Option String) :
    ((grpc_server_register_method regs method host).1 = none ↔
      (method = none ∨
       ∃ mstr, method = some mstr ∧ ∃ m, m ∈ regs ∧
         (streq (some m.method) (some mstr) && streq m.host host) = true)) ∧
    (∀ mstr, method = some mstr →
      (∀ m, m ∈ regs →
        (streq (some m.method) (some mstr) && streq m.host host) = false) →
      grpc_server_register_method regs method host
        = (some ⟨mstr, host⟩, ⟨mstr, host⟩ :: regs)) := by
  constructor
  · cases method with
    | none => simp [grpc_server_register_method]
    | some mstr =>
      simp only [grpc_server_register_method]
      by_cases hdup : regs.any
          (fun m => streq (some m.method) (some mstr) && streq m.host host) = true
      · rw [if_pos hdup]
        constructor
        · intro _
          obtain ⟨m, hm, hp⟩ := List.any_eq_true.mp hdup
          exact Or.inr ⟨mstr, rfl, m, hm, hp⟩
        · intro _
          rfl
      · rw [if_neg hdup]
        constructor
        · intro habs
          exact absurd habs (by simp)
        · intro hcases
          exfalso
          rcases hcases with hnone | ⟨mstr', hm', m, hmem, hp⟩
          · cases hnone
          · cases hm'
            exact hdup (List.any_eq_true.mpr ⟨m, hmem, hp⟩)
  · intro mstr hmeq hnone
    subst hmeq
    simp only [grpc_server_register_method]
    rw [if_neg ?hne]
    case hne =>
      intro habs
      obtain ⟨m, hm, hp⟩ := List.any_eq_true.mp habs
      rw [hnone m hm] at hp
      cases hp

theorem c9_register_counterexample :
    ¬ (∀ (regs : List registered_method_rec) (method host : Option String),
        (grpc_server_register_method regs method host).1 = none ↔
          (method = none ∨ method = some "" ∨
           ∃ mstr, method = some mstr ∧ ∃ m, m ∈ regs ∧
             (streq (some m.method) (some mstr) && streq m.host host) = true)) := by
  intro hall
  have h := (hall [] (some "") none).2 (Or.inr (Or.inl rfl))
  exact absurd h (by decide)

theorem c9_register_method_witness :
    (grpc_server_register_method
      [⟨"/svc/M", none⟩] (some "/svc/M") none).1 = none :=
  (c9_register_method [⟨"/svc/M", none⟩] (some "/svc/M") none).1.mpr
    (Or.inr ⟨"/svc/M", rfl, ⟨"/svc/M", none⟩,
      List.mem_cons_self _ _, by decide⟩)

/-- C10: in every reachable state the modelled GPR_ASSERT of
destroy_call_elem has not fired (assertionFailed is false), and no call
that destroy_call_elem has run for was PENDING at that point: a destroyed
call record is never in state PENDING. -/
theorem c10_destroy_not_pending {s : ServerState} (h : Reachable s) :
    s.assertionFailed = false ∧
    (∀ c cd, s.calls c = some cd → cd.destroyed = true →
      cd.state ≠ call_state.PENDING) := by
  have hinv := reachable_inv h
  refine ⟨hinv.1.2.2.2.1, ?_⟩
  intro c cd hc hd hp
  have hpend := ((hinv.1.2.1 c).2 cd hc).2.1 hp
  rw [hpend.2.2.2] at hd
  cases hd

theorem c10_destroy_not_pending_witness :
    (initState 1 1).assertionFailed = false :=
  (c10_destroy_not_pending ⟨1, 1, Relation.ReflTransGen.refl⟩).1
